import Mathlib

/-!
# rssalchemy: the task execution pipeline

A shallow embedding of the worker side of rssalchemy (package `pwextractor`:
`utils.go`, `content.go`, `parser.go`, `client.go`, `extractor.go`) and the
properties of it that the specification states.

Go strings are modelled as Lean strings (valid UTF-8, one `Char` per rune).
Functions of the Go standard library and of third-party packages that the code
calls (`net/url`, `net`, `golang.org/x/net/html`, `github.com/ericchiang/css`)
are fields of the structure `GoLib`; the theorems hold for every such library,
and `goLib` is a small executable instance on which the definitions are
evaluated.
-/

namespace RssAlchemy

/-! ## Strings -/

/-- Go's `unicode.IsSpace`. -/
def isSpace (c : Char) : Bool :=
  (9 ≤ c.toNat && c.toNat ≤ 13) || c.toNat == 32 || c.toNat == 0x85 || c.toNat == 0xA0 ||
  c.toNat == 0x1680 || (0x2000 ≤ c.toNat && c.toNat ≤ 0x200A) || c.toNat == 0x2028 ||
  c.toNat == 0x2029 || c.toNat == 0x202F || c.toNat == 0x205F || c.toNat == 0x3000

/-- Go's `strings.TrimSpace`: leading and trailing white space removed. -/
def trimSpace (s : String) : String :=
  ⟨((s.data.dropWhile isSpace).reverse.dropWhile isSpace).reverse⟩

/-- Go's `strings.Split` for a one-character separator. -/
def split (sep : Char) : List Char → List (List Char)
  | [] => [[]]
  | c :: cs =>
    if c = sep then [] :: split sep cs
    else
      match split sep cs with
      | [] => [[c]]
      | part :: parts => (c :: part) :: parts

/-- Go's `strings.TrimRight` for a one-character cutset. -/
def trimRight (cutset : Char) (s : String) : String :=
  ⟨(s.data.reverse.dropWhile (fun c => c = cutset)).reverse⟩

/-! ## The DOM of `golang.org/x/net/html` -/

/-- The node types of `html.Node`. -/
inductive NodeType where
  | ErrorNode
  | TextNode
  | DocumentNode
  | ElementNode
  | CommentNode
  | DoctypeNode
deriving DecidableEq, Repr

/-- One `html.Attribute`. -/
structure Attribute where
  Key : String
  Val : String
deriving DecidableEq, Repr

/-- An `html.Node` with its children in sibling order
(`FirstChild`, then `NextSibling` until nil). -/
inductive Node where
  | mk (type : NodeType) (Data : String) (Attr : List Attribute) (children : List Node)

/-- The field `Type` of a node. -/
def Node.type : Node → NodeType
  | .mk t _ _ _ => t

/-- The field `Data` of a node. -/
def Node.Data : Node → String
  | .mk _ d _ _ => d

/-- The field `Attr` of a node. -/
def Node.Attr : Node → List Attribute
  | .mk _ _ a _ => a

/-- The children of a node, first to last. -/
def Node.children : Node → List Node
  | .mk _ _ _ c => c

/-! ## Library types -/

/-- The user part of a `url.URL` (`url.Userinfo`): a username and,
when one is set, a password. -/
structure Userinfo where
  username : String
  password : Option String
deriving DecidableEq, Repr

/-- Go's `url.URL`; `User = none` is the nil pointer. -/
structure URL where
  Scheme : String := ""
  Opaque : String := ""
  User : Option Userinfo := none
  Host : String := ""
  Path : String := ""
  RawQuery : String := ""
  Fragment : String := ""
deriving DecidableEq, Repr

/-- Go's `(*URL).IsAbs`: the scheme is not empty. -/
def URL.IsAbs (u : URL) : Bool := u.Scheme != ""

/-- Go's `net.IP`, a sequence of bytes. -/
abbrev IP := List Nat

/-- Go's `time.Time`: the instant, as the nanoseconds elapsed since the zero
instant (January 1, year 1, 00:00:00 UTC), and the offset of the location of
the time at that instant, in seconds east of UTC. -/
structure Time where
  instant : Int := 0
  offset : Int := 0
deriving DecidableEq, Repr

/-- A number read as a time: the instant that many nanoseconds after the zero
instant, in UTC. -/
instance (n : Nat) : OfNat Time n := ⟨{ instant := n }⟩

/-- Go's `Time.IsZero`: the instant is the zero instant, whatever the location. -/
def Time.IsZero (t : Time) : Bool := t.instant == 0

/-- Go's `Time.Sub`, the duration between the two instants, in nanoseconds. -/
def Time.Sub (t u : Time) : Int := t.instant - u.instant

/-- The functions of the Go standard library and of third-party packages that
the code calls. A function that returns `(value, error)` in Go returns an
`Option` here, `none` standing for a non-nil error. -/
structure GoLib where
  /-- The function `html.Parse` on the text of a document. -/
  htmlParse : String → Option Node
  /-- The function `css.Parse` followed by `Select` of the parsed selector. -/
  cssSelect : String → Option (Node → List Node)
  /-- The function `unicode.ToLower`. -/
  lowerRune : Char → Char
  /-- The function `strings.EqualFold`. -/
  equalFold : String → String → Bool
  /-- The function `url.Parse`. -/
  urlParse : String → Option URL
  /-- The method `(*URL).String`. -/
  urlString : URL → String
  /-- The method `(*URL).ResolveReference`, receiver first. -/
  resolveReference : URL → URL → URL
  /-- The method `(*URL).Hostname`. -/
  hostname : URL → String
  /-- The function `net.ParseIP`; `none` is the nil address. -/
  parseIP : String → Option IP
  /-- The method `IP.String`. -/
  ipString : IP → String
  /-- The function `net.LookupIP`. -/
  lookupIP : String → Option (List IP)
  /-- The method `IP.IsPrivate`. -/
  isPrivate : IP → Bool
  /-- The method `IP.IsLoopback`. -/
  isLoopback : IP → Bool
  /-- The method `IP.IsUnspecified`. -/
  isUnspecified : IP → Bool
  /-- The method `IP.IsLinkLocalUnicast`. -/
  isLinkLocalUnicast : IP → Bool
  /-- The method `IP.IsMulticast`. -/
  isMulticast : IP → Bool
  /-- The method `IP.Equal`, receiver first. -/
  ipEqual : IP → IP → Bool

/-- Go's `strings.ToLower`: every rune mapped by `unicode.ToLower`. -/
def toLower (L : GoLib) (s : String) : String := ⟨s.data.map L.lowerRune⟩

/-! ## The models of `internal/models` -/

/-- Modelled from the spec: `models.ExtractFrom` (package `internal/models` is
not among the sources), `created_extract_from ∈ {InnerText, Attribute}`; the
third value stands for every other value of the Go type, which the `default`
branch of `extractPost` handles. -/
inductive ExtractFrom where
  | InnerText
  | Attribute
  | Invalid
deriving DecidableEq, Repr

/-- Modelled from the spec: `models.TaskType`, `kind ∈ {Extract, Screenshot}`;
the third value stands for every other value of the Go type. -/
inductive TaskType where
  | Extract
  | PageScreenshot
  | Unknown
deriving DecidableEq, Repr

/-- Modelled from the spec: `models.Task` with the fields that `handleRender`
fills in; `Headers = none` is the nil map. -/
structure Task where
  TaskType : TaskType := .Extract
  URL : String := ""
  SelectorPost : String := ""
  SelectorTitle : String := ""
  SelectorLink : String := ""
  SelectorDescription : String := ""
  SelectorAuthor : String := ""
  SelectorCreated : String := ""
  CreatedExtractFrom : ExtractFrom := .InnerText
  CreatedAttributeName : String := ""
  SelectorContent : String := ""
  SelectorEnclosure : String := ""
  Headers : Option (List (String × String)) := none

/-- Modelled from the spec: `models.FeedItem`; the default value is Go's zero
value `models.FeedItem{}`. -/
structure FeedItem where
  Title : String := ""
  Created : Time := 0
  Updated : Time := 0
  AuthorName : String := ""
  Link : String := ""
  Description : String := ""
  Content : String := ""
  Enclosure : String := ""
  AuthorLink : String := ""
deriving DecidableEq, Repr

/-- Modelled from the spec: `models.TaskResult`. -/
structure TaskResult where
  Title : String := ""
  Icon : String := ""
  Items : List FeedItem := []
deriving DecidableEq, Repr

/-! ## utils.go -/

/-- The function `parseURL`: the parsed URL, nil when `url.Parse` fails. -/
def parseURL (L : GoLib) (raw : String) : Option URL :=
  match L.urlParse raw with
  | none => none
  | some parsed => some parsed

/-- The function `absURL` of package pwextractor. -/
def absURL (L : GoLib) (link : String) (baseURL : Option URL) : String :=
  if trimSpace link = "" then ""
  else
    match baseURL with
    | none => link
    | some base =>
      match L.urlParse link with
      | none => link
      | some parsed =>
        if parsed.IsAbs then L.urlString parsed
        else L.urlString (L.resolveReference base parsed)

/-! ## parser.go: selectors -/

/-- The function `selectNodes`. -/
def selectNodes (L : GoLib) (root : Node) (selector : String) : Except String (List Node) :=
  if trimSpace selector = "" then .error "selector is empty"
  else
    match L.cssSelect selector with
    | none => .error "css parse"
    | some sel => .ok (sel root)

/-- The function `firstNode`; `.ok none` is the pair `(nil, nil)`. -/
def firstNode (L : GoLib) (root : Node) (selector : String) : Except String (Option Node) :=
  match selectNodes L root selector with
  | .error e => .error e
  | .ok nodes =>
    match nodes with
    | [] => .ok none
    | n :: _ => .ok (some n)

mutual
/-- The closure `walk` of `nodeText`, the builder `b` passed along. -/
def nodeText.walk : Node → String → String
  | .mk type data _ children, b =>
    nodeText.walkChildren children (if type = .TextNode then b ++ data ++ " " else b)
/-- The loop of `nodeText.walk` over the children of a node. -/
def nodeText.walkChildren : List Node → String → String
  | [], b => b
  | child :: rest, b => nodeText.walkChildren rest (nodeText.walk child b)
end

/-- The function `nodeText`. -/
def nodeText (n : Node) : String := trimSpace (nodeText.walk n "")

/-- The loop of `nodeAttr` over the attributes. -/
def nodeAttr.loop (L : GoLib) (name : String) : List Attribute → String
  | [] => ""
  | a :: rest => if L.equalFold a.Key name then a.Val else nodeAttr.loop L name rest

/-- The function `nodeAttr`. -/
def nodeAttr (L : GoLib) (n : Node) (name : String) : String :=
  nodeAttr.loop L name n.Attr

/-- The function `textFromSelector`. -/
def textFromSelector (L : GoLib) (root : Node) (selector : String) : String :=
  match firstNode L root selector with
  | .error _ => ""
  | .ok none => ""
  | .ok (some node) => nodeText node

/-- The function `attrFromSelector`. -/
def attrFromSelector (L : GoLib) (root : Node) (selector : String) (attrName : String) : String :=
  match firstNode L root selector with
  | .error _ => ""
  | .ok none => ""
  | .ok (some node) => nodeAttr L node attrName

/-- The function `firstAttr`. -/
def firstAttr (L : GoLib) (root : Node) (selector : String) (attrName : String) :
    Except String String :=
  match firstNode L root selector with
  | .error e => .error e
  | .ok none => .ok ""
  | .ok (some node) => .ok (nodeAttr L node attrName)

/-! ## content.go -/

/-- The map `allowedMarkupTags`; a missing key reads as false. -/
def allowedMarkupTags (tag : String) : Bool :=
  tag = "b" || tag = "i" || tag = "strong"

/-- The two string builders of `extractContent`. -/
structure Builders where
  content : String := ""
  paragraph : String := ""
deriving DecidableEq, Repr

/-- The closure `finishParagraph` of `extractContent`. -/
def finishParagraph (st : Builders) : Builders :=
  let text := trimSpace st.paragraph
  if text = "" then { st with paragraph := "" }
  else { content := st.content ++ "<p>" ++ text ++ "</p>", paragraph := "" }

/-- The closure `addImage` of `extractContent`. -/
def addImage (L : GoLib) (baseURL : Option URL) (st : Builders) (src : String) : Builders :=
  let src := absURL L src baseURL
  if src = "" then st
  else { st with content := st.content ++ "<img src=\"" ++ src ++ "\"/>" }

mutual
/-- The closure `walk` of `extractContent`. -/
def extractContent.walk (L : GoLib) (baseURL : Option URL) : Node → Builders → Builders
  | .mk type data attr children, st =>
    match type with
    | .ElementNode =>
      let tag := toLower L data
      if tag = "img" then
        addImage L baseURL (finishParagraph st) (nodeAttr L (.mk type data attr children) "src")
      else
        let st1 := if allowedMarkupTags tag
          then { st with paragraph := st.paragraph ++ "<" ++ tag ++ ">" } else st
        let st2 := extractContent.walkChildren L baseURL children st1
        if allowedMarkupTags tag
          then { st2 with paragraph := st2.paragraph ++ "</" ++ tag ++ ">" } else st2
    | .TextNode =>
      if trimSpace data ≠ "" then { st with paragraph := st.paragraph ++ data ++ " " } else st
    | _ => st
/-- The loop over the children of a node, each walked in turn. -/
def extractContent.walkChildren (L : GoLib) (baseURL : Option URL) :
    List Node → Builders → Builders
  | [], st => st
  | child :: rest, st =>
    extractContent.walkChildren L baseURL rest (extractContent.walk L baseURL child st)
end

/-- The function `extractContent`. -/
def extractContent (L : GoLib) (root : Node) (baseURL : Option URL) : String :=
  (finishParagraph (extractContent.walkChildren L baseURL root.children {})).content

/-- The function `extractContentFromSelector`. -/
def extractContentFromSelector (L : GoLib) (root : Node) (selector : String)
    (baseURL : Option URL) : String :=
  match firstNode L root selector with
  | .error _ => ""
  | .ok none => ""
  | .ok (some node) => extractContent L node baseURL

/-! ## parser.go: the parser -/

/-- The struct `htmlParser`; `dateParser` is the method `ParseDate` of the
injected `DateParser`, `none` standing for a non-nil error. -/
structure htmlParser where
  task : Task
  dateParser : String → Option Time
  baseURL : Option URL

/-- The method `htmlParser.extractPost`: the returned pair of item and error. -/
def htmlParser.extractPost (L : GoLib) (p : htmlParser) (post : Node) :
    FeedItem × Option String :=
  let item : FeedItem := { Title := textFromSelector L post p.task.SelectorTitle }
  let item := { item with
    Link := absURL L (attrFromSelector L post p.task.SelectorLink "href") p.baseURL }
  let item := if p.task.SelectorDescription.length > 0
    then { item with Description := textFromSelector L post p.task.SelectorDescription }
    else item
  let item := if p.task.SelectorAuthor.length > 0
    then { item with
      AuthorName := textFromSelector L post p.task.SelectorAuthor
      AuthorLink := absURL L (attrFromSelector L post p.task.SelectorAuthor "href") p.baseURL }
    else item
  let item := if p.task.SelectorContent.length > 0
    then { item with
      Content := extractContentFromSelector L post p.task.SelectorContent p.baseURL }
    else item
  let item := if p.task.SelectorEnclosure.length > 0
    then { item with Enclosure := attrFromSelector L post p.task.SelectorEnclosure "src" }
    else item
  let createdDateStr : Option String :=
    match p.task.CreatedExtractFrom with
    | .InnerText => some (textFromSelector L post p.task.SelectorCreated)
    | .Attribute =>
      some (attrFromSelector L post p.task.SelectorCreated p.task.CreatedAttributeName)
    | .Invalid => none
  match createdDateStr with
  | none => ({}, some "invalid task.CreatedExtractFrom")
  | some s =>
    match p.dateParser s with
    | none => (item, none)
    | some createdDate => ({ item with Created := createdDate }, none)

/-- The loop of `htmlParser.parse` over the post nodes; `items` is
`result.Items` so far. -/
def htmlParser.parseLoop (L : GoLib) (p : htmlParser) : List Node → List FeedItem → List FeedItem
  | [], items => items
  | post :: rest, items =>
    match p.extractPost L post with
    | (_, some _) => htmlParser.parseLoop L p rest items
    | (item, none) =>
      if item.Title.length = 0 ∨ item.Link.length = 0 ∨ item.Created.IsZero then
        htmlParser.parseLoop L p rest items
      else
        htmlParser.parseLoop L p rest (items ++ [item])

/-- The method `htmlParser.parse`. -/
def htmlParser.parse (L : GoLib) (p : htmlParser) (htmlStr : String) : Except String TaskResult :=
  match L.htmlParse htmlStr with
  | none => .error "parse html"
  | some doc =>
    let title := textFromSelector L doc "title"
    let icon :=
      match firstAttr L doc "link[rel=apple-touch-icon]" "href" with
      | .error _ => ""
      | .ok icon => if icon ≠ "" then absURL L icon p.baseURL else ""
    match selectNodes L doc p.task.SelectorPost with
    | .error e => .error ("post selector: " ++ e)
    | .ok postNodes =>
      if postNodes.length = 0 then .error "no posts on page"
      else
        let items := htmlParser.parseLoop L p postNodes []
        if items.length = 0 then .error "extract failed for all posts"
        else .ok { Title := title, Icon := icon, Items := items }

/-! ## utils.go: proxy, base domain, host safety -/

/-- The result of a Go call that may return normally, return a non-nil error,
or panic. -/
inductive Outcome (α : Type) where
  | ok (a : α)
  | error (msg : String)
  | panic (msg : String)
deriving DecidableEq, Repr

/-- The struct `flareProxy` of client.go. -/
structure flareProxy where
  Url : String := ""
  Username : String := ""
  Password : String := ""
deriving DecidableEq, Repr

/-- The function `parseProxy`: the proxy (nil for a blank setting), whether it
carries credentials, and its host name; or the error of `url.Parse`. -/
def parseProxy (L : GoLib) (s : String) : Except String (Option flareProxy × Bool × String) :=
  if trimSpace s = "" then .ok (none, false, "")
  else
    match L.urlParse s with
    | none => .error "url parse"
    | some proxyUrl =>
      let urlWithoutUser := { proxyUrl with User := none }
      let proxy : flareProxy := { Url := L.urlString urlWithoutUser }
      match proxyUrl.User with
      | none => .ok (some proxy, false, L.hostname proxyUrl)
      | some user =>
        let proxy := { proxy with Username := user.username }
        let withPass : flareProxy × Bool :=
          match user.password with
          | some pass => ({ proxy with Password := pass }, true)
          | none => (proxy, false)
        let hasAuth := if withPass.1.Username ≠ "" then true else withPass.2
        .ok (some withPass.1, hasAuth, L.hostname proxyUrl)

/-- The function `parseBaseDomain`: domain and scheme. The index expressions
`domainParts[1]` and `domainParts[0]` panic when out of range. -/
def parseBaseDomain (L : GoLib) (urlStr : String) : Outcome (String × String) :=
  match L.urlParse urlStr with
  | none => .error "task url parsing"
  | some pageUrl =>
    let scheme := pageUrl.Scheme
    if ¬ (scheme = "https" ∨ scheme = "http") then .error ("bad scheme: " ++ scheme)
    else
      let hostname := toLower L (L.hostname pageUrl)
      match L.parseIP hostname with
      | some ipHost => .ok (L.ipString ipHost, scheme)
      | none =>
        let domainParts := (split '.' hostname.data).reverse
        match domainParts[1]?, domainParts[0]? with
        | some second, some first => .ok (⟨second ++ ['.'] ++ first⟩, scheme)
        | _, _ => .panic "index out of range"

/-- The contents of `dnsCache`: host names with their addresses, newest
first. Expiry of entries with the passing of time is not modelled. -/
abbrev DnsCache := List (String × List IP)

/-- The function `getIPs` with the DNS cache passed along. -/
def getIPs (L : GoLib) (host : String) (cache : DnsCache) : Except String (List IP) × DnsCache :=
  match L.parseIP host with
  | some ip => (.ok [ip], cache)
  | none =>
    match L.urlParse host with
    | none => (.error "url parse", cache)
    | some urlStruct =>
      let host := if urlStruct.Host.length > 0 then L.hostname urlStruct else host
      match (if urlStruct.Host.length > 0 then L.parseIP host else none) with
      | some ip => (.ok [ip], cache)
      | none =>
        match cache.lookup host with
        | some ips =>
          if ips.length = 0 then (.error "lookip ip: not resolved", cache) else (.ok ips, cache)
        | none =>
          match L.lookupIP host with
          | none => (.error "lookup ip", cache)
          | some ips =>
            if ips.length = 0 then (.error "lookip ip: not resolved", (host, ips) :: cache)
            else (.ok ips, (host, ips) :: cache)

/-- The value of `deny` for one address in the loop of `allowHost`. -/
def denyIP (L : GoLib) (proxyIP : Option IP) (ip : IP) : Bool :=
  let deny := L.isPrivate ip || L.isLoopback ip || L.isUnspecified ip ||
    L.isLinkLocalUnicast ip || L.isMulticast ip
  match proxyIP with
  | some p => deny || L.ipEqual p ip
  | none => deny

/-- The loop of `allowHost` over the resolved addresses. -/
def allowHost.loop (L : GoLib) (proxyIP : Option IP) : List IP → Bool
  | [] => true
  | ip :: rest => if denyIP L proxyIP ip then false else allowHost.loop L proxyIP rest

/-- The method `PwExtractor.allowHost`, which reads only the field `proxyIP`. -/
def allowHost (L : GoLib) (proxyIP : Option IP) (rawUrl : String) (cache : DnsCache) :
    Except String Bool × DnsCache :=
  match getIPs L rawUrl cache with
  | (.error m, cache) => (.error ("allow host get ips: " ++ m), cache)
  | (.ok ips, cache) => (.ok (allowHost.loop L proxyIP ips), cache)

/-! ## client.go -/

/-- The struct `flareCookie`. -/
structure flareCookie where
  Name : String
  Value : String
deriving DecidableEq, Repr

/-- The struct `flareRequest`; `Proxy = none` is the nil pointer, which
`omitempty` leaves out of the JSON body, like an empty `Session`. -/
structure flareRequest where
  Cmd : String
  Url : String := ""
  Cookies : List flareCookie := []
  MaxTimeout : Int := 0
  Proxy : Option flareProxy := none
  Session : String := ""
  SessionTTL : Int := 0
  ReturnOnlyCookies : Bool := false
  ReturnScreenshot : Bool := false
  WaitInSeconds : Int := 0
  DisableMedia : Bool := false
deriving DecidableEq, Repr

/-- The struct `flareCookieResponse`. -/
structure flareCookieResponse where
  Name : String
  Value : String
deriving DecidableEq, Repr

/-- The struct `flareSolution`. -/
structure flareSolution where
  Url : String := ""
  Status : Int := 0
  Headers : List (String × String) := []
  Response : String := ""
  Cookies : List flareCookieResponse := []
  UserAgent : String := ""
  Screenshot : String := ""
deriving DecidableEq, Repr

/-- The struct `flareResponse`. -/
structure flareResponse where
  Status : String := ""
  Message : String := ""
  Session : String := ""
  Solution : Option flareSolution := none
deriving DecidableEq, Repr

/-- The remote fetcher as the client sees it: the decoded reply to a request
posted to `/v1`, given the requests handed to the client before it; `none`
when the request cannot be built or sent, or the reply cannot be decoded. -/
abbrev Remote := List flareRequest → flareRequest → Option flareResponse

/-- The struct `flareClient`; `httpClient` is the remote fetcher reached
through the HTTP client. -/
structure flareClient where
  baseURL : String
  httpClient : Remote

/-- The state that the extractor reads and changes: the DNS cache, the
requests handed to `flareClient.do` so far, and the calls of
`UpdateCookies` so far (key, cookie header, cookies). -/
structure World where
  dnsCache : DnsCache := []
  calls : List flareRequest := []
  cookieUpdates : List (String × String × List (String × String)) := []

/-- The function `newFlareClient`. -/
def newFlareClient (remote : Remote) (baseURL : String) (_maxTimeoutMs : Int) :
    Except String flareClient :=
  if baseURL = "" then .error "flaresolverr url is empty"
  else .ok { baseURL := trimRight '/' baseURL, httpClient := remote }

/-- The method `flareClient.do`. -/
def flareClient.do (c : flareClient) (req : flareRequest) (w : World) :
    Except String flareResponse × World :=
  let w1 := { w with calls := w.calls ++ [req] }
  match c.httpClient w.calls req with
  | none => (.error "flaresolverr request failed", w1)
  | some decoded =>
    if decoded.Status ≠ "ok" then
      let msg := if decoded.Message = "" then "status " ++ decoded.Status else decoded.Message
      (.error ("flaresolverr error: " ++ msg), w1)
    else (.ok decoded, w1)

/-- The method `flareClient.createSession`. -/
def flareClient.createSession (c : flareClient) (proxy : Option flareProxy) (w : World) :
    Except String String × World :=
  let req : flareRequest := { Cmd := "sessions.create", Proxy := proxy }
  match c.do req w with
  | (.error m, w) => (.error m, w)
  | (.ok resp, w) =>
    if resp.Session = "" then (.error "empty session id", w) else (.ok resp.Session, w)

/-- The method `flareClient.destroySession`; `none` is the nil error. -/
def flareClient.destroySession (c : flareClient) (session : String) (w : World) :
    Option String × World :=
  let req : flareRequest := { Cmd := "sessions.destroy", Session := session }
  match c.do req w with
  | (.error m, w) => (some m, w)
  | (.ok _, w) => (none, w)

/-- The function `toFlareCookies`. -/
def toFlareCookies (cookies : List (String × String)) : List flareCookie :=
  cookies.map (fun cook => { Name := cook.1, Value := cook.2 })

/-! ## extractor.go -/

/-- The interface `CookieManager`; `none` from `GetCookies` and `some` from
`UpdateCookies` are the non-nil errors. -/
structure CookieManager where
  GetCookies : String → String → Option (List (String × String))
  UpdateCookies : String → String → List (String × String) → Option String

/-- The struct `PwExtractor`; `limiter` is the method `Limit` of the injected
limiter, `none` standing for a non-nil error. -/
structure PwExtractor where
  client : flareClient
  dateParser : String → Option Time
  cookieManager : CookieManager
  limiter : String → Option Int
  proxy : Option flareProxy
  proxyHasAuth : Bool
  proxyIP : Option IP
  maxTimeoutMs : Int
  waitSeconds : Int

/-- The struct `Config` of package pwextractor; an interface field that is
nil is `none`, and `remote` is the fetcher that answers at `FlareSolverrURL`. -/
structure Config where
  Proxy : String := ""
  DateParser : Option (String → Option Time)
  CookieManager : Option CookieManager
  Limiter : Option (String → Option Int)
  FlareSolverrURL : String
  FlareSolverrMaxTimeout : Int := 0
  FlareSolverrWait : Int := 0
  remote : Remote

/-- The constant `defaultMaxTimeoutMs`. -/
def defaultMaxTimeoutMs : Int := 60000

/-- The function `New` of package pwextractor. -/
def New (L : GoLib) (cfg : Config) (w : World) : Outcome PwExtractor × World :=
  match cfg.DateParser, cfg.CookieManager, cfg.Limiter with
  | some dateParser, some cookieManager, some limiter =>
    match parseProxy L cfg.Proxy with
    | .error m => (.error ("parse proxy: " ++ m), w)
    | .ok (proxy, proxyHasAuth, proxyHost) =>
      let resolved : Except String (Option IP) × DnsCache :=
        if proxyHost ≠ "" then
          match getIPs L proxyHost w.dnsCache with
          | (.error m, cache) => (.error m, cache)
          | (.ok proxyIPs, cache) => (.ok proxyIPs[0]?, cache)
        else (.ok none, w.dnsCache)
      match resolved with
      | (.error m, cache) => (.error ("get proxy ip: " ++ m), { w with dnsCache := cache })
      | (.ok proxyIP, cache) =>
        let maxTimeoutMs :=
          if cfg.FlareSolverrMaxTimeout ≤ 0 then defaultMaxTimeoutMs
          else cfg.FlareSolverrMaxTimeout
        match newFlareClient cfg.remote cfg.FlareSolverrURL maxTimeoutMs with
        | .error m =>
          (.error ("create flaresolverr client: " ++ m), { w with dnsCache := cache })
        | .ok client =>
          (.ok {
            client := client
            dateParser := dateParser
            cookieManager := cookieManager
            limiter := limiter
            proxy := proxy
            proxyHasAuth := proxyHasAuth
            proxyIP := proxyIP
            maxTimeoutMs := maxTimeoutMs
            waitSeconds := cfg.FlareSolverrWait }, { w with dnsCache := cache })
  | _, _, _ => (.panic "you fckd up with di again", w)

/-- The method `PwExtractor.extractCookies`; `headers = none` is the nil map. -/
def PwExtractor.extractCookies (e : PwExtractor) (headers : Option (List (String × String)))
    (taskURL : String) : String × List (String × String) :=
  match headers with
  | none => ("", [])
  | some headers =>
    match headers.lookup "Cookie" with
    | none => ("", [])
    | some v =>
      if v.length > 0 then
        match e.cookieManager.GetCookies taskURL v with
        | none => (v, [])
        | some found => (v, found)
      else ("", [])

/-- The check of the final URL in `fetchSolution` (lines 189 to 197): `some`
is the error with which `fetchSolution` returns. -/
def PwExtractor.fetchSolution.checkFinal (L : GoLib) (e : PwExtractor) (solution : flareSolution)
    (w : World) : Option String × World :=
  if solution.Url ≠ "" then
    match allowHost L e.proxyIP solution.Url w.dnsCache with
    | (.error m, cache) => (some ("allow host: " ++ m), { w with dnsCache := cache })
    | (.ok false, cache) =>
      (some ("blocked host: " ++ solution.Url), { w with dnsCache := cache })
    | (.ok true, cache) => (none, { w with dnsCache := cache })
  else (none, w)

/-- The method `PwExtractor.fetchSolution` from the call of `client.do`
(line 181) to its last line: what runs once the request is built. -/
def PwExtractor.fetchSolution.send (L : GoLib) (e : PwExtractor) (task : Task)
    (cookieStr : String) (cookies : List (String × String)) (req : flareRequest) (w : World) :
    Outcome (flareSolution × Option URL) × World :=
  match e.client.do req w with
  | (.error m, w) => (.error m, w)
  | (.ok resp, w) =>
    match resp.Solution with
    | none => (.error "empty flaresolverr solution", w)
    | some solution =>
      match PwExtractor.fetchSolution.checkFinal L e solution w with
      | (some m, w) => (.error m, w)
      | (none, w) =>
        let baseURL := parseURL L task.URL
        let baseURL :=
          match parseURL L solution.Url with
          | some parsed => some parsed
          | none => baseURL
        let w :=
          if cookies.length > 0 then
            let newCookies := solution.Cookies.map (fun cook => (cook.Name, cook.Value))
            let _err := e.cookieManager.UpdateCookies task.URL cookieStr newCookies
            { w with cookieUpdates := w.cookieUpdates ++ [(task.URL, cookieStr, newCookies)] }
          else w
        (.ok (solution, baseURL), w)

/-- The request that `fetchSolution` builds before it looks at the proxy
(lines 154 to 163). -/
def PwExtractor.fetchSolution.request (e : PwExtractor) (task : Task) (wantScreenshot : Bool)
    (cookies : List (String × String)) : flareRequest :=
  let req : flareRequest := {
    Cmd := "request.get"
    Url := task.URL
    MaxTimeout := e.maxTimeoutMs
    ReturnScreenshot := wantScreenshot
    WaitInSeconds := e.waitSeconds }
  if cookies.length > 0 then { req with Cookies := toFlareCookies cookies } else req

/-- The method `PwExtractor.fetchSolution`. The deferred call of
`destroySession` runs after the rest of the body, and its error is only logged. -/
def PwExtractor.fetchSolution (L : GoLib) (e : PwExtractor) (task : Task)
    (wantScreenshot : Bool) (w : World) : Outcome (flareSolution × Option URL) × World :=
  match parseBaseDomain L task.URL with
  | .panic m => (.panic m, w)
  | .error m => (.error ("parse base domain: " ++ m), w)
  | .ok (baseDomain, _) =>
    match e.limiter baseDomain with
    | none => (.error "bydomain limiter", w)
    | some _waitFor =>
      match allowHost L e.proxyIP task.URL w.dnsCache with
      | (.error m, cache) => (.error ("allow host: " ++ m), { w with dnsCache := cache })
      | (.ok false, cache) =>
        (.error ("blocked host: " ++ task.URL), { w with dnsCache := cache })
      | (.ok true, cache) =>
        let w := { w with dnsCache := cache }
        let cookieStr := (e.extractCookies task.Headers task.URL).1
        let cookies := (e.extractCookies task.Headers task.URL).2
        let req := PwExtractor.fetchSolution.request e task wantScreenshot cookies
        match e.proxy with
        | none => PwExtractor.fetchSolution.send L e task cookieStr cookies req w
        | some proxy =>
          if e.proxyHasAuth then
            match e.client.createSession (some proxy) w with
            | (.error m, w) => (.error ("create session: " ++ m), w)
            | (.ok session, w) =>
              let sent := PwExtractor.fetchSolution.send L e task cookieStr cookies
                { req with Session := session } w
              let destroyed := e.client.destroySession session sent.2
              (sent.1, destroyed.2)
          else
            PwExtractor.fetchSolution.send L e task cookieStr cookies
              { req with Proxy := some proxy } w

/-- The extractor with another remote fetcher behind its client. -/
def PwExtractor.withRemote (e : PwExtractor) (remote : Remote) : PwExtractor :=
  { e with client := { e.client with httpClient := remote } }

/-! ## handler.go -/

namespace Http

/-- Go's `time.Duration`, in nanoseconds. -/
abbrev Duration := Int

/-- A byte slice that does not hold text. -/
abbrev Bytes := List Nat

/-- The constant `minLifetime`. -/
def minLifetime : Duration := 0

/-- The constant `maxLifetime`, 24 hours. -/
def maxLifetime : Duration := 24 * (3600 * 1000000000)

/-- The struct `feeds.Item` of gorilla/feeds with the fields that `makeFeed`
fills in: `Link` is `Link.Href`, `Author` is `Author.Name` (the pointer is
never nil here), `Enclosure` is `Enclosure.Url` or the nil pointer. -/
structure FeedsItem where
  Id : String := ""
  Title : String := ""
  Link : String := ""
  Author : String := ""
  Description : String := ""
  Created : Time := 0
  Updated : Time := 0
  Enclosure : Option String := none
  Content : String := ""
deriving DecidableEq, Repr

/-- The struct `feeds.Feed` with the fields that `makeFeed` fills in. -/
structure FeedsFeed where
  Title : String := ""
  Link : String := ""
  Updated : Time := 0
  Items : List FeedsItem := []
deriving DecidableEq, Repr

/-- The struct `feeds.AtomAuthor`. -/
structure AtomAuthor where
  Name : String := ""
  Uri : String := ""
  Email : String := ""
deriving DecidableEq, Repr

/-- The struct `feeds.AtomEntry`: `Content` and `Author` are pointers in Go. -/
structure AtomEntry where
  Title : String := ""
  Id : String := ""
  Updated : String := ""
  Link : String := ""
  Summary : String := ""
  Content : Option String := none
  Author : Option AtomAuthor := none
deriving DecidableEq, Repr

/-- The struct `feeds.AtomFeed`. -/
structure AtomFeed where
  Title : String := ""
  Id : String := ""
  Updated : String := ""
  Icon : String := ""
  Link : String := ""
  Entries : List AtomEntry := []
deriving DecidableEq, Repr

/-- Modelled from the spec: the message `pb.Specs` (package `pb` is not among
the sources): all `Task` fields plus `cache_lifetime`, a duration string. -/
structure Specs where
  Url : String := ""
  SelectorPost : String := ""
  SelectorTitle : String := ""
  SelectorLink : String := ""
  SelectorDescription : String := ""
  SelectorAuthor : String := ""
  SelectorCreated : String := ""
  CreatedExtractFrom : ExtractFrom := .InnerText
  CreatedAttributeName : String := ""
  SelectorContent : String := ""
  SelectorEnclosure : String := ""
  CacheLifetime : String := ""
deriving DecidableEq, Repr

/-- The library functions that handler.go and worker.go call, next to those
of `GoLib`, and the methods of `internal/models` that are not among the
sources. `none` stands for a non-nil error. -/
structure HandlerLib where
  /-- The function `html.EscapeString`. -/
  escapeString : String → String
  /-- The method `Time.Format` with the layout first. -/
  timeFormat : String → Time → String
  /-- The method `(*feeds.Atom).AtomFeed`. -/
  atomFeed : FeedsFeed → AtomFeed
  /-- The function `feeds.ToXML`. -/
  toXML : AtomFeed → Option String
  /-- The function `time.ParseDuration`. -/
  parseDuration : String → Option Duration
  /-- The function `strconv.Atoi`. -/
  atoi : String → Option Int
  /-- The method `DecodeString` of `base64.StdEncoding.WithPadding(base64.NoPadding)`. -/
  base64StdNoPadding : String → Option Bytes
  /-- The method `DecodeString` of `base64.StdEncoding`. -/
  base64Std : String → Option Bytes
  /-- The function `io.ReadAll` on a `flate` reader of the bytes. -/
  inflate : Bytes → Option Bytes
  /-- The function `json.Unmarshal` into a `pb.Specs`. -/
  jsonSpecs : Bytes → Option Specs
  /-- The function `proto.Unmarshal` into a `pb.Specs`. -/
  protoSpecs : Bytes → Option Specs
  /-- The method `validate.Struct` on a `pb.Specs`: whether it is valid. -/
  validSpecs : Specs → Bool
  /-- The function `json.Marshal` of a task. -/
  marshalTask : Task → Option String
  /-- The function `json.Unmarshal` into a task. -/
  unmarshalTask : String → Option Task
  /-- The method `Task.CacheKey` of `internal/models`. -/
  cacheKey : Task → String
  /-- The function `json.Unmarshal` into a `models.TaskResult`. -/
  unmarshalResult : String → Option TaskResult
  /-- The function `json.Unmarshal` into a `models.ScreenshotTaskResult`: its image. -/
  unmarshalScreenshot : String → Option Bytes
  /-- The function `json.Marshal` of the result of the worker: nil, a task
  result or a screenshot. -/
  marshalResult : Option (TaskResult ⊕ Bytes) → Option String

/-- The function `anyTimeFormat`: the first time that is not zero, formatted,
or the empty string. -/
def anyTimeFormat (H : HandlerLib) (format : String) : List Time → String
  | [] => ""
  | t :: times => if ¬ t.IsZero then H.timeFormat format t else anyTimeFormat H format times

/-- The function `absURL` of package http. -/
def absURL (L : GoLib) (rawURL : String) (baseURL : String) : String :=
  if rawURL = "" then ""
  else
    match L.urlParse rawURL with
    | none => rawURL
    | some parsed =>
      if parsed.IsAbs then rawURL
      else
        match L.urlParse baseURL with
        | none => rawURL
        | some base => L.urlString (L.resolveReference base parsed)

/-- The `img` tag that `makeFeed` writes for an enclosure URL. -/
def imageHTML (H : HandlerLib) (enclosureURL : String) : String :=
  "<img src=\"" ++ H.escapeString enclosureURL ++ "\" alt=\"\" />"

/-- The body of the loop of `makeFeed` for one item: the `feeds.Item` that is
appended, or `none` when the link does not parse and the item is skipped. -/
def makeFeed.item (L : GoLib) (H : HandlerLib) (task : Task) (item : FeedItem) :
    Option FeedsItem :=
  match L.urlParse item.Link with
  | none => none
  | some itemUrl =>
    let id := "tag:" ++ itemUrl.Host ++ "," ++
      anyTimeFormat H "2006-01-02" [item.Created, item.Updated] ++ ":" ++ itemUrl.Path
    let id := if itemUrl.RawQuery.length > 0 then id ++ "?" ++ itemUrl.RawQuery else id
    let content := item.Content
    let description := item.Description
    let enclosed : Option String × String × String :=
      if item.Enclosure ≠ "" then
        let enclosureURL := absURL L item.Enclosure task.URL
        if content ≠ "" then
          (some enclosureURL, imageHTML H enclosureURL ++ content, description)
        else if description ≠ "" then
          (some enclosureURL, content, imageHTML H enclosureURL ++ description)
        else (some enclosureURL, content, description)
      else (none, content, description)
    some {
      Id := id
      Title := H.escapeString item.Title
      Link := item.Link
      Author := item.AuthorName
      Description := enclosed.2.2
      Created := item.Created
      Updated := item.Updated
      Enclosure := enclosed.1
      Content := enclosed.2.1 }

/-- The first loop of `makeFeed`: `feedItems` is `feed.Items` so far. -/
def makeFeed.items (L : GoLib) (H : HandlerLib) (task : Task) :
    List FeedItem → List FeedsItem → List FeedsItem
  | [], feedItems => feedItems
  | item :: rest, feedItems =>
    match makeFeed.item L H task item with
    | none => makeFeed.items L H task rest feedItems
    | some feedItem => makeFeed.items L H task rest (feedItems ++ [feedItem])

/-- The second loop of `makeFeed`, from index `i` on: an entry with an author
gets as `Uri` the author link of `result.Items[i]`; an index out of range
panics. -/
def makeFeed.authors (resultItems : List FeedItem) : Nat → List AtomEntry → Option (List AtomEntry)
  | _, [] => some []
  | i, entry :: rest =>
    match entry.Author with
    | none => (makeFeed.authors resultItems (i + 1) rest).map (fun es => entry :: es)
    | some author =>
      match resultItems[i]? with
      | none => none
      | some item =>
        (makeFeed.authors resultItems (i + 1) rest).map
          (fun es => { entry with Author := some { author with Uri := item.AuthorLink } } :: es)

/-- The function `makeFeed` up to the call of `feeds.ToXML`: the Atom feed
that is serialised; `now` is the value of `time.Now()`. -/
def makeFeed.atom (L : GoLib) (H : HandlerLib) (now : Time) (task : Task) (result : TaskResult) :
    Outcome AtomFeed :=
  let feedTS :=
    match result.Items with
    | [] => now
    | first :: _ => first.Created
  let feed : FeedsFeed := {
    Title := H.escapeString result.Title
    Link := task.URL
    Updated := feedTS
    Items := makeFeed.items L H task result.Items [] }
  if feed.Items.length = 0 then .error "empty feed"
  else
    let atomFeed := { H.atomFeed feed with Icon := result.Icon }
    match makeFeed.authors result.Items 0 atomFeed.Entries with
    | none => .panic "index out of range"
    | some entries => .ok { atomFeed with Entries := entries }

/-- The function `makeFeed`. -/
def makeFeed (L : GoLib) (H : HandlerLib) (now : Time) (task : Task) (result : TaskResult) :
    Outcome String :=
  match makeFeed.atom L H now task result with
  | .panic m => .panic m
  | .error m => .error m
  | .ok atomFeed =>
    match H.toXML atomFeed with
    | none => .error "feed to xml"
    | some atom => .ok atom

/-- What a handler reads from `echo.Context`: the path parameter `specs`, the
query parameter `url`, `Header.Get` of the request, and `RealIP`. -/
structure Request where
  specs : String := ""
  url : String := ""
  header : String → String := fun _ => ""
  realIP : String := ""

/-- How a handler ends: it writes a response and returns nil (`c.String`,
`c.Blob`), or returns an `*echo.HTTPError`, or panics. -/
inductive Reply where
  | written (status : Nat) (contentType : String) (body : String) (blob : Bytes)
  | httpError (code : Nat) (message : String)
  | panic (msg : String)
deriving DecidableEq, Repr

/-- The status code of a reply that is not a panic. -/
def Reply.status : Reply → Option Nat
  | .written status _ _ _ => some status
  | .httpError code _ => some code
  | .panic _ => none

/-- What `adapters.Cache.Get` returns: the value with its timestamp, the
error `adapters.ErrKeyNotFound`, or another error. -/
inductive CacheReply where
  | found (value : String) (cachedTS : Time)
  | notFound
  | failed (msg : String)
deriving DecidableEq, Repr

/-- The struct `Handler`: `cacheGet` is `cache.Get`, `enqueue` is
`workQueue.Enqueue` (`none` is a non-nil error), `limiterAllow` is the answer
of `Allow` of the limiter of a client given the clients asked before. The
rate and the burst of the limiters are part of `limiterAllow`. -/
structure Handler where
  cacheGet : String → CacheReply
  enqueue : String → String → Option String
  limiterAllow : List String → String → Bool
  debug : Bool := false

/-- The state that the handlers change: the keys of the map `limits`, the
clients whose limiter was asked (`Allow`), in order, and the calls of
`Enqueue` (cache key and payload), in order. -/
structure ApiWorld where
  limits : List String := []
  allowCalls : List String := []
  enqueued : List (String × String) := []
deriving DecidableEq, Repr

/-- The function `extractHeaders`. -/
def extractHeaders (c : Request) : List (String × String) :=
  ["Accept-Language", "Cookie"].filterMap
    (fun hName => if (c.header hName).length > 0 then some (hName, c.header hName) else none)

/-- The method `Handler.checkRateLimit`: the limiter of the client is created
when missing, then asked. -/
def Handler.checkRateLimit (h : Handler) (c : Request) (w : ApiWorld) : Bool × ApiWorld :=
  let w := if c.realIP ∈ w.limits then w else { w with limits := w.limits ++ [c.realIP] }
  (h.limiterAllow w.allowCalls c.realIP, { w with allowCalls := w.allowCalls ++ [c.realIP] })

/-- The method `Handler.decodeSpecs`. -/
def Handler.decodeSpecs (H : HandlerLib) (specsParam : String) : Except String Specs :=
  let paramSplit := split ':' specsParam.data
  let versioned : Except String (Int × String) :=
    match paramSplit with
    | [first, second] =>
      match H.atoi ⟨first⟩ with
      | none => .error ("invalid version: " ++ ⟨first⟩)
      | some version => .ok (version, ⟨second⟩)
    | _ => .ok (0, specsParam)
  match versioned with
  | .error m => .error m
  | .ok (version, specsParam) =>
    match H.base64StdNoPadding specsParam with
    | none => .error "failed to decode specs"
    | some decodedSpecsParam =>
      match H.inflate decodedSpecsParam with
      | none => .error "failed to unzip specs"
      | some decodedSpecsParam =>
        let unmarshalled : Except String Specs :=
          if version = 0 then
            match H.jsonSpecs decodedSpecsParam with
            | none => .error "failed to unmarshal json specs"
            | some specs => .ok specs
          else if version = 1 then
            match H.protoSpecs decodedSpecsParam with
            | none => .error "failed to unmarshal proto specs"
            | some specs => .ok specs
          else .error "unknown version"
        match unmarshalled with
        | .error m => .error m
        | .ok specs => if H.validSpecs specs then .ok specs else .error "specs are invalid"

/-- The cache lifetime that `handleRender` uses, from the parsed duration
(lines 106 to 114). -/
def Handler.handleRender.cacheLifetime (debug : Bool) (parsed : Duration) : Duration :=
  let cacheLifetime := parsed
  let cacheLifetime := if cacheLifetime < minLifetime then minLifetime else cacheLifetime
  let cacheLifetime := if cacheLifetime > maxLifetime then maxLifetime else cacheLifetime
  if debug then 0 else cacheLifetime

/-- The end of `handleRender` (lines 139 to 151): the bytes of the result are
decoded and rendered. -/
def Handler.handleRender.render (L : GoLib) (H : HandlerLib) (now : Time) (task : Task)
    (taskResultBytes : String) : Reply :=
  match H.unmarshalResult taskResultBytes with
  | none => .httpError 500 "cached value unmarshal failed"
  | some result =>
    match makeFeed L H now task result with
    | .panic m => .panic m
    | .error _ => .httpError 500 ""
    | .ok atom => .written 200 "text/xml" atom []

/-- The branch of `handleRender` for a missing or stale entry (lines 130 to
136, then the rendering): the limiter is asked and the task is enqueued. -/
def Handler.handleRender.refresh (L : GoLib) (H : HandlerLib) (h : Handler) (c : Request)
    (now : Time) (task : Task) (encodedTask : String) (w : ApiWorld) : Reply × ApiWorld :=
  match h.checkRateLimit c w with
  | (false, w) => (.httpError 429 "Too Many Requests", w)
  | (true, w) =>
    match h.enqueue (H.cacheKey task) encodedTask with
    | none =>
      (.httpError 500 "task enqueue failed",
        { w with enqueued := w.enqueued ++ [(H.cacheKey task, encodedTask)] })
    | some taskResultBytes =>
      (Handler.handleRender.render L H now task taskResultBytes,
        { w with enqueued := w.enqueued ++ [(H.cacheKey task, encodedTask)] })

/-- The part of `handleRender` from the cache lookup on (lines 125 to 151);
`now` is the value of `time.Now()`. The age `time.Since(cachedTS)` saturates
in Go at the largest duration, which exceeds every lifetime in use, so it is
compared as the exact difference. -/
def Handler.handleRender.serve (L : GoLib) (H : HandlerLib) (h : Handler) (c : Request)
    (now : Time) (task : Task) (cacheLifetime : Duration) (encodedTask : String)
    (w : ApiWorld) : Reply × ApiWorld :=
  match h.cacheGet (H.cacheKey task) with
  | .failed _ => (.httpError 500 "cache failed", w)
  | .notFound => Handler.handleRender.refresh L H h c now task encodedTask w
  | .found taskResultBytes cachedTS =>
    if now.Sub cachedTS > cacheLifetime then
      Handler.handleRender.refresh L H h c now task encodedTask w
    else (Handler.handleRender.render L H now task taskResultBytes, w)

/-- The method `Handler.handleRender`. The map literal of line 78 has the
keys `InnerText` and `Attribute`. -/
def Handler.handleRender (L : GoLib) (H : HandlerLib) (h : Handler) (c : Request) (now : Time)
    (w : ApiWorld) : Reply × ApiWorld :=
  match Handler.decodeSpecs H c.specs with
  | .error m => (.httpError 400 ("decode specs: " ++ m), w)
  | .ok specs =>
    match specs.CreatedExtractFrom with
    | .Invalid => (.httpError 400 "invalid extract from", w)
    | extractFrom =>
      let task : Task := {
        TaskType := .Extract
        URL := specs.Url
        SelectorPost := specs.SelectorPost
        SelectorTitle := specs.SelectorTitle
        SelectorLink := specs.SelectorLink
        SelectorDescription := specs.SelectorDescription
        SelectorAuthor := specs.SelectorAuthor
        SelectorCreated := specs.SelectorCreated
        CreatedExtractFrom := extractFrom
        CreatedAttributeName := specs.CreatedAttributeName
        SelectorContent := specs.SelectorContent
        SelectorEnclosure := specs.SelectorEnclosure
        Headers := some (extractHeaders c) }
      match H.parseDuration specs.CacheLifetime with
      | none => (.httpError 400 "invalid cache lifetime", w)
      | some parsed =>
        let cacheLifetime := Handler.handleRender.cacheLifetime h.debug parsed
        match H.marshalTask task with
        | none => (.httpError 500 "task marshal error", w)
        | some encodedTask =>
          Handler.handleRender.serve L H h c now task cacheLifetime encodedTask w

/-- The method `Handler.handlePageScreenshot`. -/
def Handler.handlePageScreenshot (L : GoLib) (H : HandlerLib) (h : Handler) (c : Request)
    (w : ApiWorld) : Reply × ApiWorld :=
  let pageUrl := c.url
  match L.urlParse pageUrl with
  | none => (.httpError 400 "url is invalid or missing", w)
  | some _ =>
    let task : Task := {
      TaskType := .PageScreenshot
      URL := pageUrl
      Headers := some (extractHeaders c) }
    match H.marshalTask task with
    | none => (.httpError 500 "task marshal error", w)
    | some encodedTask =>
      match h.checkRateLimit c w with
      | (false, w) => (.httpError 429 "Too Many Requests", w)
      | (true, w) =>
        match h.enqueue (H.cacheKey task) encodedTask with
        | none =>
          (.httpError 500 "queued cache failed",
            { w with enqueued := w.enqueued ++ [(H.cacheKey task, encodedTask)] })
        | some taskResultBytes =>
          match H.unmarshalScreenshot taskResultBytes with
          | none =>
            (.httpError 500 "task result unmarshal failed",
              { w with enqueued := w.enqueued ++ [(H.cacheKey task, encodedTask)] })
          | some image =>
            (.written 200 "image/png" "" image,
              { w with enqueued := w.enqueued ++ [(H.cacheKey task, encodedTask)] })

end Http

/-! ## extractor.go: Extract and Screenshot -/

/-- The method `PwExtractor.Extract`. -/
def PwExtractor.Extract (L : GoLib) (e : PwExtractor) (task : Task) (w : World) :
    Outcome TaskResult × World :=
  match e.fetchSolution L task false w with
  | (.panic m, w) => (.panic m, w)
  | (.error m, w) => (.error m, w)
  | (.ok (solution, baseURL), w) =>
    let parser : htmlParser := { task := task, dateParser := e.dateParser, baseURL := baseURL }
    match parser.parse L solution.Response with
    | .error m => (.error ("parse page: " ++ m), w)
    | .ok result => (.ok result, w)

/-- The method `PwExtractor.Screenshot`: the image of the result. -/
def PwExtractor.Screenshot (L : GoLib) (H : Http.HandlerLib) (e : PwExtractor) (task : Task)
    (w : World) : Outcome Http.Bytes × World :=
  match e.fetchSolution L task true w with
  | (.panic m, w) => (.panic m, w)
  | (.error m, w) => (.error m, w)
  | (.ok (solution, _), w) =>
    if solution.Screenshot = "" then (.error "empty screenshot payload", w)
    else
      match H.base64Std solution.Screenshot with
      | none => (.error "decode screenshot", w)
      | some image => (.ok image, w)

/-! ## worker.go -/

namespace Worker

/-- How the queue handler of `main` ends: it returns the cache key, the result
payload (`none` is the nil slice) and an error (`none` is nil), or panics. -/
inductive Handled where
  | returned (cacheKey : String) (resultPayload : Option String) (errRet : Option String)
  | panic (msg : String)
deriving DecidableEq, Repr

/-- The queue handler that `main` passes to `ConsumeQueue`. `err` is the
variable `err` of `main`, which the closure assigns; its value after the call
is the second component. In `ran` the result and the error of the switch are
paired, and `.error` is a panic of the extractor. -/
def handler (L : GoLib) (H : Http.HandlerLib) (pwe : PwExtractor) (taskPayload : String)
    (err : Option String) (w : World) : Handled × Option String × World :=
  match H.unmarshalTask taskPayload with
  | none => (.returned "" none (some "unmarshal task"), err, w)
  | some task =>
    let ran : Except String (Option (TaskResult ⊕ Http.Bytes) × Option String) × World :=
      match task.TaskType with
      | .Extract =>
        match pwe.Extract L task w with
        | (.panic m, w) => (.error m, w)
        | (.error m, w) => (.ok (none, some m), w)
        | (.ok result, w) => (.ok (some (.inl result), none), w)
      | .PageScreenshot =>
        match pwe.Screenshot L H task w with
        | (.panic m, w) => (.error m, w)
        | (.error m, w) => (.ok (none, some m), w)
        | (.ok image, w) => (.ok (some (.inr image), none), w)
      | .Unknown => (.ok (none, err), w)
    match ran with
    | (.error m, w) => (.panic m, err, w)
    | (.ok (_, some m), w) => (.returned "" none (some ("task processing: " ++ m)), some m, w)
    | (.ok (result, none), w) =>
      match H.marshalResult result with
      | none => (.returned "" none (some "marshal result"), some "marshal result", w)
      | some resultPayload => (.returned (H.cacheKey task) (some resultPayload) none, none, w)

end Worker

/-! ## An executable library instance

A small model of the library functions, enough to evaluate the definitions
above on concrete pages: URLs whose parts need no percent-escaping, IPv4
addresses, selectors of the forms `tag` and `tag[attr=value]`. -/

namespace Ref

/-- Go's `strings.Cut` for a one-character separator: the text before the
first separator, and the text after it when there is one. -/
def cut (sep : Char) : List Char → List Char × Option (List Char)
  | [] => ([], none)
  | c :: cs =>
    if c = sep then ([], some cs)
    else ((cut sep cs).1.cons c, (cut sep cs).2)

/-- ASCII letters. -/
def isLetter (c : Char) : Bool :=
  (65 ≤ c.toNat && c.toNat ≤ 90) || (97 ≤ c.toNat && c.toNat ≤ 122)

/-- ASCII digits. -/
def isDigit (c : Char) : Bool := 48 ≤ c.toNat && c.toNat ≤ 57

/-- The function `unicode.ToLower` on ASCII; other runes are left alone. -/
def lowerRune (c : Char) : Char :=
  if 65 ≤ c.toNat ∧ c.toNat ≤ 90 then Char.ofNat (c.toNat + 32) else c

/-- The function `strings.EqualFold` on ASCII. -/
def equalFold (s t : String) : Bool := s.data.map lowerRune = t.data.map lowerRune

/-- The scan of `getScheme` in net/url from position `i` on: `acc` holds the
characters read so far. `none` is the error "missing protocol scheme";
otherwise the scheme and the rest. -/
def getSchemeFrom (whole : List Char) : List Char → List Char → Option (List Char × List Char)
  | [], _ => some ([], whole)
  | c :: cs, acc =>
    if isLetter c then getSchemeFrom whole cs (acc ++ [c])
    else if isDigit c ∨ c = '+' ∨ c = '-' ∨ c = '.' then
      if acc = [] then some ([], whole) else getSchemeFrom whole cs (acc ++ [c])
    else if c = ':' then
      if acc = [] then none else some (acc, cs)
    else some ([], whole)

/-- The function `getScheme` of net/url. -/
def getScheme (rawURL : List Char) : Option (List Char × List Char) :=
  getSchemeFrom rawURL rawURL []

/-- The function `stringContainsCTLByte` of net/url. -/
def containsCTL (s : List Char) : Bool := s.any (fun c => c.toNat < 32 || c.toNat == 127)

/-- The text after the last occurrence of a character, with the text before it. -/
def cutLast (sep : Char) (s : List Char) : List Char × Option (List Char) :=
  match cut sep s.reverse with
  | (_, none) => (s, none)
  | (after, some before) => (before.reverse, some after.reverse)

/-- The function `parseAuthority` of net/url without percent-decoding and
without the validation of host and user characters. -/
def parseAuthority (authority : List Char) : Option Userinfo × String :=
  match cutLast '@' authority with
  | (_, none) => (none, ⟨authority⟩)
  | (userinfo, some host) =>
    match cut ':' userinfo with
    | (name, none) => (some { username := ⟨name⟩, password := none }, ⟨host⟩)
    | (name, some pass) => (some { username := ⟨name⟩, password := some ⟨pass⟩ }, ⟨host⟩)

/-- The function `url.Parse` (with the unexported `parse`), for URLs without
percent-escapes. -/
def urlParse (rawURL : String) : Option URL :=
  let (u, frag) := cut '#' rawURL.data
  if containsCTL u then none
  else if u = ['*'] then some { Path := "*", Fragment := ⟨frag.getD []⟩ }
  else
    match getScheme u with
    | none => none
    | some (scheme, rest) =>
      let scheme : String := ⟨scheme.map lowerRune⟩
      let (rest, query) := cut '?' rest
      let url : URL := { Scheme := scheme, RawQuery := ⟨query.getD []⟩, Fragment := ⟨frag.getD []⟩ }
      if rest.head? ≠ some '/' ∧ scheme ≠ "" then some { url with Opaque := ⟨rest⟩ }
      else if rest.head? ≠ some '/' ∧ (cut '/' rest).1.contains ':' then none
      else
        match rest with
        | '/' :: '/' :: authority =>
          if scheme = "" ∧ authority.head? = some '/' then some { url with Path := ⟨rest⟩ }
          else
            let (authority, path) := cut '/' authority
            let (user, host) := parseAuthority authority
            some { url with
              User := user, Host := host
              Path := match path with
                | none => ""
                | some p => ⟨'/' :: p⟩ }
        | _ => some { url with Path := ⟨rest⟩ }

/-- The method `Userinfo.String`, for names and passwords that need no escaping. -/
def userinfoString (ui : Userinfo) : String :=
  match ui.password with
  | none => ui.username
  | some p => ui.username ++ ":" ++ p

/-- The part of `(*URL).String` that writes `//`, the user and the host. -/
def writeAuthority (u : URL) (buf : String) : String :=
  if u.Scheme ≠ "" ∨ u.Host ≠ "" ∨ u.User ≠ none then
    let buf := if u.Host ≠ "" ∨ u.Path ≠ "" ∨ u.User ≠ none then buf ++ "//" else buf
    let buf := match u.User with
      | none => buf
      | some ui => buf ++ userinfoString ui ++ "@"
    buf ++ u.Host
  else buf

/-- The part of `(*URL).String` that writes the path. -/
def writePath (u : URL) (buf : String) : String :=
  let buf := if u.Path ≠ "" ∧ u.Path.data.head? ≠ some '/' ∧ u.Host ≠ "" then buf ++ "/" else buf
  let buf := if buf = "" ∧ (cut '/' u.Path.data).1.contains ':' then buf ++ "./" else buf
  buf ++ u.Path

/-- The method `(*URL).String`, for parts that need no escaping. -/
def urlString (u : URL) : String :=
  let buf := if u.Scheme ≠ "" then u.Scheme ++ ":" else ""
  let buf := if u.Opaque ≠ "" then buf ++ u.Opaque else writePath u (writeAuthority u buf)
  let buf := if u.RawQuery ≠ "" then buf ++ "?" ++ u.RawQuery else buf
  if u.Fragment ≠ "" then buf ++ "#" ++ u.Fragment else buf

/-- The text before the last occurrence of a character in `dst`, when there is one. -/
def beforeLast (sep : Char) (dst : List Char) : Option (List Char) :=
  (cutLast sep dst).2.map (fun _ => (cutLast sep dst).1)

/-- The loop of `resolvePath` of net/url over the elements of the path: `dst`
is the builder after its leading slash. -/
def resolveLoop : List (List Char) → List Char → Bool → List Char
  | [], dst, _ => dst
  | elem :: rest, dst, first =>
    if elem = ['.'] then
      if rest = [] then dst ++ ['/'] else resolveLoop rest dst false
    else if elem = ['.', '.'] then
      match beforeLast '/' dst with
      | none => if rest = [] then ['/'] else resolveLoop rest [] true
      | some keep => if rest = [] then keep ++ ['/'] else resolveLoop rest keep first
    else
      resolveLoop rest ((if first then dst else dst ++ ['/']) ++ elem) false

/-- The function `resolvePath` of net/url. -/
def resolvePath (base ref : List Char) : List Char :=
  let full :=
    match ref with
    | [] => base
    | '/' :: _ => ref
    | _ =>
      match cutLast '/' base with
      | (_, none) => ref
      | (dir, some _) => dir ++ ['/'] ++ ref
  if full = [] then []
  else
    match resolveLoop (split '/' full) [] true with
    | '/' :: r => '/' :: r
    | r => '/' :: r

/-- The method `(*URL).ResolveReference`, the base first. -/
def resolveReference (u ref : URL) : URL :=
  let url := if ref.Scheme = "" then { ref with Scheme := u.Scheme } else ref
  if ref.Scheme ≠ "" ∨ ref.Host ≠ "" ∨ ref.User ≠ none then
    { url with Path := ⟨resolvePath ref.Path.data []⟩ }
  else if ref.Opaque ≠ "" then { url with User := none, Host := "", Path := "" }
  else
    let url := if ref.Path = "" ∧ ref.RawQuery = "" then
        { url with
          RawQuery := u.RawQuery
          Fragment := if ref.Fragment = "" then u.Fragment else url.Fragment }
      else url
    if ref.Path = "" ∧ u.Opaque ≠ "" then
      { url with Opaque := u.Opaque, User := none, Host := "", Path := "" }
    else
      { url with Host := u.Host, User := u.User, Path := ⟨resolvePath u.Path.data ref.Path.data⟩ }

/-- The function `validOptionalPort` of net/url. -/
def validOptionalPort : List Char → Bool
  | [] => true
  | c :: cs => c = ':' && cs.all isDigit

/-- The method `(*URL).Hostname`: the host without a valid port and without
the square brackets of an IPv6 literal. -/
def hostname (u : URL) : String :=
  let host :=
    match cutLast ':' u.Host.data with
    | (_, none) => u.Host.data
    | (h, some port) => if validOptionalPort (':' :: port) then h else u.Host.data
  match host with
  | '[' :: inner => if inner.getLast? = some ']' then ⟨inner.dropLast⟩ else ⟨host⟩
  | _ => ⟨host⟩

/-- The value of a decimal field of an IPv4 address: one to three digits,
no leading zero, at most 255. -/
def parseOctet (s : List Char) : Option Nat :=
  if s = [] ∨ 3 < s.length ∨ ¬ s.all isDigit ∨ (1 < s.length ∧ s.head? = some '0') then none
  else
    let n := s.foldl (fun acc c => acc * 10 + (c.toNat - 48)) 0
    if n ≤ 255 then some n else none

/-- The function `net.ParseIP` on dotted-decimal IPv4 text; IPv6 text is not
covered and reads as nil. -/
def parseIP (s : String) : Option IP :=
  match (split '.' s.data).map parseOctet with
  | [some a, some b, some c, some d] => some [a, b, c, d]
  | _ => none

/-- The method `IP.String` of an IPv4 address. -/
def ipString (ip : IP) : String :=
  ".".intercalate (ip.map (fun n => toString n))

/-- A fixed resolver in place of `net.LookupIP`. -/
def lookupIP (host : String) : Option (List IP) :=
  if host = "example.com" then some [[93, 184, 216, 34]]
  else if host = "intranet.example.com" then some [[93, 184, 216, 34], [10, 0, 0, 7]]
  else if host = "localhost" then some [[127, 0, 0, 1]]
  else if host = "proxy.example.net" then some [[203, 0, 113, 9]]
  else none

/-- The method `IP.IsPrivate` on IPv4. -/
def isPrivate : IP → Bool
  | [a, b, _, _] => a = 10 || (a = 172 && 16 ≤ b && b ≤ 31) || (a = 192 && b = 168)
  | _ => false

/-- The method `IP.IsLoopback` on IPv4. -/
def isLoopback : IP → Bool
  | [a, _, _, _] => a = 127
  | _ => false

/-- The method `IP.IsUnspecified` on IPv4. -/
def isUnspecified (ip : IP) : Bool := ip = [0, 0, 0, 0]

/-- The method `IP.IsLinkLocalUnicast` on IPv4. -/
def isLinkLocalUnicast : IP → Bool
  | [a, b, _, _] => a = 169 && b = 254
  | _ => false

/-- The method `IP.IsMulticast` on IPv4. -/
def isMulticast : IP → Bool
  | [a, _, _, _] => 224 ≤ a && a ≤ 239
  | _ => false

/-- A selector of the form `tag` or `tag[attr=value]`. -/
def parseSelector (s : String) : Option (List Char × Option (List Char × List Char)) :=
  match cut '[' s.data with
  | (tag, none) => if tag ≠ [] ∧ tag.all (fun c => isLetter c || isDigit c) then some (tag, none) else none
  | (tag, some cond) =>
    match cut '=' cond with
    | (_, none) => none
    | (key, some rest) =>
      if tag ≠ [] ∧ tag.all (fun c => isLetter c || isDigit c) ∧ key ≠ [] ∧ rest.getLast? = some ']'
      then some (tag, some (key, rest.dropLast)) else none

/-- Whether an element node matches a parsed selector. -/
def matchesSelector (sel : List Char × Option (List Char × List Char)) (n : Node) : Bool :=
  n.type = .ElementNode && n.Data.data = sel.1 &&
    match sel.2 with
    | none => true
    | some (key, val) => n.Attr.any (fun a => a.Key.data = key && a.Val.data = val)

mutual
/-- The nodes of a subtree that match a selector, in document order. -/
def selectFrom (sel : List Char × Option (List Char × List Char)) : Node → List Node
  | .mk type data attr children =>
    (if matchesSelector sel (.mk type data attr children)
      then [Node.mk type data attr children] else []) ++ selectFromList sel children
/-- The matching nodes of a list of sibling subtrees. -/
def selectFromList (sel : List Char × Option (List Char × List Char)) : List Node → List Node
  | [] => []
  | n :: rest => selectFrom sel n ++ selectFromList sel rest
end

/-- The function `css.Parse` followed by `Select`, for the two selector forms. -/
def cssSelect (s : String) : Option (Node → List Node) :=
  (parseSelector s).map selectFrom

/-- A date parser in place of the injected `DateParser`: four RFC 3339
times, the last in a zone five hours west of UTC; every other text is an error. -/
def parseDate (s : String) : Option Time :=
  if s = "2024-01-02T03:04:05Z" then some 63839761445000000000
  else if s = "2024-01-03T03:04:05Z" then some 63839847845000000000
  else if s = "2024-01-04T03:04:05Z" then some 63839934245000000000
  else if s = "2024-01-02T23:04:05-05:00" then
    some { instant := 63839851445000000000, offset := -18000 }
  else none

/-- An element node. -/
def elem (tag : String) (attr : List Attribute) (children : List Node) : Node :=
  .mk .ElementNode tag attr children

/-- A text node. -/
def text (data : String) : Node := .mk .TextNode data [] []

/-- The text of a page with three posts, the third without a link. -/
def blogPageText : String :=
  "<html><head><title>Blog</title><link rel=\"apple-touch-icon\" href=\"/icon.png\"></head>" ++
  "<body><article><h1>First</h1><a href=\"/p/1\">read</a>" ++
  "<time datetime=\"2024-01-02T03:04:05Z\"></time></article>" ++
  "<article><h1>Second</h1><a href=\"https://other.example/p/2\">read</a>" ++
  "<time datetime=\"2024-01-03T03:04:05Z\"></time></article>" ++
  "<article><h1>Draft</h1><time datetime=\"2024-01-04T03:04:05Z\"></time></article>" ++
  "</body></html>"

/-- The three `article` elements of the blog page, in document order. -/
def blogPosts : List Node := [
  elem "article" [] [
    elem "h1" [] [text "First"],
    elem "a" [⟨"href", "/p/1"⟩] [text "read"],
    elem "time" [⟨"datetime", "2024-01-02T03:04:05Z"⟩] []],
  elem "article" [] [
    elem "h1" [] [text "Second"],
    elem "a" [⟨"href", "https://other.example/p/2"⟩] [text "read"],
    elem "time" [⟨"datetime", "2024-01-03T03:04:05Z"⟩] []],
  elem "article" [] [
    elem "h1" [] [text "Draft"],
    elem "time" [⟨"datetime", "2024-01-04T03:04:05Z"⟩] []]]

/-- The tree that `html.Parse` builds for `blogPageText`. -/
def blogPage : Node :=
  .mk .DocumentNode "" [] [
    elem "html" [] [
      elem "head" [] [
        elem "title" [] [text "Blog"],
        elem "link" [⟨"rel", "apple-touch-icon"⟩, ⟨"href", "/icon.png"⟩] []],
      elem "body" [] blogPosts]]

/-- The text of a page whose only post has a link that `url.Parse` rejects
and an image with a relative source. -/
def oddPageText : String :=
  "<html><head></head><body><article><h1>Post</h1><a href=\":foo\">read</a>" ++
  "<img src=\"/a.png\"><time datetime=\"2024-01-02T03:04:05Z\"></time></article></body></html>"

/-- The tree that `html.Parse` builds for `oddPageText`. -/
def oddPage : Node :=
  .mk .DocumentNode "" [] [
    elem "html" [] [
      elem "head" [] [],
      elem "body" [] [
        elem "article" [] [
          elem "h1" [] [text "Post"],
          elem "a" [⟨"href", ":foo"⟩] [text "read"],
          elem "img" [⟨"src", "/a.png"⟩] [],
          elem "time" [⟨"datetime", "2024-01-02T03:04:05Z"⟩] []]]]]

/-- The text of a page whose only post has a content block with a paragraph
and three images: a relative src, a src that `url.Parse` rejects and a blank
src. -/
def storyPageText : String :=
  "<html><head></head><body><article><h1>Story</h1><a href=\"/s/1\">read</a>" ++
  "<time datetime=\"2024-01-02T03:04:05Z\"></time><div>Hello <b>world</b>" ++
  "<img src=\"/a.png\"><img src=\":foo\"><img src=\" \">bye</div></article></body></html>"

/-- The content block of the story page. -/
def storyDiv : Node :=
  elem "div" [] [
    text "Hello ",
    elem "b" [] [text "world"],
    elem "img" [⟨"src", "/a.png"⟩] [],
    elem "img" [⟨"src", ":foo"⟩] [],
    elem "img" [⟨"src", " "⟩] [],
    text "bye"]

/-- The tree that `html.Parse` builds for `storyPageText`. -/
def storyPage : Node :=
  .mk .DocumentNode "" [] [
    elem "html" [] [
      elem "head" [] [],
      elem "body" [] [
        elem "article" [] [
          elem "h1" [] [text "Story"],
          elem "a" [⟨"href", "/s/1"⟩] [text "read"],
          elem "time" [⟨"datetime", "2024-01-02T03:04:05Z"⟩] [],
          storyDiv]]]]

/-- A table in place of `html.Parse`: the pages above with their trees; every
other text counts as unreadable. -/
def htmlParse (s : String) : Option Node :=
  if s = blogPageText then some blogPage
  else if s = oddPageText then some oddPage
  else if s = storyPageText then some storyPage
  else none

end Ref

/-- The executable library instance. -/
def goLib : GoLib where
  htmlParse := Ref.htmlParse
  cssSelect := Ref.cssSelect
  lowerRune := Ref.lowerRune
  equalFold := Ref.equalFold
  urlParse := Ref.urlParse
  urlString := Ref.urlString
  resolveReference := Ref.resolveReference
  hostname := Ref.hostname
  parseIP := Ref.parseIP
  ipString := Ref.ipString
  lookupIP := Ref.lookupIP
  isPrivate := Ref.isPrivate
  isLoopback := Ref.isLoopback
  isUnspecified := Ref.isUnspecified
  isLinkLocalUnicast := Ref.isLinkLocalUnicast
  isMulticast := Ref.isMulticast
  ipEqual := fun a b => a = b

/-- The task of scenario S1 of the specification. -/
def blogTask : Task where
  URL := "https://base/blog"
  SelectorPost := "article"
  SelectorTitle := "h1"
  SelectorLink := "a"
  SelectorCreated := "time"
  CreatedExtractFrom := .Attribute
  CreatedAttributeName := "datetime"

/-- The parser for `blogTask` with base URL `https://base`. -/
def blogParser : htmlParser where
  task := blogTask
  dateParser := Ref.parseDate
  baseURL := some { Scheme := "https", Host := "base" }

/-- What `parse` returns for the blog page: the two posts that have a title,
a link and a date. -/
def blogResult : TaskResult where
  Title := "Blog"
  Icon := "https://base/icon.png"
  Items := [
    { Title := "First", Created := 63839761445000000000, Link := "https://base/p/1" },
    { Title := "Second", Created := 63839847845000000000, Link := "https://other.example/p/2" }]

/-- An item has the fields that `parse` requires: a title, a link and a
creation time that is not the zero time. -/
def FeedItem.complete (item : FeedItem) : Prop :=
  item.Title ≠ "" ∧ item.Link ≠ "" ∧ ¬ item.Created.IsZero = true

instance (item : FeedItem) : Decidable item.complete := by
  unfold FeedItem.complete
  infer_instance

/-- The names of the element tags written in HTML text: at each `<`, after an
optional `/`, the run of ASCII letters and digits that follows, when it starts
with a letter. -/
def tagNames : List Char → List String
  | [] => []
  | c :: cs =>
    if c = '<' then
      let body := match cs with
        | '/' :: rest => rest
        | _ => cs
      let name := body.takeWhile (fun c => Ref.isLetter c || Ref.isDigit c)
      if (name.head?.map Ref.isLetter) = some true then ⟨name⟩ :: tagNames cs else tagNames cs
    else tagNames cs

/-- The `div` element of `<div>see &lt;script&gt;alert(1)&lt;/script&gt; now</div>`:
`html.Parse` decodes the character references, so the text node holds the
characters `<` and `>` themselves. -/
def escapedScriptDiv : Node :=
  Ref.elem "div" [] [Ref.text "see <script>alert(1)</script> now"]

/-- The `div` element of scenario S6 of the specification,
`<div><script>x</script>Hello <b>world</b><img src="/a.png"><p>more</p></div>`. -/
def s6Div : Node :=
  Ref.elem "div" [] [
    Ref.elem "script" [] [Ref.text "x"],
    Ref.text "Hello ",
    Ref.elem "b" [] [Ref.text "world"],
    Ref.elem "img" [⟨"src", "/a.png"⟩] [],
    Ref.elem "p" [] [Ref.text "more"]]

/-- A text is an absolute URL: it is the `String` of a URL for which `IsAbs`
holds. -/
def isAbsoluteURL (L : GoLib) (s : String) : Prop :=
  ∃ u : URL, u.IsAbs = true ∧ L.urlString u = s

/-- A URL value as `absURL` with a base returns it: empty, or a text that
`url.Parse` rejects (the attribute value itself, returned unchanged), or an
absolute URL. -/
def emptyUnparsedOrAbsolute (L : GoLib) (s : String) : Prop :=
  s = "" ∨ L.urlParse s = none ∨ isAbsoluteURL L s

/-- The parser for the odd page: `blogTask` with the enclosure selector `img`,
base URL `https://base`. -/
def oddParser : htmlParser where
  task := { blogTask with SelectorEnclosure := "img" }
  dateParser := Ref.parseDate
  baseURL := some { Scheme := "https", Host := "base" }

/-- The only item that `parse` returns for the odd page. -/
def oddItem : FeedItem where
  Title := "Post"
  Created := 63839761445000000000
  Link := ":foo"
  Enclosure := "/a.png"

namespace Ref

/-- A cookie manager in place of the injected one: no stored cookies, updates
succeed. -/
def cookieManager : CookieManager where
  GetCookies := fun _ _ => some []
  UpdateCookies := fun _ _ _ => none

/-- A remote fetcher for the examples: it opens the session `session-1`,
answers `request.get` with the blog page at `https://example.com/feed`, and
fails on `sessions.destroy`. -/
def remote : Remote := fun _ req =>
  if req.Cmd = "sessions.create" then some { Status := "ok", Session := "session-1" }
  else if req.Cmd = "request.get" then
    some {
      Status := "ok"
      Solution := some { Url := "https://example.com/feed", Status := 200, Response := blogPageText } }
  else if req.Cmd = "sessions.destroy" then some { Status := "error", Message := "no such session" }
  else none

end Ref

/-- A configuration whose outbound proxy carries credentials. -/
def authConfig : Config where
  Proxy := "http://u:p@proxy.example.net:3128"
  DateParser := some Ref.parseDate
  CookieManager := some Ref.cookieManager
  Limiter := some (fun _ => some 0)
  FlareSolverrURL := "http://localhost:8191/"
  remote := Ref.remote

/-- The configuration `authConfig` with a proxy without credentials. -/
def plainConfig : Config := { authConfig with Proxy := "http://proxy.example.net:3128" }

/-- The extractor that `New` builds from `authConfig`. -/
def authExtractor : PwExtractor where
  client := { baseURL := "http://localhost:8191", httpClient := Ref.remote }
  dateParser := Ref.parseDate
  cookieManager := Ref.cookieManager
  limiter := fun _ => some 0
  proxy := some { Url := "http://proxy.example.net:3128", Username := "u", Password := "p" }
  proxyHasAuth := true
  proxyIP := some [203, 0, 113, 9]
  maxTimeoutMs := 60000
  waitSeconds := 0

/-- The extractor that `New` builds from `plainConfig`. -/
def plainExtractor : PwExtractor :=
  { authExtractor with
    proxy := some { Url := "http://proxy.example.net:3128" }
    proxyHasAuth := false }

/-- The DNS cache after `New` has resolved the proxy host. -/
def proxyWorld : World where
  dnsCache := [("proxy.example.net", [[203, 0, 113, 9]])]

/-- The blog task for the page at `https://example.com/feed`. -/
def feedTask : Task := { blogTask with URL := "https://example.com/feed" }

/-- The `request.get` that `fetchSolution` builds for `feedTask`. -/
def feedRequest : flareRequest where
  Cmd := "request.get"
  Url := "https://example.com/feed"
  MaxTimeout := 60000

/-- The element tags written in HTML text, in order, each with whether it is a
closing tag: at each `<`, after an optional `/`, the run of ASCII letters and
digits that follows, when it starts with a letter. -/
def tagTokens : List Char → List (Bool × String)
  | [] => []
  | c :: cs =>
    if c = '<' then
      let closing := cs.head? = some '/'
      let body := match cs with
        | '/' :: rest => rest
        | _ => cs
      let name := body.takeWhile (fun c => Ref.isLetter c || Ref.isDigit c)
      if (name.head?.map Ref.isLetter) = some true then
        (decide closing, ⟨name⟩) :: tagTokens cs
      else tagTokens cs
    else tagTokens cs

/-- Whether a sequence of tags is well nested, given the tags that are open:
every closing tag closes the tag opened last, and nothing stays open at the
end. The element `img` has no closing tag. -/
def wellNested : List (Bool × String) → List String → Bool
  | [], stack => stack.isEmpty
  | (false, name) :: rest, stack =>
    if name = "img" then wellNested rest stack else wellNested rest (name :: stack)
  | (true, name) :: rest, stack =>
    match stack with
    | [] => false
    | top :: below => top = name && wellNested rest below

/-- The `div` element of `<div><img src=":foo"></div>`, whose image source is
rejected by `url.Parse`. -/
def badImgDiv : Node :=
  Ref.elem "div" [] [Ref.elem "img" [⟨"src", ":foo"⟩] []]

/-- The `div` element of `<div><b>bold<img src="/a.png">more</b></div>`, an
image inside a `b` element. -/
def imgInBoldDiv : Node :=
  Ref.elem "div" [] [
    Ref.elem "b" [] [Ref.text "bold", Ref.elem "img" [⟨"src", "/a.png"⟩] [], Ref.text "more"]]

namespace Ref

/-- The function `html.EscapeString`. -/
def escapeString (s : String) : String :=
  ⟨s.data.flatMap (fun c =>
    if c = '&' then "&amp;".data
    else if c.toNat = 39 then "&#39;".data
    else if c = '<' then "&lt;".data
    else if c = '>' then "&gt;".data
    else if c.toNat = 34 then "&#34;".data
    else [c])⟩

/-- A number in decimal with at least `width` digits. -/
def padded (width n : Nat) : String :=
  ⟨List.replicate (width - (toString n).length) '0'⟩ ++ toString n

/-- The nanoseconds that the clock of the location of a time shows as elapsed
since the start of year 1, for a time on or after that start. -/
def localNanos (t : Time) : Nat := (t.instant + t.offset * 1000000000).toNat

/-- Year, month and day that the clock of the location of a time shows. -/
def civilDate (t : Time) : Nat × Nat × Nat :=
  let days := localNanos t / 86400000000000
  let z := days + 306
  let era := z / 146097
  let doe := z % 146097
  let yoe := (doe - doe / 1460 + doe / 36524 - doe / 146096) / 365
  let doy := doe - (365 * yoe + yoe / 4 - yoe / 100)
  let mp := (5 * doy + 2) / 153
  let d := doy - (153 * mp + 2) / 5 + 1
  let m := if mp < 10 then mp + 3 else mp - 9
  let y := yoe + era * 400 + (if m ≤ 2 then 1 else 0)
  (y, m, d)

/-- The zone of a time as the layout element `Z07:00` writes it. -/
def zoneText (t : Time) : String :=
  if t.offset = 0 then "Z"
  else
    (if t.offset < 0 then "-" else "+") ++ padded 2 (t.offset.natAbs / 3600) ++ ":" ++
      padded 2 (t.offset.natAbs % 3600 / 60)

/-- The method `Time.Format`, in the location of the time, for the layouts
`2006-01-02` and `time.RFC3339`; other layouts are not covered and yield the
empty text. -/
def timeFormat (layout : String) (t : Time) : String :=
  let date := padded 4 (civilDate t).1 ++ "-" ++ padded 2 (civilDate t).2.1 ++ "-" ++
    padded 2 (civilDate t).2.2
  let secs := (localNanos t / 1000000000) % 86400
  if layout = "2006-01-02" then date
  else if layout = "2006-01-02T15:04:05Z07:00" then
    date ++ "T" ++ padded 2 (secs / 3600) ++ ":" ++ padded 2 (secs % 3600 / 60) ++ ":" ++
      padded 2 (secs % 60) ++ zoneText t
  else ""

/-- The first of two times that is not zero, in RFC 3339, as `anyTimeFormat`
of gorilla/feeds gives it. -/
def feedsTime (a b : Time) : String :=
  if ¬ a.IsZero then timeFormat "2006-01-02T15:04:05Z07:00" a
  else if ¬ b.IsZero then timeFormat "2006-01-02T15:04:05Z07:00" b
  else ""

/-- The function `newAtomEntry` of gorilla/feeds for an item with an id: the
author is set when the name is not empty, the content when it is not empty. -/
def newAtomEntry (i : Http.FeedsItem) : Http.AtomEntry where
  Title := i.Title
  Id := i.Id
  Updated := feedsTime i.Updated i.Created
  Link := i.Link
  Summary := i.Description
  Content := if i.Content.length > 0 then some i.Content else none
  Author := if i.Author.length > 0 then some { Name := i.Author } else none

/-- The method `(*feeds.Atom).AtomFeed`: one entry per item, in order. -/
def atomFeed (feed : Http.FeedsFeed) : Http.AtomFeed where
  Title := feed.Title
  Id := feed.Link
  Updated := feedsTime feed.Updated 0
  Link := feed.Link
  Entries := feed.Items.map newAtomEntry

/-- A plain serialisation in place of `feeds.ToXML`. -/
def toXML (feed : Http.AtomFeed) : Option String :=
  some ("<feed xmlns=\"http://www.w3.org/2005/Atom\"><title>" ++ feed.Title ++ "</title><id>" ++
    feed.Id ++ "</id><updated>" ++ feed.Updated ++ "</updated><icon>" ++ feed.Icon ++ "</icon>" ++
    String.join (feed.Entries.map (fun e =>
      "<entry><title>" ++ e.Title ++ "</title><id>" ++ e.Id ++ "</id><updated>" ++ e.Updated ++
      "</updated><link href=\"" ++ e.Link ++ "\"></link><summary type=\"html\">" ++
      escapeString e.Summary ++ "</summary>" ++
      (match e.Content with
        | none => ""
        | some content => "<content type=\"html\">" ++ escapeString content ++ "</content>") ++
      (match e.Author with
        | none => ""
        | some a => "<author><name>" ++ a.Name ++ "</name><uri>" ++ a.Uri ++ "</uri></author>") ++
      "</entry>")) ++
    "</feed>")

/-- The value of a run of decimal digits. -/
def digitsValue (s : List Char) : Option Nat :=
  if s ≠ [] ∧ s.all isDigit then some (s.foldl (fun acc c => acc * 10 + (c.toNat - 48)) 0)
  else none

/-- The function `strconv.Atoi` on an optional sign and decimal digits. -/
def atoi (s : String) : Option Int :=
  match s.data with
  | '-' :: rest => (digitsValue rest).map (fun n => - (n : Int))
  | '+' :: rest => (digitsValue rest).map (fun n => (n : Int))
  | digits => (digitsValue digits).map (fun n => (n : Int))

/-- The nanoseconds of a unit of `time.ParseDuration`. -/
def unitNanos (unit : List Char) : Option Nat :=
  if unit = "ns".data then some 1
  else if unit = "us".data then some 1000
  else if unit = "ms".data then some 1000000
  else if unit = "s".data then some 1000000000
  else if unit = "m".data then some 60000000000
  else if unit = "h".data then some 3600000000000
  else none

/-- The function `time.ParseDuration` on `0` and on texts of one whole number
and one unit, with an optional sign; other texts are not covered and read as
errors. -/
def parseDuration (s : String) : Option Http.Duration :=
  let negative := s.data.head? = some '-'
  let body := match s.data with
    | '-' :: rest => rest
    | '+' :: rest => rest
    | other => other
  if body = ['0'] then some 0
  else
    match digitsValue (body.takeWhile isDigit), unitNanos (body.dropWhile isDigit) with
    | some n, some unit => some (if negative then - ((n * unit : Nat) : Int) else ((n * unit : Nat) : Int))
    | _, _ => none

/-- The alphabet of `base64.StdEncoding`. -/
def stdAlphabet : List Char :=
  "ABCDEFGHIJKLMNOPQRSTUVWXYZabcdefghijklmnopqrstuvwxyz0123456789+/".data

/-- The alphabet of `base64.URLEncoding`. -/
def urlAlphabet : List Char :=
  "ABCDEFGHIJKLMNOPQRSTUVWXYZabcdefghijklmnopqrstuvwxyz0123456789-_".data

/-- The position of a character in an alphabet. -/
def alphabetIndex (c : Char) : List Char → Option Nat
  | [] => none
  | a :: rest => if a = c then some 0 else (alphabetIndex c rest).map (· + 1)

/-- The values of the characters of a text in an alphabet; `none` when a
character is not in the alphabet. -/
def sextets (alphabet : List Char) : List Char → Option (List Nat)
  | [] => some []
  | c :: cs =>
    match alphabetIndex c alphabet, sextets alphabet cs with
    | some v, some vs => some (v :: vs)
    | _, _ => none

/-- The bytes that groups of four 6-bit values stand for; a last group of two
or three values stands for one or two bytes, a last group of one is an error. -/
def sextetBytes : List Nat → Option (List Nat)
  | a :: b :: c :: d :: rest =>
    (sextetBytes rest).map (fun bytes =>
      (a * 4 + b / 16) :: (b % 16 * 16 + c / 4) :: (c % 4 * 64 + d) :: bytes)
  | [a, b, c] => some [a * 4 + b / 16, b % 16 * 16 + c / 4]
  | [a, b] => some [a * 4 + b / 16]
  | [_] => none
  | [] => some []

/-- The method `DecodeString` of an unpadded base64 encoding with the given
alphabet; carriage returns and line feeds are skipped. -/
def base64Decode (alphabet : List Char) (s : String) : Option Http.Bytes :=
  match sextets alphabet (s.data.filter (fun c => c.toNat ≠ 13 ∧ c.toNat ≠ 10)) with
  | none => none
  | some values => sextetBytes values

/-- The 6-bit values of the unpadded base64 encoding of bytes. -/
def byteSextets : List Nat → List Nat
  | x :: y :: z :: rest =>
    x / 4 :: (x % 4 * 16 + y / 16) :: (y % 16 * 4 + z / 64) :: z % 64 :: byteSextets rest
  | [x, y] => [x / 4, x % 4 * 16 + y / 16, y % 16 * 4]
  | [x] => [x / 4, x % 4 * 16]
  | [] => []

/-- The method `EncodeToString` of an unpadded base64 encoding with the given
alphabet. -/
def base64Encode (alphabet : List Char) (bytes : Http.Bytes) : String :=
  ⟨(byteSextets bytes).map (fun v => alphabet.getD v 'A')⟩

/-- The method `DecodeString` of `base64.StdEncoding`, with padding. -/
def base64Std (s : String) : Option Http.Bytes :=
  if s.data.length % 4 ≠ 0 then none
  else
    match s.data.reverse with
    | '=' :: '=' :: rest => base64Decode stdAlphabet ⟨rest.reverse⟩
    | '=' :: rest => base64Decode stdAlphabet ⟨rest.reverse⟩
    | _ => base64Decode stdAlphabet s

/-- The inflation of a deflate stream that is one final stored block; other
streams are not covered and read as errors. -/
def inflate : Http.Bytes → Option Http.Bytes
  | 1 :: l0 :: l1 :: n0 :: n1 :: data =>
    if data.length = l0 + 256 * l1 ∧ l0 + n0 = 255 ∧ l1 + n1 = 255 then some data else none
  | _ => none

/-- The specs of the blog task, with a cache lifetime of ten minutes. -/
def blogSpecs : Http.Specs where
  Url := "https://base/blog"
  SelectorPost := "article"
  SelectorTitle := "h1"
  SelectorLink := "a"
  SelectorCreated := "time"
  CreatedExtractFrom := .Attribute
  CreatedAttributeName := "datetime"
  CacheLifetime := "10m"

/-- The JSON text of a task, as far as the examples need it. -/
def marshalTask (task : Task) : Option String :=
  some ("\x7b\"url\":\"" ++ task.URL ++ "\",\"selector_post\":\"" ++ task.SelectorPost ++
    "\",\"selector_title\":\"" ++ task.SelectorTitle ++ "\",\"selector_link\":\"" ++
    task.SelectorLink ++ "\",\"selector_created\":\"" ++ task.SelectorCreated ++
    "\",\"screenshot\":" ++ (if task.TaskType = .PageScreenshot then "true" else "false") ++ "\x7d")

end Ref

/-- The executable instance of the library of handler.go and worker.go. The
JSON and protocol-buffer decoders are tables: `{}` decodes to the blog specs,
`blog-result` to the result for the blog page, `unknown-task` to a task of an
unknown type, and every other text is an error. -/
def hLib : Http.HandlerLib where
  escapeString := Ref.escapeString
  timeFormat := Ref.timeFormat
  atomFeed := Ref.atomFeed
  toXML := Ref.toXML
  parseDuration := Ref.parseDuration
  atoi := Ref.atoi
  base64StdNoPadding := Ref.base64Decode Ref.stdAlphabet
  base64Std := Ref.base64Std
  inflate := Ref.inflate
  jsonSpecs := fun bytes => if bytes = [123, 125] then some Ref.blogSpecs else none
  protoSpecs := fun _ => none
  validSpecs := fun specs => specs.Url ≠ "" ∧ specs.SelectorPost ≠ ""
  marshalTask := Ref.marshalTask
  unmarshalTask := fun s =>
    if s = "unknown-task" then some { blogTask with TaskType := .Unknown } else none
  cacheKey := fun task => "key:" ++ (Ref.marshalTask task).getD ""
  unmarshalResult := fun s => if s = "blog-result" then some blogResult else none
  unmarshalScreenshot := fun _ => none
  marshalResult := fun result =>
    match result with
    | none => some "null"
    | some (.inl _) => some "task-result"
    | some (.inr _) => some "screenshot-result"

/-- A result whose first item has a link that `url.Parse` rejects and whose
second item has an enclosure but neither content nor description. -/
def skippedResult : TaskResult where
  Title := "Blog"
  Items := [
    { Title := "A", Created := 63839761445000000000, AuthorName := "Ann", Link := ":bad",
      AuthorLink := "https://base/ann" },
    { Title := "B", Created := 63839761445000000000, AuthorName := "Bob",
      Link := "https://base/b?x=1", Enclosure := "/e.png", AuthorLink := "https://base/bob" }]

/-- The second item of `skippedResult`. -/
def bobItem : FeedItem where
  Title := "B"
  Created := 63839761445000000000
  AuthorName := "Bob"
  Link := "https://base/b?x=1"
  Enclosure := "/e.png"
  AuthorLink := "https://base/bob"

/-- A handler whose cache is empty and whose limiter rejects every client. -/
def rejectingHandler : Http.Handler where
  cacheGet := fun _ => .notFound
  enqueue := fun _ _ => some "blog-result"
  limiterAllow := fun _ _ => false

/-- A handler whose cache holds the blog result, stored at instant 1000, and
whose limiter allows every client. -/
def cachingHandler : Http.Handler where
  cacheGet := fun _ => .found "blog-result" 1000
  enqueue := fun _ _ => some "blog-result"
  limiterAllow := fun _ _ => true

/-- A request of the client `198.51.100.7` whose specs are the standard
base64 text of a stored deflate block holding `{}`, with version 0. -/
def blogRequest : Http.Request where
  specs := "0:AQIA/f97fQ"
  realIP := "198.51.100.7"

/-- The task that `handleRender` builds for `blogRequest`. -/
def blogRenderTask : Task := { blogTask with Headers := some [] }

/-- The task that `handlePageScreenshot` builds for a request without `url`. -/
def emptyUrlTask : Task where
  TaskType := .PageScreenshot
  URL := ""
  Headers := some []

namespace Ref

/-- A remote fetcher whose solution reports no final URL: it answers
`request.get` with the blog page and an empty `url`. -/
def silentRemote : Remote := fun _ req =>
  if req.Cmd = "request.get" then
    some { Status := "ok", Solution := some { Url := "", Status := 200, Response := blogPageText } }
  else none

end Ref

/-- The extractor `plainExtractor` in front of `Ref.silentRemote`. -/
def silentExtractor : PwExtractor := plainExtractor.withRemote Ref.silentRemote

/-- What `Extract` returns for `feedTask` through `silentExtractor`: the icon
and the link of the first post are the attribute values of the page. -/
def silentResult : TaskResult where
  Title := "Blog"
  Icon := "/icon.png"
  Items := [
    { Title := "First", Created := 63839761445000000000, Link := "/p/1" },
    { Title := "Second", Created := 63839847845000000000, Link := "https://other.example/p/2" }]

/-- One write of `extractContent` to its content builder: a finished paragraph
with its text, or an image with the src written into its tag. -/
inductive Emitted where
  | paragraph (text : String)
  | image (src : String)
deriving DecidableEq, Repr

/-- The text of one write: `<p>`, the text and `</p>` for a paragraph, and the
`img` tag with its src for an image. -/
def Emitted.html : Emitted → String
  | .paragraph text => "<p>" ++ text ++ "</p>"
  | .image src => "<img src=\"" ++ src ++ "\"/>"

/-- The content that a sequence of writes leaves in the builder. -/
def Emitted.content : List Emitted → String
  | [] => ""
  | e :: rest => e.html ++ Emitted.content rest

/-- The srcs of the images among the writes, in order. -/
def Emitted.sources : List Emitted → List String
  | [] => []
  | .paragraph _ :: rest => Emitted.sources rest
  | .image src :: rest => src :: Emitted.sources rest

mutual
/-- The values of the `src` attribute of the `img` elements that the walk of
`extractContent` reaches from a node, in the order of the walk. -/
def walkedImages (L : GoLib) : Node → List String
  | .mk type data attr children =>
    match type with
    | .ElementNode =>
      if toLower L data = "img" then [nodeAttr L (.mk type data attr children) "src"]
      else walkedImagesOfList L children
    | _ => []
/-- The values of `walkedImages` for the nodes of a list, one node after the other. -/
def walkedImagesOfList (L : GoLib) : List Node → List String
  | [] => []
  | child :: rest => walkedImages L child ++ walkedImagesOfList L rest
end

/-- The srcs that `addImage` writes for a list of attribute values: each value
resolved by `absURL`, those with an empty result left out. -/
def writtenSources (L : GoLib) (baseURL : Option URL) (srcs : List String) : List String :=
  (srcs.map (fun src => absURL L src baseURL)).filter (fun src => src ≠ "")

/-- The parser for the story page: `blogTask` with the content selector `div`,
base URL `https://base`. -/
def storyParser : htmlParser where
  task := { blogTask with SelectorContent := "div" }
  dateParser := Ref.parseDate
  baseURL := some { Scheme := "https", Host := "base" }

/-- The writes of `extractContent` for the content block of the story page. -/
def storyWrites : List Emitted := [
  .paragraph "Hello  <b>world </b>",
  .image "https://base/a.png",
  .image ":foo",
  .paragraph "bye"]

/-- The only item that `parse` returns for the story page. -/
def storyItem : FeedItem where
  Title := "Story"
  Created := 63839761445000000000
  Link := "https://base/s/1"
  Content := "<p>Hello  <b>world </b></p><img src=\"https://base/a.png\"/><img src=\":foo\"/><p>bye</p>"

/-- A result whose first item was created late in the evening of 2024-01-02
in a zone five hours west of UTC (2024-01-03 in UTC), whose second item has a
link that `url.Parse` rejects, whose third item has only an update time and
whose fourth item has no time at all. -/
def zonedResult : TaskResult where
  Title := "Zones"
  Items := [
    { Title := "Late", Created := { instant := 63839851445000000000, offset := -18000 },
      Link := "https://base/late?x=1" },
    { Title := "Skipped", Created := 63839761445000000000, Link := ":bad" },
    { Title := "Edited", Updated := 63839847845000000000, Link := "https://base/edited" },
    { Title := "Undated", Link := "https://base/undated" }]

/-! ## Theorems -/

/-- A string has length zero exactly when it is the empty string. -/
theorem length_eq_zero_iff_empty (s : String) : s.length = 0 ↔ s = "" := by
  cases s with
  | mk data =>
    cases data with
    | nil => exact ⟨fun _ => rfl, fun _ => rfl⟩
    | cons c cs =>
      constructor
      · intro h
        simp [String.length] at h
      · intro h
        exact absurd (congrArg String.data h) (by simp)

/-- The item that `extractPost` returns next to an error is the zero item. -/
theorem extractPost_error_item (L : GoLib) (p : htmlParser) (post : Node)
    (h : (p.extractPost L post).2 ≠ none) : (p.extractPost L post).1 = {} := by
  unfold htmlParser.extractPost at h ⊢
  cases hfrom : p.task.CreatedExtractFrom
  · simp only [hfrom] at h ⊢
    split at h <;> simp at h
  · simp only [hfrom] at h ⊢
    split at h <;> simp at h
  · simp only [hfrom]

/-- The zero item lacks the required fields. -/
theorem zero_item_not_complete : ¬ ({} : FeedItem).complete := by
  intro h
  exact h.1 rfl

/-- The loop of `parse` appends, in order, the complete items among those that
`extractPost` yields for the posts. -/
theorem parseLoop_eq (L : GoLib) (p : htmlParser) (posts : List Node) (items : List FeedItem) :
    htmlParser.parseLoop L p posts items =
      items ++ (posts.map (fun post => (p.extractPost L post).1)).filter
        (fun item => decide item.complete) := by
  induction posts generalizing items with
  | nil => simp [htmlParser.parseLoop]
  | cons post rest ih =>
    unfold htmlParser.parseLoop
    rcases hx : p.extractPost L post with ⟨item, err⟩
    cases err with
    | some e =>
      have h0 : (p.extractPost L post).1 = {} :=
        extractPost_error_item L p post (by rw [hx]; simp)
      simp only [ih, List.map_cons, h0]
      rw [List.filter_cons_of_neg (by simpa using zero_item_not_complete)]
    | none =>
      have h1 : (p.extractPost L post).1 = item := by rw [hx]
      simp only [List.map_cons, h1]
      by_cases hc : item.complete
      · have hn : ¬ (item.Title.length = 0 ∨ item.Link.length = 0 ∨ item.Created.IsZero = true) := by
          rintro (h | h | h)
          · exact hc.1 ((length_eq_zero_iff_empty _).1 h)
          · exact hc.2.1 ((length_eq_zero_iff_empty _).1 h)
          · exact hc.2.2 h
        rw [if_neg hn, ih, List.filter_cons_of_pos (by simpa using hc)]
        simp
      · have hy : item.Title.length = 0 ∨ item.Link.length = 0 ∨ item.Created.IsZero = true := by
          by_contra hcon
          push_neg at hcon
          exact hc ⟨fun h => hcon.1 ((length_eq_zero_iff_empty _).2 h),
            fun h => hcon.2.1 ((length_eq_zero_iff_empty _).2 h), hcon.2.2⟩
        rw [if_pos hy, ih, List.filter_cons_of_neg (by simpa using hc)]

/-- C1. When `htmlParser.parse` succeeds, the items of the result are exactly
the items that `extractPost` yields for the matched post nodes, in the order of
the nodes, restricted to those with a non-empty title, a non-empty link and a
non-zero created time; so every item of the result has all three. -/
theorem parse_items_are_complete_posts (L : GoLib) (p : htmlParser) (htmlStr : String)
    (result : TaskResult) (h : p.parse L htmlStr = .ok result) :
    ∃ doc postNodes, L.htmlParse htmlStr = some doc ∧
      selectNodes L doc p.task.SelectorPost = .ok postNodes ∧
      result.Items = (postNodes.map (fun post => (p.extractPost L post).1)).filter
        (fun item => decide (item.Title ≠ "" ∧ item.Link ≠ "" ∧ ¬ item.Created.IsZero = true)) ∧
      ∀ item ∈ result.Items,
        item.Title ≠ "" ∧ item.Link ≠ "" ∧ ¬ item.Created.IsZero = true := by
  unfold htmlParser.parse at h
  cases hdoc : L.htmlParse htmlStr with
  | none => simp [hdoc] at h
  | some doc =>
    simp only [hdoc] at h
    cases hsel : selectNodes L doc p.task.SelectorPost with
    | error e => simp [hsel] at h
    | ok postNodes =>
      simp only [hsel] at h
      split at h
      · simp at h
      · split at h
        · simp at h
        · injection h with h
          refine ⟨doc, postNodes, rfl, hsel, ?_, ?_⟩
          · rw [← h]
            simp only [parseLoop_eq, List.nil_append]
            rfl
          · intro item hitem
            rw [← h] at hitem
            simp only [parseLoop_eq, List.nil_append, List.mem_filter] at hitem
            simpa [FeedItem.complete] using hitem.2

set_option maxRecDepth 1000000 in
/-- C1 at the blog page: `parse` succeeds there and keeps the two posts that
have a title, a link and a date. -/
theorem parse_items_are_complete_posts_witness :
    blogParser.parse goLib Ref.blogPageText = .ok blogResult ∧
      ∃ doc postNodes, goLib.htmlParse Ref.blogPageText = some doc ∧
        selectNodes goLib doc blogParser.task.SelectorPost = .ok postNodes ∧
        blogResult.Items =
          (postNodes.map (fun post => (blogParser.extractPost goLib post).1)).filter
            (fun item => decide (item.Title ≠ "" ∧ item.Link ≠ "" ∧
              ¬ item.Created.IsZero = true)) ∧
        ∀ item ∈ blogResult.Items,
          item.Title ≠ "" ∧ item.Link ≠ "" ∧ ¬ item.Created.IsZero = true :=
  ⟨by rfl, parse_items_are_complete_posts goLib blogParser Ref.blogPageText blogResult (by rfl)⟩

/-- C6. For a document that parses and a post selector that is valid,
`htmlParser.parse` returns an error when the selector matches no node or when
no matched post yields an item with all required fields, and otherwise returns
a result whose item list is not empty. -/
theorem parse_error_iff_no_complete_post (L : GoLib) (p : htmlParser) (htmlStr : String)
    (doc : Node) (postNodes : List Node) (hdoc : L.htmlParse htmlStr = some doc)
    (hsel : selectNodes L doc p.task.SelectorPost = .ok postNodes) :
    ((postNodes = [] ∨ ∀ post ∈ postNodes, ¬ (p.extractPost L post).1.complete) →
      ∃ msg, p.parse L htmlStr = .error msg) ∧
    (¬ (postNodes = [] ∨ ∀ post ∈ postNodes, ¬ (p.extractPost L post).1.complete) →
      ∃ result, p.parse L htmlStr = .ok result ∧ result.Items ≠ []) := by
  have hitems : htmlParser.parseLoop L p postNodes [] = [] ↔
      ∀ post ∈ postNodes, ¬ (p.extractPost L post).1.complete := by
    simp [parseLoop_eq, List.filter_eq_nil_iff]
  constructor
  · intro hno
    unfold htmlParser.parse
    simp only [hdoc, hsel]
    by_cases hlen : postNodes.length = 0
    · exact ⟨_, if_pos hlen⟩
    · rw [if_neg hlen]
      have hall : ∀ post ∈ postNodes, ¬ (p.extractPost L post).1.complete := by
        rcases hno with h | h
        · exact absurd (by simp [h]) hlen
        · exact h
      have hnil := hitems.2 hall
      simp [hnil]
  · intro hsome
    push_neg at hsome
    unfold htmlParser.parse
    simp only [hdoc, hsel]
    have hlen : ¬ postNodes.length = 0 := by
      intro h
      exact hsome.1 (List.length_eq_zero.1 h)
    rw [if_neg hlen]
    have hne : ¬ htmlParser.parseLoop L p postNodes [] = [] := by
      intro h
      obtain ⟨post, hmem, hc⟩ := hsome.2
      exact (hitems.1 h) post hmem hc
    have hlen2 : ¬ (htmlParser.parseLoop L p postNodes []).length = 0 := by
      intro h
      exact hne (List.length_eq_zero.1 h)
    simp only [if_neg hlen2]
    exact ⟨_, rfl, hne⟩

set_option maxRecDepth 1000000 in
/-- C6 at the blog page, where the selector `article` matches three posts. -/
theorem parse_error_iff_no_complete_post_witness :
    goLib.htmlParse Ref.blogPageText = some Ref.blogPage ∧
    selectNodes goLib Ref.blogPage blogParser.task.SelectorPost = .ok Ref.blogPosts ∧
    ((Ref.blogPosts = [] ∨
        ∀ post ∈ Ref.blogPosts, ¬ (blogParser.extractPost goLib post).1.complete) →
      ∃ msg, blogParser.parse goLib Ref.blogPageText = .error msg) ∧
    (¬ (Ref.blogPosts = [] ∨
        ∀ post ∈ Ref.blogPosts, ¬ (blogParser.extractPost goLib post).1.complete) →
      ∃ result, blogParser.parse goLib Ref.blogPageText = .ok result ∧ result.Items ≠ []) :=
  ⟨by rfl, by rfl,
    parse_error_iff_no_complete_post goLib blogParser Ref.blogPageText Ref.blogPage
      Ref.blogPosts (by rfl) (by rfl)⟩

set_option maxRecDepth 1000000 in
/-- C2 (failing input). A text node that holds `<script>alert(1)</script>` is
copied into the paragraph as it is: the content returned by `extractContent`
contains the element tag `script`, which is not one of p, img, b, i, strong. -/
theorem extractContent_copies_tags_of_text (L : GoLib) (baseURL : Option URL) :
    extractContent L escapedScriptDiv baseURL = "<p>see <script>alert(1)</script> now</p>" ∧
      tagNames (extractContent L escapedScriptDiv baseURL).data = ["p", "script", "script", "p"] := by
  have h : extractContent L escapedScriptDiv baseURL =
      "<p>see <script>alert(1)</script> now</p>" := by rfl
  rw [h]
  exact ⟨rfl, by decide⟩

set_option maxRecDepth 1000000 in
/-- C3 (counterexample). On the `div` of scenario S6 with base URL
`https://base`, `extractContent` does not return the text that the
specification gives. -/
theorem extractContent_s6_differs :
    extractContent goLib s6Div (parseURL goLib "https://base") ≠
      "<p>Hello <b>world</b></p><img src=\"https://base/a.png\"/><p>more</p>" := by
  decide

/-- A tag of lower-case ASCII letters is its own lower-case form. -/
theorem toLower_of_lower (L : GoLib)
    (hlower : ∀ c : Char, 97 ≤ c.toNat → c.toNat ≤ 122 → L.lowerRune c = c) (s : String)
    (hs : ∀ c ∈ s.data, 97 ≤ c.toNat ∧ c.toNat ≤ 122) : toLower L s = s := by
  cases s with
  | mk data =>
    unfold toLower
    congr 1
    simp only at hs ⊢
    induction data with
    | nil => rfl
    | cons c cs ih =>
      rw [List.map_cons, hlower c (hs c (by simp)).1 (hs c (by simp)).2,
        ih (fun d hd => hs d (by simp [hd]))]

/-- The walk of `extractContent` at a text node. -/
theorem walk_text (L : GoLib) (baseURL : Option URL) (data : String) (attr : List Attribute)
    (children : List Node) (st : Builders) :
    extractContent.walk L baseURL (.mk .TextNode data attr children) st =
      if trimSpace data ≠ "" then { st with paragraph := st.paragraph ++ data ++ " " }
      else st := by
  rw [extractContent.walk]

/-- The walk of `extractContent` at an `img` element. -/
theorem walk_img (L : GoLib) (baseURL : Option URL) (data : String) (attr : List Attribute)
    (children : List Node) (st : Builders) (htag : toLower L data = "img") :
    extractContent.walk L baseURL (.mk .ElementNode data attr children) st =
      addImage L baseURL (finishParagraph st)
        (nodeAttr L (.mk .ElementNode data attr children) "src") := by
  rw [extractContent.walk]
  simp only [htag, if_true]

/-- The walk of `extractContent` at an element that is neither `img` nor
allowed markup: its children are walked and nothing else is written. -/
theorem walk_transparent (L : GoLib) (baseURL : Option URL) (data : String)
    (attr : List Attribute) (children : List Node) (st : Builders)
    (himg : toLower L data ≠ "img") (hallow : allowedMarkupTags (toLower L data) = false) :
    extractContent.walk L baseURL (.mk .ElementNode data attr children) st =
      extractContent.walkChildren L baseURL children st := by
  rw [extractContent.walk]
  simp [himg, hallow]

/-- The walk of `extractContent` at an element of allowed markup: the opening
tag, the children, the closing tag. -/
theorem walk_markup (L : GoLib) (baseURL : Option URL) (data : String)
    (attr : List Attribute) (children : List Node) (st : Builders)
    (himg : toLower L data ≠ "img") (hallow : allowedMarkupTags (toLower L data) = true) :
    extractContent.walk L baseURL (.mk .ElementNode data attr children) st =
      let st2 := extractContent.walkChildren L baseURL children
        { st with paragraph := st.paragraph ++ "<" ++ toLower L data ++ ">" }
      { st2 with paragraph := st2.paragraph ++ "</" ++ toLower L data ++ ">" } := by
  rw [extractContent.walk]
  simp [himg, hallow]

set_option maxRecDepth 1000000 in
/-- C3 (amended). On the `div` of scenario S6, with a base URL against which
`/a.png` resolves to `https://base/a.png`, `extractContent` returns
`<p>x Hello  <b>world </b></p><img src="https://base/a.png"/><p>more</p>`: the
text of the `script` element is part of the paragraph, and every text node is
followed by one space. -/
theorem extractContent_s6 (L : GoLib) (base ref : URL)
    (hlower : ∀ c : Char, 97 ≤ c.toNat → c.toNat ≤ 122 → L.lowerRune c = c)
    (hfold : L.equalFold "src" "src" = true)
    (hparse : L.urlParse "/a.png" = some ref) (hrel : ref.IsAbs = false)
    (hres : L.urlString (L.resolveReference base ref) = "https://base/a.png") :
    extractContent L s6Div (some base) =
      "<p>x Hello  <b>world </b></p><img src=\"https://base/a.png\"/><p>more</p>" := by
  have hscript : toLower L "script" = "script" :=
    toLower_of_lower L hlower "script" (by decide)
  have hb : toLower L "b" = "b" := toLower_of_lower L hlower "b" (by decide)
  have himg : toLower L "img" = "img" := toLower_of_lower L hlower "img" (by decide)
  have hp : toLower L "p" = "p" := toLower_of_lower L hlower "p" (by decide)
  have habs : absURL L "/a.png" (some base) = "https://base/a.png" := by
    unfold absURL
    rw [if_neg (by decide)]
    simp only [hparse, hrel]
    simpa using hres
  have hsrc : nodeAttr L (.mk .ElementNode "img" [⟨"src", "/a.png"⟩] []) "src" = "/a.png" := by
    simp [nodeAttr, Node.Attr, nodeAttr.loop, hfold]
  have h1 : ∀ st, extractContent.walk L (some base) (Ref.elem "script" [] [Ref.text "x"]) st
      = { st with paragraph := st.paragraph ++ "x" ++ " " } := by
    intro st
    rw [Ref.elem, walk_transparent L _ _ _ _ _ (by rw [hscript]; decide) (by rw [hscript]; rfl),
      extractContent.walkChildren, extractContent.walkChildren, Ref.text, walk_text,
      if_pos (by decide)]
  have h2 : ∀ st, extractContent.walk L (some base) (Ref.text "Hello ") st
      = { st with paragraph := st.paragraph ++ "Hello " ++ " " } := by
    intro st
    rw [Ref.text, walk_text, if_pos (by decide)]
  have h3 : ∀ st, extractContent.walk L (some base) (Ref.elem "b" [] [Ref.text "world"]) st
      = { st with paragraph := st.paragraph ++ "<" ++ "b" ++ ">" ++ "world" ++ " " ++ "</" ++ "b" ++ ">" } := by
    intro st
    rw [Ref.elem, walk_markup L _ _ _ _ _ (by rw [hb]; decide) (by rw [hb]; rfl), hb]
    simp only [extractContent.walkChildren, Ref.text, walk_text]
    rw [if_pos (by decide)]
  have h4 : ∀ st, extractContent.walk L (some base) (Ref.elem "img" [⟨"src", "/a.png"⟩] []) st
      = { content := (finishParagraph st).content ++ "<img src=\"" ++ "https://base/a.png" ++ "\"/>",
          paragraph := (finishParagraph st).paragraph } := by
    intro st
    rw [Ref.elem, walk_img L _ _ _ _ _ himg, hsrc, addImage]
    simp only [habs]
    rw [if_neg (by decide)]
  have h5 : ∀ st, extractContent.walk L (some base) (Ref.elem "p" [] [Ref.text "more"]) st
      = { st with paragraph := st.paragraph ++ "more" ++ " " } := by
    intro st
    rw [Ref.elem, walk_transparent L _ _ _ _ _ (by rw [hp]; decide) (by rw [hp]; rfl),
      extractContent.walkChildren, extractContent.walkChildren, Ref.text, walk_text,
      if_pos (by decide)]
  simp only [extractContent, s6Div]
  rw [Ref.elem]
  simp only [Node.children, extractContent.walkChildren, h1, h2, h3, h4, h5]
  rfl

set_option maxRecDepth 1000000 in
/-- C3 (amended) on the executable library, with base URL `https://base`. -/
theorem extractContent_s6_witness :
    (∀ c : Char, 97 ≤ c.toNat → c.toNat ≤ 122 → goLib.lowerRune c = c) ∧
    goLib.urlParse "/a.png" = some { Path := "/a.png" } ∧
    extractContent goLib s6Div (some { Scheme := "https", Host := "base" }) =
      "<p>x Hello  <b>world </b></p><img src=\"https://base/a.png\"/><p>more</p>" :=
  have hlower : ∀ c : Char, 97 ≤ c.toNat → c.toNat ≤ 122 → goLib.lowerRune c = c := by
    intro c h1 h2
    show Ref.lowerRune c = c
    unfold Ref.lowerRune
    rw [if_neg (by omega)]
  ⟨hlower, by rfl,
    extractContent_s6 goLib { Scheme := "https", Host := "base" } { Path := "/a.png" }
      hlower (by rfl) (by rfl) (by rfl) (by rfl)⟩

/-- Each part of `String` on the executable library extends the buffer. -/
theorem Ref.writeAuthority_extends (u : URL) (buf : String) :
    ∃ t, Ref.writeAuthority u buf = buf ++ t := by
  unfold Ref.writeAuthority
  split_ifs
  · cases u.User with
    | none => exact ⟨_, by simp only []; rw [String.append_assoc]⟩
    | some ui => exact ⟨_, by simp only []; rw [String.append_assoc, String.append_assoc, String.append_assoc]⟩
  · cases u.User with
    | none => exact ⟨u.Host, rfl⟩
    | some ui => exact ⟨_, by simp only []; rw [String.append_assoc, String.append_assoc]⟩
  · exact ⟨"", by simp⟩

/-- The path part of `String` on the executable library extends the buffer. -/
theorem Ref.writePath_extends (u : URL) (buf : String) :
    ∃ t, Ref.writePath u buf = buf ++ t := by
  unfold Ref.writePath
  simp only []
  split_ifs
  · exact ⟨_, by rw [String.append_assoc, String.append_assoc]⟩
  · exact ⟨_, by rw [String.append_assoc]⟩
  · exact ⟨_, by rw [String.append_assoc]⟩
  · exact ⟨u.Path, rfl⟩

/-- On the executable library the text of a URL with a scheme starts with the
scheme and a colon. -/
theorem Ref.urlString_scheme_colon (u : URL) (h : u.Scheme ≠ "") :
    ∃ rest, (Ref.urlString u).data = u.Scheme.data ++ ':' :: rest := by
  obtain ⟨t1, h1⟩ := Ref.writeAuthority_extends u (u.Scheme ++ ":")
  obtain ⟨t2, h2⟩ := Ref.writePath_extends u (Ref.writeAuthority u (u.Scheme ++ ":"))
  unfold Ref.urlString
  simp only [h, ne_eq, not_false_eq_true, if_true]
  rw [h2, h1]
  split_ifs <;> simp [String.data_append]

/-- On the executable library a text without a colon after its first
character is not an absolute URL. -/
theorem Ref.not_absolute_of_no_colon (s : String) (h : ':' ∉ s.data.tail) :
    ¬ isAbsoluteURL goLib s := by
  rintro ⟨u, habs, hu⟩
  have hs : u.Scheme ≠ "" := by simpa [URL.IsAbs] using habs
  obtain ⟨rest, hr⟩ := Ref.urlString_scheme_colon u hs
  have hdata : s.data = u.Scheme.data ++ ':' :: rest := by
    rw [← hu]
    exact hr
  apply h
  rw [hdata]
  cases hsd : u.Scheme.data with
  | nil =>
    exfalso
    apply hs
    have heta : u.Scheme = ⟨u.Scheme.data⟩ := rfl
    rw [heta, hsd]
  | cons c cs => simp

set_option maxRecDepth 1000000 in
/-- C4 (counterexample). With the absolute base URL `https://base`, `parse`
returns for the odd page an item whose link `:foo` and whose enclosure
`/a.png` are neither empty nor absolute URLs. -/
theorem parse_returns_values_not_absolute :
    oddParser.baseURL = some { Scheme := "https", Host := "base" } ∧
    oddParser.parse goLib Ref.oddPageText = .ok { Title := "", Icon := "", Items := [oddItem] } ∧
    ¬ (oddItem.Link = "" ∨ isAbsoluteURL goLib oddItem.Link) ∧
    ¬ (oddItem.Enclosure = "" ∨ isAbsoluteURL goLib oddItem.Enclosure) := by
  refine ⟨rfl, by rfl, ?_, ?_⟩
  · rintro (h | h)
    · exact absurd h (by decide)
    · exact Ref.not_absolute_of_no_colon ":foo" (by decide) h
  · rintro (h | h)
    · exact absurd h (by decide)
    · exact Ref.not_absolute_of_no_colon "/a.png" (by decide) h

/-- With an absolute base, `absURL` returns the empty text, or the link
itself when `url.Parse` rejects it, or an absolute URL. -/
theorem absURL_empty_unparsed_or_absolute (L : GoLib) (link : String) (base : URL)
    (habs : base.IsAbs = true)
    (hlaw : ∀ b ref : URL, b.IsAbs = true → (L.resolveReference b ref).IsAbs = true) :
    emptyUnparsedOrAbsolute L (absURL L link (some base)) := by
  unfold absURL
  by_cases hblank : trimSpace link = ""
  · rw [if_pos hblank]
    exact Or.inl rfl
  · rw [if_neg hblank]
    cases hparse : L.urlParse link with
    | none => exact Or.inr (Or.inl hparse)
    | some parsed =>
      simp only []
      by_cases hp : parsed.IsAbs = true
      · rw [if_pos hp]
        exact Or.inr (Or.inr ⟨parsed, hp, rfl⟩)
      · rw [if_neg hp]
        exact Or.inr (Or.inr ⟨_, hlaw base parsed habs, rfl⟩)

/-- The link and the author link of the item of `extractPost` are results of
`absURL` with the base URL of the parser. -/
theorem extractPost_links (L : GoLib) (p : htmlParser) (post : Node) :
    (∃ raw, (p.extractPost L post).1.Link = absURL L raw p.baseURL) ∧
    (∃ raw, (p.extractPost L post).1.AuthorLink = absURL L raw p.baseURL) := by
  have hzero : absURL L "" p.baseURL = "" := by
    unfold absURL
    rw [if_pos (by decide)]
  suffices hall : ∀ x, p.extractPost L post = x →
      (∃ raw, x.1.Link = absURL L raw p.baseURL) ∧
      (∃ raw, x.1.AuthorLink = absURL L raw p.baseURL) from hall _ rfl
  intro x hx
  unfold htmlParser.extractPost at hx
  lift_lets at hx
  extract_lets item0 item1 item2 item3 item4 item5 created at hx
  have h1 : item1.Link = absURL L (attrFromSelector L post p.task.SelectorLink "href") p.baseURL ∧
      item1.AuthorLink = "" := ⟨rfl, rfl⟩
  have h2 : item2.Link = item1.Link ∧ item2.AuthorLink = item1.AuthorLink := by
    simp only [item2]
    split <;> exact ⟨rfl, rfl⟩
  have h3 : item3.Link = item2.Link ∧
      (item3.AuthorLink = item2.AuthorLink ∨
        item3.AuthorLink =
          absURL L (attrFromSelector L post p.task.SelectorAuthor "href") p.baseURL) := by
    simp only [item3]
    split
    · exact ⟨rfl, Or.inr rfl⟩
    · exact ⟨rfl, Or.inl rfl⟩
  have h4 : item4.Link = item3.Link ∧ item4.AuthorLink = item3.AuthorLink := by
    simp only [item4]
    split <;> exact ⟨rfl, rfl⟩
  have h5 : item5.Link = item4.Link ∧ item5.AuthorLink = item4.AuthorLink := by
    simp only [item5]
    split <;> exact ⟨rfl, rfl⟩
  have hlink : ∃ raw, item5.Link = absURL L raw p.baseURL :=
    ⟨_, by rw [h5.1, h4.1, h3.1, h2.1, h1.1]⟩
  have hauthor : ∃ raw, item5.AuthorLink = absURL L raw p.baseURL := by
    rcases h3.2 with h | h
    · exact ⟨"", by rw [h5.2, h4.2, h, h2.2, h1.2, hzero]⟩
    · exact ⟨_, by rw [h5.2, h4.2, h]⟩
  clear_value created
  cases created with
  | none =>
    rw [← hx]
    exact ⟨⟨"", hzero.symm⟩, ⟨"", hzero.symm⟩⟩
  | some s =>
    simp only [] at hx
    cases hd : p.dateParser s with
    | none =>
      rw [hd] at hx
      rw [← hx]
      exact ⟨hlink, hauthor⟩
    | some t =>
      rw [hd] at hx
      rw [← hx]
      exact ⟨hlink, hauthor⟩

/-- The content of two sequences of writes, one after the other. -/
theorem Emitted.content_append (es fs : List Emitted) :
    Emitted.content (es ++ fs) = Emitted.content es ++ Emitted.content fs := by
  induction es with
  | nil => simp [Emitted.content]
  | cons e rest ih => simp [Emitted.content, ih, String.append_assoc]

/-- The image srcs of two sequences of writes, one after the other. -/
theorem Emitted.sources_append (es fs : List Emitted) :
    Emitted.sources (es ++ fs) = Emitted.sources es ++ Emitted.sources fs := by
  induction es with
  | nil => simp [Emitted.sources]
  | cons e rest ih => cases e <;> simp [Emitted.sources, ih]

/-- The srcs written for two lists of attribute values, one after the other. -/
theorem writtenSources_append (L : GoLib) (baseURL : Option URL) (xs ys : List String) :
    writtenSources L baseURL (xs ++ ys) =
      writtenSources L baseURL xs ++ writtenSources L baseURL ys := by
  simp [writtenSources]

/-- The closure `finishParagraph` writes nothing or one paragraph. -/
theorem finishParagraph_emitted (st : Builders) :
    ∃ es, (finishParagraph st).content = st.content ++ Emitted.content es ∧
      Emitted.sources es = [] := by
  unfold finishParagraph
  by_cases h : trimSpace st.paragraph = ""
  · exact ⟨[], by simp [h, Emitted.content], rfl⟩
  · exact ⟨[.paragraph (trimSpace st.paragraph)],
      by simp [h, Emitted.content, Emitted.html, String.append_assoc], rfl⟩

/-- The closure `addImage` writes nothing when `absURL` returns the empty
text, and one image with the result of `absURL` otherwise. -/
theorem addImage_emitted (L : GoLib) (baseURL : Option URL) (st : Builders) (src : String) :
    ∃ es, (addImage L baseURL st src).content = st.content ++ Emitted.content es ∧
      Emitted.sources es = writtenSources L baseURL [src] := by
  unfold addImage
  by_cases h : absURL L src baseURL = ""
  · exact ⟨[], by simp [h, Emitted.content], by simp [writtenSources, h, Emitted.sources]⟩
  · exact ⟨[.image (absURL L src baseURL)],
      by simp [h, Emitted.content, Emitted.html, String.append_assoc],
      by simp [writtenSources, h, Emitted.sources]⟩

mutual
/-- What the walk of `extractContent` appends to the content from a node on: a
sequence of paragraphs and images whose srcs are those written for the `img`
elements that the walk reaches. -/
theorem walk_emitted (L : GoLib) (baseURL : Option URL) :
    ∀ (n : Node) (st : Builders),
      ∃ es, (extractContent.walk L baseURL n st).content = st.content ++ Emitted.content es ∧
        Emitted.sources es = writtenSources L baseURL (walkedImages L n)
  | .mk type data attr children, st => by
    cases type with
    | ElementNode =>
      by_cases himg : toLower L data = "img"
      · rw [walk_img L baseURL data attr children st himg]
        obtain ⟨es1, h1, s1⟩ := finishParagraph_emitted st
        obtain ⟨es2, h2, s2⟩ := addImage_emitted L baseURL (finishParagraph st)
          (nodeAttr L (.mk .ElementNode data attr children) "src")
        refine ⟨es1 ++ es2, ?_, ?_⟩
        · rw [h2, h1, Emitted.content_append, String.append_assoc]
        · rw [Emitted.sources_append, s1, s2, walkedImages]
          simp [himg]
      · have hw : walkedImages L (.mk .ElementNode data attr children) =
            walkedImagesOfList L children := by
          rw [walkedImages]
          simp [himg]
        rw [hw]
        cases hallow : allowedMarkupTags (toLower L data) with
        | false =>
          rw [walk_transparent L baseURL data attr children st himg hallow]
          exact walkChildren_emitted L baseURL children st
        | true =>
          rw [walk_markup L baseURL data attr children st himg hallow]
          obtain ⟨es, h, s⟩ := walkChildren_emitted L baseURL children
            { st with paragraph := st.paragraph ++ "<" ++ toLower L data ++ ">" }
          exact ⟨es, h, s⟩
    | TextNode =>
      rw [walk_text]
      refine ⟨[], ?_, ?_⟩
      · split <;> simp [Emitted.content]
      · rw [walkedImages] <;> simp [writtenSources, Emitted.sources]
    | ErrorNode =>
      refine ⟨[], ?_, ?_⟩
      · rw [extractContent.walk] <;> simp [Emitted.content]
      · rw [walkedImages] <;> simp [writtenSources, Emitted.sources]
    | DocumentNode =>
      refine ⟨[], ?_, ?_⟩
      · rw [extractContent.walk] <;> simp [Emitted.content]
      · rw [walkedImages] <;> simp [writtenSources, Emitted.sources]
    | CommentNode =>
      refine ⟨[], ?_, ?_⟩
      · rw [extractContent.walk] <;> simp [Emitted.content]
      · rw [walkedImages] <;> simp [writtenSources, Emitted.sources]
    | DoctypeNode =>
      refine ⟨[], ?_, ?_⟩
      · rw [extractContent.walk] <;> simp [Emitted.content]
      · rw [walkedImages] <;> simp [writtenSources, Emitted.sources]
/-- What the walk of `extractContent` appends to the content over a list of
nodes. -/
theorem walkChildren_emitted (L : GoLib) (baseURL : Option URL) :
    ∀ (nodes : List Node) (st : Builders),
      ∃ es, (extractContent.walkChildren L baseURL nodes st).content =
          st.content ++ Emitted.content es ∧
        Emitted.sources es = writtenSources L baseURL (walkedImagesOfList L nodes)
  | [], st => by
    rw [extractContent.walkChildren, walkedImagesOfList]
    exact ⟨[], by simp [Emitted.content], rfl⟩
  | child :: rest, st => by
    rw [extractContent.walkChildren, walkedImagesOfList]
    obtain ⟨es1, h1, s1⟩ := walk_emitted L baseURL child st
    obtain ⟨es2, h2, s2⟩ := walkChildren_emitted L baseURL rest
      (extractContent.walk L baseURL child st)
    refine ⟨es1 ++ es2, ?_, ?_⟩
    · rw [h2, h1, Emitted.content_append, String.append_assoc]
    · rw [Emitted.sources_append, s1, s2, writtenSources_append]
end

/-- The function `extractContent` returns the content of a sequence of
paragraphs and images whose srcs are those written for the `img` elements that
the walk reaches below the root. -/
theorem extractContent_emitted (L : GoLib) (root : Node) (baseURL : Option URL) :
    ∃ es, extractContent L root baseURL = Emitted.content es ∧
      Emitted.sources es = writtenSources L baseURL (walkedImagesOfList L root.children) := by
  unfold extractContent
  obtain ⟨es1, h1, s1⟩ := walkChildren_emitted L baseURL root.children {}
  obtain ⟨es2, h2, s2⟩ := finishParagraph_emitted
    (extractContent.walkChildren L baseURL root.children {})
  refine ⟨es1 ++ es2, ?_, ?_⟩
  · rw [h2, h1, Emitted.content_append]
    simp
  · rw [Emitted.sources_append, s1, s2, List.append_nil]

/-- The content of the item of `extractPost` is empty or what `extractContent`
returns for a node, with the base URL of the parser. -/
theorem extractPost_content (L : GoLib) (p : htmlParser) (post : Node) :
    (p.extractPost L post).1.Content = "" ∨
      ∃ node, (p.extractPost L post).1.Content = extractContent L node p.baseURL := by
  suffices hall : ∀ x, p.extractPost L post = x →
      (x.1.Content = "" ∨ ∃ node, x.1.Content = extractContent L node p.baseURL) from hall _ rfl
  intro x hx
  unfold htmlParser.extractPost at hx
  lift_lets at hx
  extract_lets item0 item1 item2 item3 item4 item5 created at hx
  have h1 : item1.Content = "" := rfl
  have h2 : item2.Content = item1.Content := by
    simp only [item2]
    split <;> rfl
  have h3 : item3.Content = item2.Content := by
    simp only [item3]
    split <;> rfl
  have h4 : item4.Content = item3.Content ∨
      item4.Content = extractContentFromSelector L post p.task.SelectorContent p.baseURL := by
    simp only [item4]
    split
    · exact Or.inr rfl
    · exact Or.inl rfl
  have h5 : item5.Content = item4.Content := by
    simp only [item5]
    split <;> rfl
  have hcontent : item5.Content = "" ∨
      ∃ node, item5.Content = extractContent L node p.baseURL := by
    rcases h4 with h | h
    · exact Or.inl (by rw [h5, h, h3, h2, h1])
    · rw [h5, h]
      unfold extractContentFromSelector
      rcases firstNode L post p.task.SelectorContent with e | found
      · exact Or.inl rfl
      · cases found with
        | none => exact Or.inl rfl
        | some node => exact Or.inr ⟨node, rfl⟩
  clear_value created
  cases created with
  | none =>
    rw [← hx]
    exact Or.inl rfl
  | some s =>
    simp only [] at hx
    cases hd : p.dateParser s with
    | none =>
      rw [hd] at hx
      rw [← hx]
      exact hcontent
    | some t =>
      rw [hd] at hx
      rw [← hx]
      exact hcontent

/-- C4 (amended). When `htmlParser.parse` succeeds with an absolute http(s)
base URL, the icon of the result and the link and author link of every item
are each the empty text, or a text that `url.Parse` rejects (the attribute
value, returned as it is), or an absolute URL; and the content of every item
is empty or what `extractContent` returns for a node: a sequence of finished
paragraphs and `img` tags, with one tag for each `img` element that the walk
reaches below that node and whose src `absURL` does not turn into the empty
text, and the src written in each tag is such a rejected text or an absolute
URL. Nothing is said about the enclosure. -/
theorem parse_urls_empty_unparsed_or_absolute (L : GoLib) (p : htmlParser) (htmlStr : String)
    (result : TaskResult) (base : URL) (hbase : p.baseURL = some base)
    (hscheme : base.Scheme = "http" ∨ base.Scheme = "https")
    (hlaw : ∀ b ref : URL, b.IsAbs = true → (L.resolveReference b ref).IsAbs = true)
    (h : p.parse L htmlStr = .ok result) :
    emptyUnparsedOrAbsolute L result.Icon ∧
    (∀ item ∈ result.Items,
      emptyUnparsedOrAbsolute L item.Link ∧ emptyUnparsedOrAbsolute L item.AuthorLink) ∧
    (∀ item ∈ result.Items,
      item.Content = "" ∨
      ∃ (node : Node) (es : List Emitted),
        item.Content = extractContent L node p.baseURL ∧
        item.Content = Emitted.content es ∧
        Emitted.sources es =
          writtenSources L p.baseURL (walkedImagesOfList L node.children) ∧
        ∀ src ∈ Emitted.sources es, L.urlParse src = none ∨ isAbsoluteURL L src) := by
  have habs : base.IsAbs = true := by
    rcases hscheme with hs | hs <;> simp [URL.IsAbs, hs]
  have hok : ∀ link, emptyUnparsedOrAbsolute L (absURL L link p.baseURL) := by
    intro link
    rw [hbase]
    exact absURL_empty_unparsed_or_absolute L link base habs hlaw
  have hposts : ∀ item ∈ result.Items, ∃ post, item = (p.extractPost L post).1 := by
    intro item hitem
    obtain ⟨doc, postNodes, _, _, hitems, _⟩ :
        ∃ doc postNodes, L.htmlParse htmlStr = some doc ∧
          selectNodes L doc p.task.SelectorPost = .ok postNodes ∧
          result.Items = (postNodes.map (fun post => (p.extractPost L post).1)).filter
            (fun item => decide item.complete) ∧ True := by
      unfold htmlParser.parse at h
      cases hdoc : L.htmlParse htmlStr with
      | none => simp [hdoc] at h
      | some doc =>
        simp only [hdoc] at h
        cases hsel : selectNodes L doc p.task.SelectorPost with
        | error e => simp [hsel] at h
        | ok postNodes =>
          simp only [hsel] at h
          split at h
          · simp at h
          · split at h
            · simp at h
            · injection h with h
              refine ⟨doc, postNodes, rfl, hsel, ?_, trivial⟩
              rw [← h]
              simp only [parseLoop_eq, List.nil_append]
    rw [hitems, List.mem_filter, List.mem_map] at hitem
    obtain ⟨⟨post, _, hpost⟩, _⟩ := hitem
    exact ⟨post, hpost.symm⟩
  refine ⟨?_, ?_, ?_⟩
  · unfold htmlParser.parse at h
    cases hdoc : L.htmlParse htmlStr with
    | none => simp [hdoc] at h
    | some doc =>
      simp only [hdoc] at h
      cases hsel : selectNodes L doc p.task.SelectorPost with
      | error e => simp [hsel] at h
      | ok postNodes =>
        simp only [hsel] at h
        split at h
        · simp at h
        · split at h
          · simp at h
          · injection h with h
            rw [← h]
            simp only []
            split
            · exact Or.inl rfl
            · split
              · exact hok _
              · exact Or.inl rfl
  · intro item hitem
    obtain ⟨post, hpost⟩ := hposts item hitem
    obtain ⟨⟨raw1, h1⟩, ⟨raw2, h2⟩⟩ := extractPost_links L p post
    rw [hpost, h1, h2]
    exact ⟨hok raw1, hok raw2⟩
  · intro item hitem
    obtain ⟨post, hpost⟩ := hposts item hitem
    rcases extractPost_content L p post with hempty | ⟨node, hnode⟩
    · exact Or.inl (by rw [hpost, hempty])
    · right
      obtain ⟨es, hes, hsources⟩ := extractContent_emitted L node p.baseURL
      refine ⟨node, es, by rw [hpost, hnode], by rw [hpost, hnode, hes], hsources, ?_⟩
      intro src hsrc
      rw [hsources] at hsrc
      unfold writtenSources at hsrc
      rw [List.mem_filter, List.mem_map] at hsrc
      obtain ⟨⟨raw, _, hraw⟩, hne⟩ := hsrc
      rcases hok raw with h0 | h1 | h2
      · rw [hraw] at h0
        simp [h0] at hne
      · rw [hraw] at h1
        exact Or.inl h1
      · rw [hraw] at h2
        exact Or.inr h2

/-- On the executable library a reference resolved against an absolute base is
absolute. -/
theorem Ref.resolveReference_abs (b ref : URL) (hb : b.IsAbs = true) :
    (Ref.resolveReference b ref).IsAbs = true := by
  have hs : b.Scheme ≠ "" := by simpa [URL.IsAbs] using hb
  unfold Ref.resolveReference
  by_cases hr : ref.Scheme = ""
  · simp only [hr, if_true]
    split_ifs <;> simp [URL.IsAbs, hs]
  · simp only [hr, if_false]
    split_ifs <;> simp [URL.IsAbs, hr]

set_option maxRecDepth 1000000 in
/-- C4 (amended) at the story page with base URL `https://base`: the content
of its item has the images `https://base/a.png` and `:foo`, and none for the
blank src. -/
theorem parse_urls_empty_unparsed_or_absolute_witness :
    storyParser.baseURL = some { Scheme := "https", Host := "base" } ∧
    storyParser.parse goLib Ref.storyPageText =
      .ok { Title := "", Icon := "", Items := [storyItem] } ∧
    storyItem.Content = extractContent goLib Ref.storyDiv storyParser.baseURL ∧
    storyItem.Content = Emitted.content storyWrites ∧
    Emitted.sources storyWrites = ["https://base/a.png", ":foo"] ∧
    writtenSources goLib storyParser.baseURL (walkedImagesOfList goLib Ref.storyDiv.children) =
      ["https://base/a.png", ":foo"] ∧
    (emptyUnparsedOrAbsolute goLib "" ∧
      (∀ item ∈ [storyItem],
        emptyUnparsedOrAbsolute goLib item.Link ∧
          emptyUnparsedOrAbsolute goLib item.AuthorLink) ∧
      ∀ item ∈ [storyItem],
        item.Content = "" ∨
        ∃ (node : Node) (es : List Emitted),
          item.Content = extractContent goLib node storyParser.baseURL ∧
          item.Content = Emitted.content es ∧
          Emitted.sources es =
            writtenSources goLib storyParser.baseURL (walkedImagesOfList goLib node.children) ∧
          ∀ src ∈ Emitted.sources es, goLib.urlParse src = none ∨ isAbsoluteURL goLib src) :=
  ⟨rfl, by rfl, by rfl, by rfl, by rfl, by rfl,
    parse_urls_empty_unparsed_or_absolute goLib storyParser Ref.storyPageText
      { Title := "", Icon := "", Items := [storyItem] }
      { Scheme := "https", Host := "base" } rfl (Or.inr rfl) Ref.resolveReference_abs (by rfl)⟩

/-- The loop of `allowHost` returns false exactly when some address is denied. -/
theorem allowHost_loop_false_iff (L : GoLib) (proxyIP : Option IP) (ips : List IP) :
    allowHost.loop L proxyIP ips = false ↔ ∃ ip ∈ ips, denyIP L proxyIP ip = true := by
  induction ips with
  | nil => simp [allowHost.loop]
  | cons ip rest ih =>
    unfold allowHost.loop
    by_cases hd : denyIP L proxyIP ip = true
    · simp [hd]
    · simp [hd, ih]

/-- The value of `deny` for an address: it is of one of the five excluded
kinds, or a proxy address is configured and equals it. -/
theorem denyIP_iff (L : GoLib) (proxyIP : Option IP) (ip : IP) :
    denyIP L proxyIP ip = true ↔
      (L.isPrivate ip = true ∨ L.isLoopback ip = true ∨ L.isUnspecified ip = true ∨
        L.isLinkLocalUnicast ip = true ∨ L.isMulticast ip = true) ∨
      ∃ p, proxyIP = some p ∧ L.ipEqual p ip = true := by
  unfold denyIP
  cases proxyIP with
  | none => simp [or_assoc]
  | some p => simp [or_assoc]

/-- The function `getIPs` never returns an empty list without an error. -/
theorem getIPs_ok_nonempty (L : GoLib) (host : String) (cache cache1 : DnsCache)
    (ips : List IP) (h : getIPs L host cache = (.ok ips, cache1)) : ips ≠ [] := by
  intro hnil
  subst hnil
  unfold getIPs at h
  simp only [] at h
  repeat' split at h
  all_goals simp_all

/-- C5. When the host of a URL resolves without error, the list of addresses
is not empty and `allowHost` returns false exactly when at least one resolved
address is private, loopback, unspecified, link-local unicast or multicast, or
equals the configured proxy address, and true otherwise; and `allowHost`
returns an error only when the resolution (`getIPs`) returns one. -/
theorem allowHost_false_iff_some_ip_denied (L : GoLib) (proxyIP : Option IP) (rawUrl : String)
    (cache : DnsCache) :
    (∀ ips cache1, getIPs L rawUrl cache = (.ok ips, cache1) →
      ips ≠ [] ∧
      ∃ allowed, allowHost L proxyIP rawUrl cache = (.ok allowed, cache1) ∧
        (allowed = false ↔
          ∃ ip ∈ ips,
            (L.isPrivate ip = true ∨ L.isLoopback ip = true ∨ L.isUnspecified ip = true ∨
              L.isLinkLocalUnicast ip = true ∨ L.isMulticast ip = true) ∨
            ∃ p, proxyIP = some p ∧ L.ipEqual p ip = true) ∧
        (allowed = true ↔
          ¬ ∃ ip ∈ ips,
            (L.isPrivate ip = true ∨ L.isLoopback ip = true ∨ L.isUnspecified ip = true ∨
              L.isLinkLocalUnicast ip = true ∨ L.isMulticast ip = true) ∨
            ∃ p, proxyIP = some p ∧ L.ipEqual p ip = true)) ∧
    (∀ msg cache1, allowHost L proxyIP rawUrl cache = (.error msg, cache1) →
      ∃ m, getIPs L rawUrl cache = (.error m, cache1)) := by
  constructor
  · intro ips cache1 hres
    refine ⟨getIPs_ok_nonempty L rawUrl cache cache1 ips hres, allowHost.loop L proxyIP ips, ?_, ?_, ?_⟩
    · unfold allowHost
      rw [hres]
    · rw [allowHost_loop_false_iff]
      simp only [denyIP_iff]
    · rw [← Bool.not_eq_false, allowHost_loop_false_iff]
      simp only [denyIP_iff]
  · intro msg cache1 h
    unfold allowHost at h
    cases hres : getIPs L rawUrl cache with
    | mk r c =>
      cases r with
      | error m =>
        rw [hres] at h
        simp only [Prod.mk.injEq] at h
        exact ⟨m, by rw [h.2]⟩
      | ok ips =>
        rw [hres] at h
        simp at h

set_option maxRecDepth 1000000 in
/-- C5 at `https://intranet.example.com/feed`, which resolves to a public and
a private address: `allowHost` returns false. -/
theorem allowHost_false_iff_some_ip_denied_witness :
    getIPs goLib "https://intranet.example.com/feed" [] =
      (.ok [[93, 184, 216, 34], [10, 0, 0, 7]],
        [("intranet.example.com", [[93, 184, 216, 34], [10, 0, 0, 7]])]) ∧
    allowHost goLib (some [203, 0, 113, 9]) "https://intranet.example.com/feed" [] =
      (.ok false, [("intranet.example.com", [[93, 184, 216, 34], [10, 0, 0, 7]])]) ∧
    ([[93, 184, 216, 34], [10, 0, 0, 7]] ≠ ([] : List IP) ∧
      ∃ allowed, allowHost goLib (some [203, 0, 113, 9]) "https://intranet.example.com/feed" [] =
          (.ok allowed, [("intranet.example.com", [[93, 184, 216, 34], [10, 0, 0, 7]])]) ∧
        (allowed = false ↔
          ∃ ip ∈ ([[93, 184, 216, 34], [10, 0, 0, 7]] : List IP),
            (goLib.isPrivate ip = true ∨ goLib.isLoopback ip = true ∨
              goLib.isUnspecified ip = true ∨ goLib.isLinkLocalUnicast ip = true ∨
              goLib.isMulticast ip = true) ∨
            ∃ p, some [203, 0, 113, 9] = some p ∧ goLib.ipEqual p ip = true) ∧
        (allowed = true ↔
          ¬ ∃ ip ∈ ([[93, 184, 216, 34], [10, 0, 0, 7]] : List IP),
            (goLib.isPrivate ip = true ∨ goLib.isLoopback ip = true ∨
              goLib.isUnspecified ip = true ∨ goLib.isLinkLocalUnicast ip = true ∨
              goLib.isMulticast ip = true) ∨
            ∃ p, some [203, 0, 113, 9] = some p ∧ goLib.ipEqual p ip = true)) :=
  ⟨by rfl, by rfl,
    (allowHost_false_iff_some_ip_denied goLib (some [203, 0, 113, 9])
      "https://intranet.example.com/feed" []).1 _ _ (by rfl)⟩

/-- A text without the separator splits into itself alone. -/
theorem split_of_not_mem (sep : Char) (s : List Char) (h : sep ∉ s) : split sep s = [s] := by
  induction s with
  | nil => rfl
  | cons c cs ih =>
    have hc : c ≠ sep := fun heq => h (by simp [heq])
    have hcs : sep ∉ cs := fun hmem => h (by simp [hmem])
    unfold split
    rw [if_neg hc, ih hcs]

/-- Splitting never yields the empty list. -/
theorem split_ne_nil (sep : Char) (s : List Char) : split sep s ≠ [] := by
  cases s with
  | nil => simp [split]
  | cons c cs =>
    unfold split
    split_ifs
    · simp
    · split <;> simp

/-- Splitting commutes with a rune map that fixes the separator and sends no
other rune to it. -/
theorem split_map (sep : Char) (f : Char → Char) (hf : ∀ c, f c = sep ↔ c = sep)
    (s : List Char) : split sep (s.map f) = (split sep s).map (List.map f) := by
  induction s with
  | nil => rfl
  | cons c cs ih =>
    rw [List.map_cons]
    unfold split
    by_cases hc : c = sep
    · rw [if_pos ((hf c).2 hc), if_pos hc, ih]
      rfl
    · rw [if_neg (fun h => hc ((hf c).1 h)), if_neg hc, ih]
      cases hsp : split sep cs with
      | nil => exact absurd hsp (split_ne_nil sep cs)
      | cons part parts => rfl

/-- C9 (failing inputs). For an http(s) URL whose host is not an IP literal
and has no dot (a single label, or the empty host), `parseBaseDomain` neither
returns an error nor a domain: the index `domainParts[1]` is out of range and
the call panics. -/
theorem parseBaseDomain_panics_on_single_label (L : GoLib) (urlStr : String) (pageUrl : URL)
    (hparse : L.urlParse urlStr = some pageUrl)
    (hscheme : pageUrl.Scheme = "http" ∨ pageUrl.Scheme = "https")
    (hip : L.parseIP (toLower L (L.hostname pageUrl)) = none)
    (hdot : '.' ∉ (toLower L (L.hostname pageUrl)).data) :
    parseBaseDomain L urlStr = .panic "index out of range" := by
  unfold parseBaseDomain
  simp only [hparse]
  have hs : ¬ ¬ (pageUrl.Scheme = "https" ∨ pageUrl.Scheme = "http") := by
    rcases hscheme with h | h
    · exact not_not.2 (Or.inr h)
    · exact not_not.2 (Or.inl h)
  rw [if_neg hs]
  simp only [hip, split_of_not_mem '.' _ hdot]
  rfl

set_option maxRecDepth 1000000 in
/-- C9 at `http://localhost`: the call panics. -/
theorem parseBaseDomain_panics_on_single_label_witness :
    goLib.urlParse "http://localhost" = some { Scheme := "http", Host := "localhost" } ∧
    parseBaseDomain goLib "http://localhost" = .panic "index out of range" :=
  ⟨by rfl,
    parseBaseDomain_panics_on_single_label goLib "http://localhost"
      { Scheme := "http", Host := "localhost" } (by rfl) (Or.inl rfl) (by rfl) (by decide)⟩

/-- C10. For an http(s) URL whose lower-cased host is not an IP literal and
whose host has at least two dot-separated labels, `parseBaseDomain` returns
the scheme and, as domain, the lower-cased second-to-last label, a dot, and the
lower-cased last label. -/
theorem parseBaseDomain_last_two_labels (L : GoLib) (urlStr : String) (pageUrl : URL)
    (labels : List (List Char))
    (hlower : ∀ c, L.lowerRune c = '.' ↔ c = '.')
    (hparse : L.urlParse urlStr = some pageUrl)
    (hscheme : pageUrl.Scheme = "http" ∨ pageUrl.Scheme = "https")
    (hip : L.parseIP (toLower L (L.hostname pageUrl)) = none)
    (hlabels : split '.' (L.hostname pageUrl).data = labels)
    (hlen : 2 ≤ labels.length) :
    ∃ secondToLast last,
      labels[labels.length - 2]? = some secondToLast ∧
      labels[labels.length - 1]? = some last ∧
      parseBaseDomain L urlStr =
        .ok (⟨secondToLast.map L.lowerRune ++ ['.'] ++ last.map L.lowerRune⟩,
          pageUrl.Scheme) := by
  have h2 : labels.length - 2 < labels.length := by omega
  have h1 : labels.length - 1 < labels.length := by omega
  refine ⟨labels[labels.length - 2], labels[labels.length - 1],
    List.getElem?_eq_getElem h2, List.getElem?_eq_getElem h1, ?_⟩
  unfold parseBaseDomain
  simp only [hparse]
  have hs : ¬ ¬ (pageUrl.Scheme = "https" ∨ pageUrl.Scheme = "http") := by
    rcases hscheme with h | h
    · exact not_not.2 (Or.inr h)
    · exact not_not.2 (Or.inl h)
  rw [if_neg hs]
  simp only [hip]
  have hsplit : split '.' (toLower L (L.hostname pageUrl)).data =
      labels.map (List.map L.lowerRune) := by
    rw [← hlabels]
    exact split_map '.' L.lowerRune hlower _
  have hr1 : (labels.map (List.map L.lowerRune)).reverse[1]? =
      some (labels[labels.length - 2].map L.lowerRune) := by
    rw [List.getElem?_reverse (by simpa using hlen)]
    simp only [List.length_map, List.getElem?_map]
    rw [show labels.length - 1 - 1 = labels.length - 2 by omega, List.getElem?_eq_getElem h2]
    rfl
  have hr0 : (labels.map (List.map L.lowerRune)).reverse[0]? =
      some (labels[labels.length - 1].map L.lowerRune) := by
    rw [List.getElem?_reverse (by simp; omega)]
    simp only [List.length_map, List.getElem?_map]
    rw [show labels.length - 1 - 0 = labels.length - 1 by omega, List.getElem?_eq_getElem h1]
    rfl
  rw [hsplit, hr1, hr0]

/-- On the executable library lower-casing fixes the dot and sends no other
rune to it. -/
theorem Ref.lowerRune_dot (c : Char) : Ref.lowerRune c = '.' ↔ c = '.' := by
  unfold Ref.lowerRune
  split_ifs with h
  · constructor
    · intro heq
      exfalso
      obtain ⟨h1, h2⟩ := h
      generalize c.toNat = n at *
      interval_cases n <;> exact absurd heq (by decide)
    · intro heq
      subst heq
      exact absurd h (by decide)
  · exact Iff.rfl

set_option maxRecDepth 1000000 in
/-- C10 at `https://kek.example.com/lol`: the domain is `example.com`. -/
theorem parseBaseDomain_last_two_labels_witness :
    goLib.urlParse "https://kek.example.com/lol" =
      some { Scheme := "https", Host := "kek.example.com", Path := "/lol" } ∧
    (∃ secondToLast last,
      ["kek".data, "example".data, "com".data][3 - 2]? = some secondToLast ∧
      ["kek".data, "example".data, "com".data][3 - 1]? = some last ∧
      parseBaseDomain goLib "https://kek.example.com/lol" =
        .ok (⟨secondToLast.map goLib.lowerRune ++ ['.'] ++ last.map goLib.lowerRune⟩, "https")) ∧
    parseBaseDomain goLib "https://kek.example.com/lol" = .ok ("example.com", "https") :=
  ⟨by rfl,
    parseBaseDomain_last_two_labels goLib "https://kek.example.com/lol"
      { Scheme := "https", Host := "kek.example.com", Path := "/lol" }
      ["kek".data, "example".data, "com".data] Ref.lowerRune_dot (by rfl) (Or.inr rfl)
      (by rfl) (by rfl) (by decide), by rfl⟩

/-- The method `do` records the request and changes nothing else. -/
theorem do_world (c : flareClient) (req : flareRequest) (w : World) :
    (c.do req w).2 = { w with calls := w.calls ++ [req] } := by
  unfold flareClient.do
  split
  · rfl
  · split <;> rfl

/-- The method `do` succeeds exactly on a reply with status ok, which it returns. -/
theorem do_ok_iff (c : flareClient) (req : flareRequest) (w : World) (resp : flareResponse) :
    (c.do req w).1 = .ok resp ↔ c.httpClient w.calls req = some resp ∧ resp.Status = "ok" := by
  unfold flareClient.do
  cases hr : c.httpClient w.calls req with
  | none => simp
  | some decoded =>
    by_cases hs : decoded.Status = "ok"
    · simp only [hs, ne_eq, not_true_eq_false, if_false, Except.ok.injEq, Option.some.injEq]
      constructor
      · intro h
        exact ⟨h, h ▸ hs⟩
      · intro h
        exact h.1
    · simp only [ne_eq, hs, not_false_eq_true, if_true, Option.some.injEq]
      constructor
      · intro h
        cases h
      · intro h
        exact absurd (h.1 ▸ h.2) hs

/-- The method `createSession` hands one `sessions.create` request to `do`. -/
theorem createSession_world (c : flareClient) (proxy : Option flareProxy) (w : World) :
    (c.createSession proxy w).2 =
      { w with calls := w.calls ++ [{ Cmd := "sessions.create", Proxy := proxy }] } := by
  have hw := do_world c { Cmd := "sessions.create", Proxy := proxy } w
  cases hd : c.do { Cmd := "sessions.create", Proxy := proxy } w with
  | mk r w1 =>
    rw [hd] at hw
    simp only at hw
    simp only [flareClient.createSession, hd]
    cases r with
    | error m => exact hw
    | ok resp =>
      simp only []
      split <;> exact hw

/-- The method `createSession` succeeds exactly when the reply has status ok
and a session id that is not empty, which it returns. -/
theorem createSession_ok_iff (c : flareClient) (proxy : Option flareProxy) (w : World)
    (session : String) :
    (c.createSession proxy w).1 = .ok session ↔
      ∃ resp, c.httpClient w.calls { Cmd := "sessions.create", Proxy := proxy } = some resp ∧
        resp.Status = "ok" ∧ resp.Session = session ∧ session ≠ "" := by
  cases hd : c.do { Cmd := "sessions.create", Proxy := proxy } w with
  | mk r w1 =>
    have hr : (c.do { Cmd := "sessions.create", Proxy := proxy } w).1 = r := by rw [hd]
    simp only [flareClient.createSession, hd]
    cases r with
    | error m =>
      simp only [false_iff, not_exists, not_and, reduceCtorEq]
      intro resp h1 h2
      have := (do_ok_iff c _ w resp).2 ⟨h1, h2⟩
      rw [hr] at this
      cases this
    | ok resp =>
      have hresp := (do_ok_iff c _ w resp).1 hr
      simp only []
      by_cases he : resp.Session = ""
      · rw [if_pos he]
        simp only [false_iff, not_exists, not_and, reduceCtorEq]
        intro resp2 h1 _ h3 h4
        rw [hresp.1] at h1
        injection h1 with h1
        rw [← h1, he] at h3
        exact h4 h3.symm
      · rw [if_neg he]
        simp only [Except.ok.injEq]
        constructor
        · intro h
          exact ⟨resp, hresp.1, hresp.2, h, h ▸ he⟩
        · rintro ⟨resp2, h1, _, h3, _⟩
          rw [hresp.1] at h1
          injection h1 with h1
          rw [h1]
          exact h3

/-- The method `destroySession` hands one `sessions.destroy` request to `do`. -/
theorem destroySession_world (c : flareClient) (session : String) (w : World) :
    (c.destroySession session w).2 =
      { w with calls := w.calls ++ [{ Cmd := "sessions.destroy", Session := session }] } := by
  have hw := do_world c { Cmd := "sessions.destroy", Session := session } w
  cases hd : c.do { Cmd := "sessions.destroy", Session := session } w with
  | mk r w1 =>
    rw [hd] at hw
    simp only [flareClient.destroySession, hd]
    cases r <;> exact hw

/-- The check of the final URL hands no request to `do`. -/
theorem checkFinal_calls (L : GoLib) (e : PwExtractor) (solution : flareSolution) (w : World) :
    (PwExtractor.fetchSolution.checkFinal L e solution w).2.calls = w.calls := by
  unfold PwExtractor.fetchSolution.checkFinal
  split
  · rcases allowHost L e.proxyIP solution.Url w.dnsCache with ⟨r, cache⟩
    rcases r with m | b
    · rfl
    · cases b <;> rfl
  · rfl

/-- The part of `fetchSolution` that sends the request hands exactly that
request to `do`. -/
theorem send_calls (L : GoLib) (e : PwExtractor) (task : Task) (cookieStr : String)
    (cookies : List (String × String)) (req : flareRequest) (w : World) :
    (PwExtractor.fetchSolution.send L e task cookieStr cookies req w).2.calls =
      w.calls ++ [req] := by
  have hw := do_world e.client req w
  cases hd : e.client.do req w with
  | mk r w1 =>
    rw [hd] at hw
    simp only at hw
    simp only [PwExtractor.fetchSolution.send, hd]
    cases r with
    | error m =>
      simp only []
      rw [hw]
    | ok resp =>
      simp only []
      cases resp.Solution with
      | none =>
        simp only []
        rw [hw]
      | some solution =>
        simp only []
        have hc := checkFinal_calls L e solution w1
        rcases hcf : PwExtractor.fetchSolution.checkFinal L e solution w1 with ⟨r2, w2⟩
        rw [hcf] at hc
        simp only at hc
        cases r2 with
        | some m =>
          simp only []
          rw [hc, hw]
        | none =>
          simp only []
          split
          · simp only []
            rw [hc, hw]
          · rw [hc, hw]
/-- The request that `fetchSolution` builds is a `request.get` for the task
URL without session and without proxy. -/
theorem request_fields (e : PwExtractor) (task : Task) (ws : Bool)
    (cookies : List (String × String)) :
    (PwExtractor.fetchSolution.request e task ws cookies).Cmd = "request.get" ∧
    (PwExtractor.fetchSolution.request e task ws cookies).Url = task.URL ∧
    (PwExtractor.fetchSolution.request e task ws cookies).Session = "" ∧
    (PwExtractor.fetchSolution.request e task ws cookies).Proxy = none := by
  unfold PwExtractor.fetchSolution.request
  simp only []
  split <;> exact ⟨rfl, rfl, rfl, rfl⟩

/-- The requests that one run of `fetchSolution` hands to `do`: none when the
run ends before the request is sent; one `request.get` with the proxy (if any)
and no session when the proxy has no credentials; `sessions.create` alone when
the session cannot be created; and otherwise `sessions.create`, the
`request.get` with the session and no proxy, and `sessions.destroy` of that
session. -/
theorem fetchSolution_calls (L : GoLib) (e : PwExtractor) (task : Task) (ws : Bool)
    (w : World) :
    ((e.fetchSolution L task ws w).2.calls = w.calls ∧
      ∀ r, (e.fetchSolution L task ws w).1 ≠ .ok r) ∨
    (∃ get : flareRequest, get.Cmd = "request.get" ∧ get.Url = task.URL ∧
      get.Session = "" ∧ get.Proxy = e.proxy ∧ (e.proxy = none ∨ e.proxyHasAuth = false) ∧
      (e.fetchSolution L task ws w).2.calls = w.calls ++ [get]) ∨
    (e.proxy ≠ none ∧ e.proxyHasAuth = true ∧
      (¬ ∃ resp, e.client.httpClient w.calls { Cmd := "sessions.create", Proxy := e.proxy } =
          some resp ∧ resp.Status = "ok" ∧ resp.Session ≠ "") ∧
      (e.fetchSolution L task ws w).2.calls =
        w.calls ++ [{ Cmd := "sessions.create", Proxy := e.proxy }] ∧
      ∀ r, (e.fetchSolution L task ws w).1 ≠ .ok r) ∨
    (∃ (resp : flareResponse) (get : flareRequest),
      e.proxy ≠ none ∧ e.proxyHasAuth = true ∧
      e.client.httpClient w.calls { Cmd := "sessions.create", Proxy := e.proxy } = some resp ∧
      resp.Status = "ok" ∧ resp.Session ≠ "" ∧
      get.Cmd = "request.get" ∧ get.Url = task.URL ∧ get.Session = resp.Session ∧
      get.Proxy = none ∧
      (e.fetchSolution L task ws w).2.calls =
        w.calls ++ [{ Cmd := "sessions.create", Proxy := e.proxy }, get,
          { Cmd := "sessions.destroy", Session := resp.Session }]) := by
  unfold PwExtractor.fetchSolution
  rcases parseBaseDomain L task.URL with ⟨domain, scheme⟩ | m | m
  · simp only []
    cases e.limiter domain with
    | none => exact Or.inl ⟨rfl, fun r h => by cases h⟩
    | some waitFor =>
      simp only []
      rcases allowHost L e.proxyIP task.URL w.dnsCache with ⟨r, cache⟩
      rcases r with m | b
      · exact Or.inl ⟨rfl, fun r h => by cases h⟩
      · cases b with
        | false => exact Or.inl ⟨rfl, fun r h => by cases h⟩
        | true =>
          simp only []
          obtain ⟨hcmd, hurl, hsess, hprox⟩ := request_fields e task ws
            (e.extractCookies task.Headers task.URL).2
          cases hp : e.proxy with
          | none =>
            simp only []
            refine Or.inr (Or.inl ⟨_, hcmd, hurl, hsess, hprox, by simp, ?_⟩)
            rw [send_calls]
          | some proxy =>
            simp only []
            by_cases ha : e.proxyHasAuth = true
            · rw [if_pos ha]
              have hcw := createSession_world e.client (some proxy)
                { w with dnsCache := cache }
              rcases hcs : e.client.createSession (some proxy) { w with dnsCache := cache }
                with ⟨r, w1⟩
              rw [hcs] at hcw
              simp only at hcw
              cases r with
              | error m =>
                simp only []
                refine Or.inr (Or.inr (Or.inl ⟨by simp, ha, ?_, by rw [hcw], fun r h => by cases h⟩))
                rintro ⟨resp, h1, h2, h3⟩
                have hok := (createSession_ok_iff e.client (some proxy)
                  { w with dnsCache := cache } resp.Session).2 ⟨resp, h1, h2, rfl, h3⟩
                rw [hcs] at hok
                cases hok
              | ok session =>
                simp only []
                obtain ⟨resp, h1, h2, h3, h4⟩ := (createSession_ok_iff e.client (some proxy)
                  { w with dnsCache := cache } session).1 (by rw [hcs])
                refine Or.inr (Or.inr (Or.inr ⟨resp, { PwExtractor.fetchSolution.request e task ws
                    (e.extractCookies task.Headers task.URL).2 with Session := session },
                  by simp, ha, h1, h2, by rw [h3]; exact h4, hcmd, hurl, h3.symm, hprox, ?_⟩))
                rw [destroySession_world]
                simp only []
                rw [send_calls, hcw, h3]
                simp
            · rw [if_neg ha]
              refine Or.inr (Or.inl ⟨{ PwExtractor.fetchSolution.request e task ws
                    (e.extractCookies task.Headers task.URL).2 with Proxy := some proxy },
                hcmd, hurl, hsess, rfl, Or.inr (by simpa using ha), ?_⟩)
              rw [send_calls]
  · exact Or.inl ⟨rfl, fun r h => by cases h⟩
  · exact Or.inl ⟨rfl, fun r h => by cases h⟩
/-- The method `do` depends on the remote fetcher only through its reply to
the request at hand. -/
theorem do_congr (c : flareClient) (remote : Remote) (req : flareRequest) (w : World)
    (h : remote w.calls req = c.httpClient w.calls req) :
    ({ c with httpClient := remote } : flareClient).do req w = c.do req w := by
  unfold flareClient.do
  simp only [h]

/-- The part of `fetchSolution` that sends a request other than
`sessions.destroy` is the same for two remote fetchers that differ only in
their replies to `sessions.destroy`. -/
theorem send_congr (L : GoLib) (e : PwExtractor) (remote : Remote) (task : Task)
    (cookieStr : String) (cookies : List (String × String)) (req : flareRequest) (w : World)
    (hagree : ∀ hist r, r.Cmd ≠ "sessions.destroy" → remote hist r = e.client.httpClient hist r)
    (hreq : req.Cmd ≠ "sessions.destroy") :
    PwExtractor.fetchSolution.send L (e.withRemote remote) task cookieStr cookies req w =
      PwExtractor.fetchSolution.send L e task cookieStr cookies req w := by
  unfold PwExtractor.fetchSolution.send
  have hdo : (e.withRemote remote).client.do req w = e.client.do req w :=
    do_congr e.client remote req w (hagree _ _ hreq)
  rw [hdo]
  rfl

/-- The result of `fetchSolution` is the same for two remote fetchers that
differ only in their replies to `sessions.destroy`. -/
theorem fetchSolution_result_congr (L : GoLib) (e : PwExtractor) (remote : Remote)
    (task : Task) (ws : Bool) (w : World)
    (hagree : ∀ hist r, r.Cmd ≠ "sessions.destroy" →
      remote hist r = e.client.httpClient hist r) :
    ((e.withRemote remote).fetchSolution L task ws w).1 = (e.fetchSolution L task ws w).1 := by
  have hcreate : ∀ proxy w1, (e.withRemote remote).client.createSession proxy w1 =
      e.client.createSession proxy w1 := by
    intro proxy w1
    unfold flareClient.createSession
    have hdo : (e.withRemote remote).client.do { Cmd := "sessions.create", Proxy := proxy } w1 =
        e.client.do { Cmd := "sessions.create", Proxy := proxy } w1 :=
      do_congr e.client remote _ w1
        (hagree _ _ (show "sessions.create" ≠ "sessions.destroy" by decide))
    simp only [hdo]
  have hlim : (e.withRemote remote).limiter = e.limiter := rfl
  have hpip : (e.withRemote remote).proxyIP = e.proxyIP := rfl
  have hprox : (e.withRemote remote).proxy = e.proxy := rfl
  have hauth : (e.withRemote remote).proxyHasAuth = e.proxyHasAuth := rfl
  have hcook : (e.withRemote remote).extractCookies task.Headers task.URL =
      e.extractCookies task.Headers task.URL := rfl
  have hreq : ∀ cookies, PwExtractor.fetchSolution.request (e.withRemote remote) task ws cookies =
      PwExtractor.fetchSolution.request e task ws cookies := fun _ => rfl
  unfold PwExtractor.fetchSolution
  simp only [hlim, hpip, hprox, hauth, hcook, hreq, hcreate]
  obtain ⟨hcmd, -, -, -⟩ := request_fields e task ws (e.extractCookies task.Headers task.URL).2
  rcases parseBaseDomain L task.URL with ⟨domain, scheme⟩ | m | m
  · simp only []
    cases e.limiter domain with
    | none => rfl
    | some waitFor =>
      simp only []
      rcases allowHost L e.proxyIP task.URL w.dnsCache with ⟨r, cache⟩
      rcases r with m | b
      · rfl
      · cases b with
        | false => rfl
        | true =>
          simp only []
          cases e.proxy with
          | none =>
            simp only []
            rw [send_congr L e remote _ _ _ _ _ hagree (by rw [hcmd]; decide)]
          | some proxy =>
            simp only []
            by_cases ha : e.proxyHasAuth = true
            · simp only [if_pos ha]
              rcases e.client.createSession (some proxy) { w with dnsCache := cache }
                with ⟨r, w1⟩
              cases r with
              | error m => rfl
              | ok session =>
                simp only []
                rw [send_congr L e remote _ _ _ _ _ hagree (by simp only [hcmd]; decide)]
            · simp only [if_neg ha]
              rw [send_congr L e remote _ _ _ _ _ hagree (by simp only [hcmd]; decide)]
  · rfl
  · rfl
/-- The extractor that `New` returns holds what `parseProxy` makes of the
configured proxy. -/
theorem New_proxy (L : GoLib) (cfg : Config) (w0 w1 : World) (e : PwExtractor)
    (hnew : New L cfg w0 = (.ok e, w1)) :
    ∃ host, parseProxy L cfg.Proxy = .ok (e.proxy, e.proxyHasAuth, host) := by
  unfold New at hnew
  split at hnew
  · rcases hpp : parseProxy L cfg.Proxy with m | ⟨proxy, hasAuth, host⟩
    · rw [hpp] at hnew
      cases hnew
    · rw [hpp] at hnew
      simp only [] at hnew
      split at hnew
      · cases hnew
      · split at hnew
        · cases hnew
        · simp only [Prod.mk.injEq, Outcome.ok.injEq] at hnew
          refine ⟨host, ?_⟩
          rw [← hnew.1]
  · cases hnew

/-- What `parseProxy` returns for a proxy setting that is a URL: the proxy
without the user part, and whether the URL carries a user name that is not
empty or a password. -/
theorem parseProxy_of_url (L : GoLib) (s : String) (proxyUrl : URL)
    (hset : trimSpace s ≠ "") (hurl : L.urlParse s = some proxyUrl) :
    ∃ proxy hasAuth host, parseProxy L s = .ok (some proxy, hasAuth, host) ∧
      proxy.Url = L.urlString { proxyUrl with User := none } ∧
      (hasAuth = true ↔
        ∃ ui, proxyUrl.User = some ui ∧ (ui.username ≠ "" ∨ ui.password ≠ none)) := by
  unfold parseProxy
  rw [if_neg hset]
  simp only [hurl]
  cases hu : proxyUrl.User with
  | none => exact ⟨_, _, _, rfl, rfl, by simp⟩
  | some ui =>
    simp only []
    refine ⟨_, _, _, rfl, ?_, ?_⟩
    · cases ui.password <;> rfl
    · cases hp : ui.password with
      | none =>
        by_cases hn : ui.username = ""
        · simp [hn, hp]
        · simp [hn]
      | some pass => simp [hp]

/-- C7. Let the extractor be built by `New` from a configuration whose proxy
setting is a URL. When that URL carries credentials (a user name that is not
empty, or a password), every `request.get` that a run of `fetchSolution` hands
to the client has no proxy and has as session the id in the ok reply to the
`sessions.create` request of that run. When it carries none, no request of the
run is a `sessions.create`, and every `request.get` carries the proxy (whose
URL is the setting without user part) and the empty session. -/
theorem fetchSolution_session_iff_credentials (L : GoLib) (cfg : Config) (w0 w1 : World)
    (e : PwExtractor) (proxyUrl : URL) (task : Task) (ws : Bool) (w : World)
    (hnew : New L cfg w0 = (.ok e, w1)) (hset : trimSpace cfg.Proxy ≠ "")
    (hurl : L.urlParse cfg.Proxy = some proxyUrl) :
    ((∃ ui, proxyUrl.User = some ui ∧ (ui.username ≠ "" ∨ ui.password ≠ none)) →
      ∀ get ∈ (e.fetchSolution L task ws w).2.calls.drop w.calls.length,
        get.Cmd = "request.get" →
        get.Proxy = none ∧
        ∃ resp, e.client.httpClient w.calls { Cmd := "sessions.create", Proxy := e.proxy } =
            some resp ∧ resp.Status = "ok" ∧ resp.Session ≠ "" ∧
          get.Session = resp.Session) ∧
    ((¬ ∃ ui, proxyUrl.User = some ui ∧ (ui.username ≠ "" ∨ ui.password ≠ none)) →
      ∃ proxy, e.proxy = some proxy ∧
        proxy.Url = L.urlString { proxyUrl with User := none } ∧
        ∀ req ∈ (e.fetchSolution L task ws w).2.calls.drop w.calls.length,
          req.Cmd ≠ "sessions.create" ∧
          (req.Cmd = "request.get" → req.Proxy = some proxy ∧ req.Session = "")) := by
  obtain ⟨host, hpp⟩ := New_proxy L cfg w0 w1 e hnew
  obtain ⟨proxy, hasAuth, host2, hpp2, hpurl, hiff⟩ := parseProxy_of_url L cfg.Proxy proxyUrl hset hurl
  rw [hpp] at hpp2
  simp only [Except.ok.injEq, Prod.mk.injEq] at hpp2
  obtain ⟨hproxy, hauth, -⟩ := hpp2
  rw [← hauth] at hiff
  have hshape := fetchSolution_calls L e task ws w
  constructor
  · intro hcred get hmem hcmd
    have ha : e.proxyHasAuth = true := hiff.2 hcred
    rcases hshape with ⟨hc, -⟩ | ⟨g, -, -, -, -, hno, -⟩ | ⟨-, -, -, hc, -⟩ |
      ⟨resp, g, -, -, h1, h2, h3, hg1, -, hg3, hg4, hc⟩
    · rw [hc] at hmem
      simp at hmem
    · rcases hno with hno | hno
      · rw [hproxy] at hno
        cases hno
      · rw [ha] at hno
        cases hno
    · rw [hc, List.drop_left] at hmem
      simp only [List.mem_singleton] at hmem
      rw [hmem] at hcmd
      exact absurd hcmd (show "sessions.create" ≠ "request.get" by decide)
    · rw [hc, List.drop_left] at hmem
      simp only [List.mem_cons, List.mem_singleton, List.not_mem_nil, or_false] at hmem
      rcases hmem with hm | hm | hm
      · rw [hm] at hcmd
        exact absurd hcmd (show "sessions.create" ≠ "request.get" by decide)
      · rw [hm]
        exact ⟨hg4, resp, h1, h2, h3, hg3⟩
      · rw [hm] at hcmd
        exact absurd hcmd (show "sessions.destroy" ≠ "request.get" by decide)
  · intro hnocred
    have ha : e.proxyHasAuth = false := by
      cases hb : e.proxyHasAuth with
      | false => rfl
      | true => exact absurd (hiff.1 hb) hnocred
    refine ⟨proxy, hproxy, hpurl, ?_⟩
    intro req hmem
    rcases hshape with ⟨hc, -⟩ | ⟨g, hg1, -, hg3, hg4, -, hc⟩ | ⟨-, hyes, -⟩ | ⟨-, -, -, hyes, -⟩
    · rw [hc] at hmem
      simp at hmem
    · rw [hc, List.drop_left] at hmem
      simp only [List.mem_singleton] at hmem
      rw [hmem]
      refine ⟨by rw [hg1]; decide, fun _ => ⟨by rw [hg4, hproxy], hg3⟩⟩
    · rw [ha] at hyes
      cases hyes
    · rw [ha] at hyes
      cases hyes

set_option maxRecDepth 1000000 in
/-- C7 on the executable library, for the proxy `http://u:p@proxy.example.net:3128`:
the run hands `sessions.create`, the `request.get` with session `session-1`
and no proxy, and `sessions.destroy` to the client. -/
theorem fetchSolution_session_iff_credentials_witness :
    New goLib authConfig {} = (.ok authExtractor, proxyWorld) ∧
    (authExtractor.fetchSolution goLib feedTask false proxyWorld).2.calls =
      [{ Cmd := "sessions.create", Proxy := authExtractor.proxy },
        { feedRequest with Session := "session-1" },
        { Cmd := "sessions.destroy", Session := "session-1" }] ∧
    (∀ get ∈ (authExtractor.fetchSolution goLib feedTask false proxyWorld).2.calls.drop
        proxyWorld.calls.length,
      get.Cmd = "request.get" →
      get.Proxy = none ∧
      ∃ resp, authExtractor.client.httpClient proxyWorld.calls
            { Cmd := "sessions.create", Proxy := authExtractor.proxy } = some resp ∧
          resp.Status = "ok" ∧ resp.Session ≠ "" ∧ get.Session = resp.Session) ∧
    New goLib plainConfig {} = (.ok plainExtractor, proxyWorld) ∧
    (plainExtractor.fetchSolution goLib feedTask false proxyWorld).2.calls =
      [{ feedRequest with Proxy := some { Url := "http://proxy.example.net:3128" } }] ∧
    ∃ proxy, plainExtractor.proxy = some proxy ∧
      proxy.Url = goLib.urlString { Scheme := "http", Host := "proxy.example.net:3128" } ∧
      ∀ req ∈ (plainExtractor.fetchSolution goLib feedTask false proxyWorld).2.calls.drop
          proxyWorld.calls.length,
        req.Cmd ≠ "sessions.create" ∧
        (req.Cmd = "request.get" → req.Proxy = some proxy ∧ req.Session = "") :=
  ⟨by rfl, by rfl,
    (fetchSolution_session_iff_credentials goLib authConfig {} proxyWorld authExtractor
      { Scheme := "http", User := some ⟨"u", some "p"⟩, Host := "proxy.example.net:3128" }
      feedTask false proxyWorld (by rfl) (by decide) (by rfl)).1
      ⟨⟨"u", some "p"⟩, rfl, Or.inl (by decide)⟩,
    by rfl, by rfl,
    (fetchSolution_session_iff_credentials goLib plainConfig {} proxyWorld plainExtractor
      { Scheme := "http", Host := "proxy.example.net:3128" }
      feedTask false proxyWorld (by rfl) (by decide) (by rfl)).2
      (by
        rintro ⟨ui, h, -⟩
        cases h)⟩

/-- C8. In a run of `fetchSolution` in which `sessions.create` is called and
answered with status ok and a session id, the requests of the run are
`sessions.create`, one `request.get` and, last, `sessions.destroy` with that
session id, so that `sessions.destroy` is called exactly once, whatever the
remote fetcher answers to the `request.get` and whatever the later steps do;
and the result of `fetchSolution` is the same for every remote fetcher that
differs only in its replies to `sessions.destroy`. -/
theorem fetchSolution_destroys_session_once (L : GoLib) (e : PwExtractor) (task : Task)
    (ws : Bool) (w : World) (resp : flareResponse)
    (hcalled : ({ Cmd := "sessions.create", Proxy := e.proxy } : flareRequest) ∈
      (e.fetchSolution L task ws w).2.calls.drop w.calls.length)
    (hreply : e.client.httpClient w.calls { Cmd := "sessions.create", Proxy := e.proxy } =
      some resp)
    (hok : resp.Status = "ok") (hid : resp.Session ≠ "") :
    (∃ get : flareRequest, get.Cmd = "request.get" ∧ get.Session = resp.Session ∧
      (e.fetchSolution L task ws w).2.calls =
        w.calls ++ [{ Cmd := "sessions.create", Proxy := e.proxy }, get,
          { Cmd := "sessions.destroy", Session := resp.Session }]) ∧
    ((e.fetchSolution L task ws w).2.calls.drop w.calls.length).filter
        (fun req => req.Cmd = "sessions.destroy") =
      [{ Cmd := "sessions.destroy", Session := resp.Session }] ∧
    ∀ remote : Remote,
      (∀ hist req, req.Cmd ≠ "sessions.destroy" → remote hist req = e.client.httpClient hist req) →
      ((e.withRemote remote).fetchSolution L task ws w).1 = (e.fetchSolution L task ws w).1 := by
  have hshape := fetchSolution_calls L e task ws w
  have hmain : ∃ get : flareRequest, get.Cmd = "request.get" ∧ get.Session = resp.Session ∧
      (e.fetchSolution L task ws w).2.calls =
        w.calls ++ [{ Cmd := "sessions.create", Proxy := e.proxy }, get,
          { Cmd := "sessions.destroy", Session := resp.Session }] := by
    rcases hshape with ⟨hc, -⟩ | ⟨g, hg1, -, -, -, -, hc⟩ | ⟨-, -, hfail, -, -⟩ |
      ⟨resp2, g, -, -, h1, -, -, hg1, -, hg3, -, hc⟩
    · rw [hc] at hcalled
      simp at hcalled
    · rw [hc, List.drop_left] at hcalled
      simp only [List.mem_singleton] at hcalled
      rw [← hcalled] at hg1
      exact absurd hg1 (show "sessions.create" ≠ "request.get" by decide)
    · exact absurd ⟨resp, hreply, hok, hid⟩ hfail
    · rw [hreply] at h1
      injection h1 with h1
      rw [← h1] at hg3 hc
      exact ⟨g, hg1, hg3, hc⟩
  refine ⟨hmain, ?_, fun remote hagree => fetchSolution_result_congr L e remote task ws w hagree⟩
  obtain ⟨get, hg1, -, hc⟩ := hmain
  rw [hc, List.drop_left]
  simp [List.filter, hg1]

set_option maxRecDepth 1000000 in
/-- C8 on the executable library: the remote fetcher opens `session-1` and
fails on `sessions.destroy`; the run still returns the solution. -/
theorem fetchSolution_destroys_session_once_witness :
    (authExtractor.fetchSolution goLib feedTask false proxyWorld).1 =
      .ok ({ Url := "https://example.com/feed", Status := 200, Response := Ref.blogPageText },
        some { Scheme := "https", Host := "example.com", Path := "/feed" }) ∧
    authExtractor.client.destroySession "session-1" proxyWorld =
      (some "flaresolverr error: no such session",
        { proxyWorld with calls := [{ Cmd := "sessions.destroy", Session := "session-1" }] }) ∧
    ((∃ get : flareRequest, get.Cmd = "request.get" ∧ get.Session = "session-1" ∧
      (authExtractor.fetchSolution goLib feedTask false proxyWorld).2.calls =
        proxyWorld.calls ++ [{ Cmd := "sessions.create", Proxy := authExtractor.proxy }, get,
          { Cmd := "sessions.destroy", Session := "session-1" }]) ∧
    ((authExtractor.fetchSolution goLib feedTask false proxyWorld).2.calls.drop
        proxyWorld.calls.length).filter (fun req => req.Cmd = "sessions.destroy") =
      [{ Cmd := "sessions.destroy", Session := "session-1" }] ∧
    ∀ remote : Remote,
      (∀ hist req, req.Cmd ≠ "sessions.destroy" →
        remote hist req = authExtractor.client.httpClient hist req) →
      ((authExtractor.withRemote remote).fetchSolution goLib feedTask false proxyWorld).1 =
        (authExtractor.fetchSolution goLib feedTask false proxyWorld).1) :=
  ⟨by rfl, by rfl,
    fetchSolution_destroys_session_once goLib authExtractor feedTask false proxyWorld
      { Status := "ok", Session := "session-1" } (by decide) (by rfl) (by rfl) (by decide)⟩

set_option maxRecDepth 1000000 in
/-- C16 (counterexample). The source `:foo` is not parseable as a URL, and for
an `img` with that source `extractContent` emits an `img` tag all the same. -/
theorem extractContent_emits_unparsed_src :
    goLib.urlParse ":foo" = none ∧
    extractContent goLib badImgDiv (some { Scheme := "https", Host := "base" }) =
      "<img src=\":foo\"/>" := by
  exact ⟨by rfl, by rfl⟩

/-- A text that is not blank is not empty. -/
theorem ne_empty_of_trimSpace_ne (s : String) (h : trimSpace s ≠ "") : s ≠ "" := by
  intro hs
  apply h
  rw [hs]
  rfl

/-- C16 (amended). At an `img` element, with a base URL, `extractContent`
finishes the paragraph and then: emits nothing when the src attribute is
missing, empty or blank; emits the src unchanged when `url.Parse` rejects it;
and otherwise emits the `String` of the parsed src when that is absolute and
of the src resolved against the base URL when it is not (nothing when that
text is empty). -/
theorem walk_img_emits (L : GoLib) (base : URL) (data : String) (attr : List Attribute)
    (children : List Node) (st : Builders) (htag : toLower L data = "img") :
    (trimSpace (nodeAttr L (.mk .ElementNode data attr children) "src") = "" →
      extractContent.walk L (some base) (.mk .ElementNode data attr children) st =
        finishParagraph st) ∧
    (trimSpace (nodeAttr L (.mk .ElementNode data attr children) "src") ≠ "" →
      L.urlParse (nodeAttr L (.mk .ElementNode data attr children) "src") = none →
      extractContent.walk L (some base) (.mk .ElementNode data attr children) st =
        { finishParagraph st with
          content := (finishParagraph st).content ++ "<img src=\"" ++
            nodeAttr L (.mk .ElementNode data attr children) "src" ++ "\"/>" }) ∧
    (∀ parsed, trimSpace (nodeAttr L (.mk .ElementNode data attr children) "src") ≠ "" →
      L.urlParse (nodeAttr L (.mk .ElementNode data attr children) "src") = some parsed →
      extractContent.walk L (some base) (.mk .ElementNode data attr children) st =
        if (if parsed.IsAbs then L.urlString parsed
            else L.urlString (L.resolveReference base parsed)) = ""
        then finishParagraph st
        else { finishParagraph st with
          content := (finishParagraph st).content ++ "<img src=\"" ++
            (if parsed.IsAbs then L.urlString parsed
              else L.urlString (L.resolveReference base parsed)) ++ "\"/>" }) := by
  rw [walk_img L (some base) data attr children st htag]
  refine ⟨?_, ?_, ?_⟩
  · intro hblank
    unfold addImage absURL
    simp [hblank]
  · intro hblank hparse
    unfold addImage absURL
    simp only [if_neg hblank, hparse]
    rw [if_neg (ne_empty_of_trimSpace_ne _ hblank)]
  · intro parsed hblank hparse
    unfold addImage absURL
    simp only [if_neg hblank, hparse]

set_option maxRecDepth 1000000 in
/-- C16 (amended) on the executable library, at `<img src="/a.png">` with base
URL `https://base`: the emitted src is `https://base/a.png`. -/
theorem walk_img_emits_witness :
    toLower goLib "img" = "img" ∧
    goLib.urlParse "/a.png" = some { Path := "/a.png" } ∧
    extractContent.walk goLib (some { Scheme := "https", Host := "base" })
        (.mk .ElementNode "img" [⟨"src", "/a.png"⟩] []) {} =
      { content := "<img src=\"https://base/a.png\"/>", paragraph := "" } ∧
    (∀ parsed,
      trimSpace (nodeAttr goLib (.mk .ElementNode "img" [⟨"src", "/a.png"⟩] []) "src") ≠ "" →
      goLib.urlParse (nodeAttr goLib (.mk .ElementNode "img" [⟨"src", "/a.png"⟩] []) "src") =
        some parsed →
      extractContent.walk goLib (some { Scheme := "https", Host := "base" })
          (.mk .ElementNode "img" [⟨"src", "/a.png"⟩] []) {} =
        if (if parsed.IsAbs then goLib.urlString parsed
            else goLib.urlString
              (goLib.resolveReference { Scheme := "https", Host := "base" } parsed)) = ""
        then finishParagraph {}
        else { finishParagraph {} with
          content := (finishParagraph {}).content ++ "<img src=\"" ++
            (if parsed.IsAbs then goLib.urlString parsed
              else goLib.urlString
                (goLib.resolveReference { Scheme := "https", Host := "base" } parsed)) ++
            "\"/>" }) :=
  ⟨by rfl, by rfl, by rfl,
    (walk_img_emits goLib { Scheme := "https", Host := "base" } "img" [⟨"src", "/a.png"⟩] [] {}
      (by rfl)).2.2⟩

set_option maxRecDepth 1000000 in
/-- C20 (failing input). For an image inside a `b` element, with text nodes
free of `<` and `>`, `extractContent` closes the paragraph at the image while
`b` is open: the first paragraph holds `<b>` without `</b>`, the last one
`</b>` without `<b>`, and the tags of the output are not well nested. -/
theorem extractContent_img_splits_markup :
    extractContent goLib imgInBoldDiv (some { Scheme := "https", Host := "base" }) =
      "<p><b>bold</p><img src=\"https://base/a.png\"/><p>more </b></p>" ∧
    tagTokens
        (extractContent goLib imgInBoldDiv (some { Scheme := "https", Host := "base" })).data =
      [(false, "p"), (false, "b"), (true, "p"), (false, "img"), (false, "p"), (true, "b"),
        (true, "p")] ∧
    wellNested (tagTokens
        (extractContent goLib imgInBoldDiv (some { Scheme := "https", Host := "base" })).data)
      [] = false := by
  have h : extractContent goLib imgInBoldDiv (some { Scheme := "https", Host := "base" }) =
      "<p><b>bold</p><img src=\"https://base/a.png\"/><p>more </b></p>" := by rfl
  rw [h]
  exact ⟨rfl, by decide, by decide⟩

/-- The first loop of `makeFeed` appends, in order, the feed items of the
items whose link parses. -/
theorem makeFeed_items_eq (L : GoLib) (H : Http.HandlerLib) (task : Task) (items : List FeedItem)
    (feedItems : List Http.FeedsItem) :
    Http.makeFeed.items L H task items feedItems =
      feedItems ++ items.filterMap (Http.makeFeed.item L H task) := by
  induction items generalizing feedItems with
  | nil => simp [Http.makeFeed.items]
  | cons item rest ih =>
    unfold Http.makeFeed.items
    cases hitem : Http.makeFeed.item L H task item with
    | none => simp [ih, List.filterMap_cons, hitem]
    | some feedItem => simp [ih, List.filterMap_cons, hitem]

/-- The id of the feed item that the loop body of `makeFeed` builds for an
item: none when the link does not parse, else the tag of host, date, path and
query. -/
theorem makeFeed_item_id (L : GoLib) (H : Http.HandlerLib) (task : Task) (item : FeedItem) :
    (Http.makeFeed.item L H task item).map (fun feedItem => feedItem.Id) =
      (L.urlParse item.Link).map (fun itemUrl =>
        "tag:" ++ itemUrl.Host ++ "," ++
          (if ¬ item.Created.IsZero = true then H.timeFormat "2006-01-02" item.Created
            else if ¬ item.Updated.IsZero = true then H.timeFormat "2006-01-02" item.Updated
            else "") ++
          ":" ++ itemUrl.Path ++
          (if itemUrl.RawQuery ≠ "" then "?" ++ itemUrl.RawQuery else "")) := by
  unfold Http.makeFeed.item
  cases hparse : L.urlParse item.Link with
  | none => rfl
  | some itemUrl =>
    simp only [Option.map_some']
    congr 1
    simp only [Http.anyTimeFormat]
    by_cases hq : itemUrl.RawQuery = ""
    · have hlen : ¬ itemUrl.RawQuery.length > 0 := by
        rw [hq]
        decide
      rw [if_neg hlen, if_neg (not_not.2 hq), String.append_empty]
    · have hlen : itemUrl.RawQuery.length > 0 := by
        rcases Nat.eq_zero_or_pos itemUrl.RawQuery.length with h0 | h0
        · exact absurd ((length_eq_zero_iff_empty _).1 h0) hq
        · exact h0
      rw [if_pos hlen, if_pos hq]
      simp only [String.append_assoc]

/-- The id of a feed item that the loop body of `makeFeed` builds is not empty. -/
theorem makeFeed_item_id_ne (L : GoLib) (H : Http.HandlerLib) (task : Task) (item : FeedItem)
    (feedItem : Http.FeedsItem) (h : Http.makeFeed.item L H task item = some feedItem) :
    feedItem.Id ≠ "" := by
  have hid := makeFeed_item_id L H task item
  rw [h] at hid
  cases hparse : L.urlParse item.Link with
  | none =>
    rw [hparse] at hid
    cases hid
  | some itemUrl =>
    rw [hparse] at hid
    simp only [Option.map_some', Option.some.injEq] at hid
    intro hempty
    rw [hempty] at hid
    have hlen := congrArg String.length hid
    simp only [String.length_append] at hlen
    have h4 : "tag:".length = 4 := by decide
    have h0 : "".length = 0 := by decide
    omega

/-- The second loop of `makeFeed` returns when the entries from index `i` on
are within the items, and it leaves the ids of the entries as they are. -/
theorem makeFeed_authors_ids (resultItems : List FeedItem) :
    ∀ (entries : List Http.AtomEntry) (i : Nat), i + entries.length ≤ resultItems.length →
      ∃ es, Http.makeFeed.authors resultItems i entries = some es ∧
        es.map (fun e => e.Id) = entries.map (fun e => e.Id) := by
  intro entries
  induction entries with
  | nil =>
    intro i _
    exact ⟨[], by simp [Http.makeFeed.authors]⟩
  | cons entry rest ih =>
    intro i hi
    simp only [List.length_cons] at hi
    obtain ⟨es, hes, hids⟩ := ih (i + 1) (by omega)
    unfold Http.makeFeed.authors
    cases hauthor : entry.Author with
    | none =>
      simp only [hes, Option.map_some']
      exact ⟨entry :: es, rfl, by simp [hids]⟩
    | some author =>
      have hlt : i < resultItems.length := by omega
      simp only [List.getElem?_eq_getElem hlt, hes, Option.map_some']
      exact ⟨_, rfl, by simp [hids]⟩

/-- Claim C11. When the link of some item parses, `makeFeed` builds an Atom
feed and returns its XML text, and the ids of the entries of that feed are, in
order, those of the items whose link parses: `tag:`, the host of the link, a
comma, the date, a colon and the path of the link, followed by `?` and the raw
query exactly when the raw query is not empty; the date is `created` formatted
`2006-01-02` when `created` is not zero, else `updated` so formatted when
`updated` is not zero, else empty. Assumed of gorilla/feeds: `AtomFeed` makes
one entry per item, in order, and keeps the id of an item whose id is not
empty. -/
theorem makeFeed_entry_id (L : GoLib) (H : Http.HandlerLib) (now : Time) (task : Task)
    (result : TaskResult)
    (hatom : ∀ feed : Http.FeedsFeed, (∀ feedItem ∈ feed.Items, feedItem.Id ≠ "") →
      (H.atomFeed feed).Entries.map (fun e => e.Id) = feed.Items.map (fun i => i.Id))
    (hparse : ∃ item ∈ result.Items, L.urlParse item.Link ≠ none) :
    ∃ atomFeed : Http.AtomFeed,
      Http.makeFeed.atom L H now task result = .ok atomFeed ∧
      Http.makeFeed L H now task result =
        (match H.toXML atomFeed with
          | none => .error "feed to xml"
          | some atom => .ok atom) ∧
      atomFeed.Entries.map (fun e => e.Id) =
        result.Items.filterMap (fun item =>
          (L.urlParse item.Link).map (fun itemUrl =>
            "tag:" ++ itemUrl.Host ++ "," ++
              (if ¬ item.Created.IsZero = true then H.timeFormat "2006-01-02" item.Created
                else if ¬ item.Updated.IsZero = true then H.timeFormat "2006-01-02" item.Updated
                else "") ++
              ":" ++ itemUrl.Path ++
              (if itemUrl.RawQuery ≠ "" then "?" ++ itemUrl.RawQuery else ""))) := by
  have hitems : Http.makeFeed.items L H task result.Items [] =
      result.Items.filterMap (Http.makeFeed.item L H task) := by
    rw [makeFeed_items_eq]
    rfl
  have hne : ∀ feedItem ∈ result.Items.filterMap (Http.makeFeed.item L H task),
      feedItem.Id ≠ "" := by
    intro feedItem hmem
    obtain ⟨item, _, hitem⟩ := List.mem_filterMap.1 hmem
    exact makeFeed_item_id_ne L H task item feedItem hitem
  have hpos : (result.Items.filterMap (Http.makeFeed.item L H task)).length ≠ 0 := by
    obtain ⟨item, hmem, hp⟩ := hparse
    cases hitem : Http.makeFeed.item L H task item with
    | none =>
      have hid := makeFeed_item_id L H task item
      rw [hitem] at hid
      cases hu : L.urlParse item.Link with
      | none => exact absurd hu hp
      | some itemUrl =>
        rw [hu] at hid
        cases hid
    | some feedItem =>
      have hin : feedItem ∈ result.Items.filterMap (Http.makeFeed.item L H task) :=
        List.mem_filterMap.2 ⟨item, hmem, hitem⟩
      intro h0
      rw [List.length_eq_zero] at h0
      rw [h0] at hin
      cases hin
  have hatomOk : ∃ atomFeed : Http.AtomFeed,
      Http.makeFeed.atom L H now task result = .ok atomFeed ∧
      atomFeed.Entries.map (fun e => e.Id) =
        (result.Items.filterMap (Http.makeFeed.item L H task)).map (fun i => i.Id) := by
    unfold Http.makeFeed.atom
    lift_lets
    extract_lets feedTS feed src atomFeed
    have hfeed : feed.Items = result.Items.filterMap (Http.makeFeed.item L H task) := hitems
    have hentries : atomFeed.Entries = (H.atomFeed feed).Entries := rfl
    clear_value atomFeed src feed
    have hids := hatom feed (by rw [hfeed]; exact hne)
    have hlen : 0 + atomFeed.Entries.length ≤ result.Items.length := by
      have h1 := congrArg List.length hids
      rw [List.length_map, List.length_map, hfeed] at h1
      rw [Nat.zero_add, hentries, h1]
      exact List.length_filterMap_le _ _
    obtain ⟨es, hes, hesids⟩ := makeFeed_authors_ids result.Items _ 0 hlen
    rw [if_neg (by rw [hfeed]; exact hpos)]
    simp only [hes]
    exact ⟨_, rfl, by rw [hesids, hentries, hids, hfeed]⟩
  obtain ⟨atomFeed, hok, hentries⟩ := hatomOk
  refine ⟨atomFeed, hok, ?_, ?_⟩
  · unfold Http.makeFeed
    rw [hok]
  · rw [hentries, List.map_filterMap]
    congr 1
    funext item
    exact makeFeed_item_id L H task item

/-- The Atom feed of the executable library has one entry per item, in order,
each with the id of its item. -/
theorem Ref.atomFeed_ids (feed : Http.FeedsFeed) :
    (Ref.atomFeed feed).Entries.map (fun e => e.Id) = feed.Items.map (fun i => i.Id) := by
  unfold Ref.atomFeed
  simp only [List.map_map]
  rfl

set_option maxRecDepth 1000000 in
/-- Claim C11 on the executable library, at a result of four items: the first
was created on 2024-01-02 in its own zone (2024-01-03 in UTC) and its link has
a query, the link of the second does not parse, the third has only an update
time and the fourth no time at all. -/
theorem makeFeed_entry_id_witness :
    (∃ item ∈ zonedResult.Items, goLib.urlParse item.Link ≠ none) ∧
    zonedResult.Items.filterMap (fun item =>
      (goLib.urlParse item.Link).map (fun itemUrl =>
        "tag:" ++ itemUrl.Host ++ "," ++
          (if ¬ item.Created.IsZero = true then hLib.timeFormat "2006-01-02" item.Created
            else if ¬ item.Updated.IsZero = true then hLib.timeFormat "2006-01-02" item.Updated
            else "") ++
          ":" ++ itemUrl.Path ++
          (if itemUrl.RawQuery ≠ "" then "?" ++ itemUrl.RawQuery else ""))) =
      ["tag:base,2024-01-02:/late?x=1", "tag:base,2024-01-03:/edited", "tag:base,:/undated"] ∧
    ∃ atomFeed : Http.AtomFeed,
      Http.makeFeed.atom goLib hLib 0 blogTask zonedResult = .ok atomFeed ∧
      Http.makeFeed goLib hLib 0 blogTask zonedResult =
        (match hLib.toXML atomFeed with
          | none => .error "feed to xml"
          | some atom => .ok atom) ∧
      atomFeed.Entries.map (fun e => e.Id) =
        zonedResult.Items.filterMap (fun item =>
          (goLib.urlParse item.Link).map (fun itemUrl =>
            "tag:" ++ itemUrl.Host ++ "," ++
              (if ¬ item.Created.IsZero = true then hLib.timeFormat "2006-01-02" item.Created
                else if ¬ item.Updated.IsZero = true then
                  hLib.timeFormat "2006-01-02" item.Updated
                else "") ++
              ":" ++ itemUrl.Path ++
              (if itemUrl.RawQuery ≠ "" then "?" ++ itemUrl.RawQuery else ""))) :=
  ⟨⟨_, List.mem_cons_self _ _, by decide⟩, by rfl,
    makeFeed_entry_id goLib hLib 0 blogTask zonedResult (fun feed _ => Ref.atomFeed_ids feed)
      ⟨_, List.mem_cons_self _ _, by decide⟩⟩

set_option maxRecDepth 1000000 in
/-- C12 (counterexample). The item has an enclosure, an empty content and an
empty description; `makeFeed` renders it and prepends no `img` tag to the
description, which stays empty. -/
theorem makeFeed_leaves_empty_description :
    bobItem.Enclosure ≠ "" ∧ bobItem.Content = "" ∧ bobItem.Description = "" ∧
    ∃ feedItem, Http.makeFeed.item goLib hLib blogTask bobItem = some feedItem ∧
      feedItem.Description = "" ∧
      feedItem.Description ≠
        Http.imageHTML hLib (Http.absURL goLib bobItem.Enclosure blogTask.URL) ++
          bobItem.Description := by
  refine ⟨by decide, rfl, rfl, _, rfl, by rfl, by decide⟩

/-- C12 (amended). For every item with a non-empty enclosure that `makeFeed`
renders, the `img` tag of the enclosure URL is prepended to the content of the
entry when the content of the item is not empty, and to the description when
the content is empty and the description is not; when both are empty, both
stay empty. -/
theorem makeFeed_prepends_enclosure_image (L : GoLib) (H : Http.HandlerLib) (task : Task)
    (item : FeedItem) (feedItem : Http.FeedsItem)
    (hitem : Http.makeFeed.item L H task item = some feedItem)
    (henc : item.Enclosure ≠ "") :
    (item.Content ≠ "" →
      feedItem.Content =
          Http.imageHTML H (Http.absURL L item.Enclosure task.URL) ++ item.Content ∧
        feedItem.Description = item.Description) ∧
    (item.Content = "" → item.Description ≠ "" →
      feedItem.Description =
          Http.imageHTML H (Http.absURL L item.Enclosure task.URL) ++ item.Description ∧
        feedItem.Content = "") ∧
    (item.Content = "" → item.Description = "" →
      feedItem.Description = "" ∧ feedItem.Content = "") := by
  unfold Http.makeFeed.item at hitem
  cases hparse : L.urlParse item.Link with
  | none => simp [hparse] at hitem
  | some itemUrl =>
    simp only [hparse, Option.some.injEq] at hitem
    rw [← hitem]
    simp only [if_pos henc]
    refine ⟨?_, ?_, ?_⟩
    · intro hc
      simp [hc]
    · intro hc hd
      simp [hc, hd]
    · intro hc hd
      simp [hc, hd]

set_option maxRecDepth 1000000 in
/-- C12 (amended) on the executable library, at an item with content. -/
theorem makeFeed_prepends_enclosure_image_witness :
    Http.makeFeed.item goLib hLib blogTask { bobItem with Content := "<p>text</p>" } =
      some {
        Id := "tag:base,2024-01-02:/b?x=1"
        Title := "B"
        Link := "https://base/b?x=1"
        Author := "Bob"
        Created := 63839761445000000000
        Enclosure := some "https://base/e.png"
        Content := "<img src=\"https://base/e.png\" alt=\"\" /><p>text</p>" } ∧
    (({ bobItem with Content := "<p>text</p>" } : FeedItem).Content ≠ "" →
      ("<img src=\"https://base/e.png\" alt=\"\" /><p>text</p>" : String) =
          Http.imageHTML hLib (Http.absURL goLib
            ({ bobItem with Content := "<p>text</p>" } : FeedItem).Enclosure blogTask.URL) ++
            ({ bobItem with Content := "<p>text</p>" } : FeedItem).Content ∧
        ("" : String) = ({ bobItem with Content := "<p>text</p>" } : FeedItem).Description) :=
  ⟨by rfl,
    (makeFeed_prepends_enclosure_image goLib hLib blogTask { bobItem with Content := "<p>text</p>" }
      { Id := "tag:base,2024-01-02:/b?x=1"
        Title := "B"
        Link := "https://base/b?x=1"
        Author := "Bob"
        Created := 63839761445000000000
        Enclosure := some "https://base/e.png"
        Content := "<img src=\"https://base/e.png\" alt=\"\" /><p>text</p>" }
      (by rfl) (by decide)).1⟩

set_option maxRecDepth 1000000 in
/-- C18 (failing input). The first item of the result is skipped because its
link does not parse; the only entry of the feed is built from the second
item, whose author link is `https://base/bob`, and gets as author URI the
author link of the first item, `https://base/ann`. -/
theorem makeFeed_author_uri_of_other_item :
    Http.makeFeed.item goLib hLib blogTask
        { Title := "A", Created := 63839761445000000000, AuthorName := "Ann", Link := ":bad",
          AuthorLink := "https://base/ann" } = none ∧
    Http.makeFeed.atom goLib hLib 0 blogTask skippedResult =
      .ok {
        Title := "Blog"
        Id := "https://base/blog"
        Updated := "2024-01-02T03:04:05Z"
        Link := "https://base/blog"
        Entries := [
          { Title := "B"
            Id := "tag:base,2024-01-02:/b?x=1"
            Updated := "2024-01-02T03:04:05Z"
            Link := "https://base/b?x=1"
            Author := some { Name := "Bob", Uri := "https://base/ann" } }] } ∧
    bobItem.AuthorLink = "https://base/bob" := by
  exact ⟨by rfl, by rfl, rfl⟩

set_option maxRecDepth 1000000 in
/-- C13 (counterexample). The cache has no entry for the key and the limiter
rejects the client: the limiter is asked, the handler answers 429, and nothing
is enqueued. -/
theorem serve_miss_not_enqueued :
    rejectingHandler.cacheGet (hLib.cacheKey blogRenderTask) = .notFound ∧
    Http.Handler.handleRender.serve goLib hLib rejectingHandler blogRequest 2000 blogRenderTask
        600000000000 "{}" {} =
      (.httpError 429 "Too Many Requests",
        { limits := ["198.51.100.7"], allowCalls := ["198.51.100.7"], enqueued := [] }) := by
  exact ⟨rfl, by rfl⟩

/-- The method `checkRateLimit` asks the limiter of the client once and does
not touch the queue. -/
theorem checkRateLimit_spec (h : Http.Handler) (c : Http.Request) (w : Http.ApiWorld) :
    (h.checkRateLimit c w).1 = h.limiterAllow w.allowCalls c.realIP ∧
    (h.checkRateLimit c w).2.allowCalls = w.allowCalls ++ [c.realIP] ∧
    (h.checkRateLimit c w).2.enqueued = w.enqueued := by
  unfold Http.Handler.checkRateLimit
  simp only []
  split <;> exact ⟨rfl, rfl, rfl⟩

/-- What `handleRender` does when the entry is missing or stale: it asks the
limiter, answers 429 without enqueueing when the limiter rejects, and
enqueues the task otherwise. -/
theorem refresh_spec (L : GoLib) (H : Http.HandlerLib) (h : Http.Handler) (c : Http.Request)
    (now : Time) (task : Task) (encodedTask : String) (w : Http.ApiWorld) :
    (Http.Handler.handleRender.refresh L H h c now task encodedTask w).2.allowCalls =
      w.allowCalls ++ [c.realIP] ∧
    (h.limiterAllow w.allowCalls c.realIP = true →
      (Http.Handler.handleRender.refresh L H h c now task encodedTask w).2.enqueued =
        w.enqueued ++ [(H.cacheKey task, encodedTask)]) ∧
    (h.limiterAllow w.allowCalls c.realIP = false →
      (Http.Handler.handleRender.refresh L H h c now task encodedTask w).2.enqueued =
          w.enqueued ∧
        (Http.Handler.handleRender.refresh L H h c now task encodedTask w).1 =
          .httpError 429 "Too Many Requests") := by
  obtain ⟨h1, h2, h3⟩ := checkRateLimit_spec h c w
  unfold Http.Handler.handleRender.refresh
  rcases hc : h.checkRateLimit c w with ⟨allowed, w1⟩
  rw [hc] at h1 h2 h3
  simp only at h1 h2 h3
  cases allowed with
  | false =>
    refine ⟨h2, ?_, fun _ => ⟨h3, rfl⟩⟩
    intro ha
    rw [← h1] at ha
    cases ha
  | true =>
    simp only []
    cases h.enqueue (H.cacheKey task) encodedTask with
    | none =>
      refine ⟨h2, fun _ => by simp only [h3], ?_⟩
      intro ha
      rw [← h1] at ha
      cases ha
    | some bytes =>
      refine ⟨h2, fun _ => by simp only [h3], ?_⟩
      intro ha
      rw [← h1] at ha
      cases ha

/-- C13 (amended). From the cache lookup on, `handleRender` asks the
per-client rate limiter exactly when the cache has no entry for the key or
the age of the entry is strictly greater than the cache lifetime; it then
enqueues the task when the limiter allows the client, and answers 429 without
enqueueing when it does not. When a fresh entry exists the cached bytes are
rendered, nothing is enqueued and the limiter is not asked; when the cache
fails the answer is 500, with neither. -/
theorem serve_refreshes_iff_missing_or_stale (L : GoLib) (H : Http.HandlerLib)
    (h : Http.Handler) (c : Http.Request) (now : Time) (task : Task)
    (cacheLifetime : Http.Duration) (encodedTask : String) (w : Http.ApiWorld) :
    ((h.cacheGet (H.cacheKey task) = .notFound ∨
        ∃ value cachedTS, h.cacheGet (H.cacheKey task) = .found value cachedTS ∧
          now.Sub cachedTS > cacheLifetime) →
      (Http.Handler.handleRender.serve L H h c now task cacheLifetime encodedTask w).2.allowCalls =
          w.allowCalls ++ [c.realIP] ∧
      (h.limiterAllow w.allowCalls c.realIP = true →
        (Http.Handler.handleRender.serve L H h c now task cacheLifetime encodedTask w).2.enqueued =
          w.enqueued ++ [(H.cacheKey task, encodedTask)]) ∧
      (h.limiterAllow w.allowCalls c.realIP = false →
        (Http.Handler.handleRender.serve L H h c now task cacheLifetime encodedTask w).2.enqueued =
            w.enqueued ∧
          (Http.Handler.handleRender.serve L H h c now task cacheLifetime encodedTask w).1 =
            .httpError 429 "Too Many Requests")) ∧
    (∀ value cachedTS, h.cacheGet (H.cacheKey task) = .found value cachedTS →
      ¬ now.Sub cachedTS > cacheLifetime →
      Http.Handler.handleRender.serve L H h c now task cacheLifetime encodedTask w =
        (Http.Handler.handleRender.render L H now task value, w)) ∧
    (∀ msg, h.cacheGet (H.cacheKey task) = .failed msg →
      Http.Handler.handleRender.serve L H h c now task cacheLifetime encodedTask w =
        (.httpError 500 "cache failed", w)) := by
  refine ⟨?_, ?_, ?_⟩
  · rintro (hmiss | ⟨value, cachedTS, hfound, hstale⟩)
    · have hs : Http.Handler.handleRender.serve L H h c now task cacheLifetime encodedTask w =
          Http.Handler.handleRender.refresh L H h c now task encodedTask w := by
        simp only [Http.Handler.handleRender.serve, hmiss]
      rw [hs]
      exact refresh_spec L H h c now task encodedTask w
    · have hs : Http.Handler.handleRender.serve L H h c now task cacheLifetime encodedTask w =
          Http.Handler.handleRender.refresh L H h c now task encodedTask w := by
        simp only [Http.Handler.handleRender.serve, hfound, if_pos hstale]
      rw [hs]
      exact refresh_spec L H h c now task encodedTask w
  · intro value cachedTS hfound hfresh
    unfold Http.Handler.handleRender.serve
    rw [hfound]
    simp only [if_neg hfresh]
  · intro msg hfail
    unfold Http.Handler.handleRender.serve
    rw [hfail]

set_option maxRecDepth 1000000 in
/-- C13 (amended) on the executable library: an entry stored at instant 1000
is fresh at 2000 for a lifetime of ten minutes and stale for a lifetime of
500 nanoseconds. -/
theorem serve_refreshes_iff_missing_or_stale_witness :
    Http.Handler.handleRender.serve goLib hLib cachingHandler blogRequest 2000 blogRenderTask
        600000000000 "{}" {} =
      (Http.Handler.handleRender.render goLib hLib 2000 blogRenderTask "blog-result", {}) ∧
    (Http.Handler.handleRender.serve goLib hLib cachingHandler blogRequest 2000 blogRenderTask
        500 "{}" {}).2 =
      { limits := ["198.51.100.7"], allowCalls := ["198.51.100.7"],
        enqueued := [(hLib.cacheKey blogRenderTask, "{}")] } ∧
    (Http.Handler.handleRender.serve goLib hLib cachingHandler blogRequest 2000 blogRenderTask
        500 "{}" {}).2.allowCalls = ([] : List String) ++ [blogRequest.realIP] :=
  ⟨(serve_refreshes_iff_missing_or_stale goLib hLib cachingHandler blogRequest 2000
      blogRenderTask 600000000000 "{}" {}).2.1 "blog-result" 1000 rfl (by decide),
    by rfl,
    ((serve_refreshes_iff_missing_or_stale goLib hLib cachingHandler blogRequest 2000
      blogRenderTask 500 "{}" {}).1 (Or.inr ⟨"blog-result", 1000, rfl, by decide⟩)).1⟩

/-- The clamp of the cache lifetime: inside `[0, 24h]`, with the values of
the claim at both ends. -/
theorem cacheLifetime_spec (debug : Bool) (parsed : Http.Duration) :
    0 ≤ Http.Handler.handleRender.cacheLifetime debug parsed ∧
    Http.Handler.handleRender.cacheLifetime debug parsed ≤ 86400000000000 ∧
    (debug = true → Http.Handler.handleRender.cacheLifetime debug parsed = 0) ∧
    (debug = false → parsed < 0 → Http.Handler.handleRender.cacheLifetime debug parsed = 0) ∧
    (debug = false → 86400000000000 < parsed →
      Http.Handler.handleRender.cacheLifetime debug parsed = 86400000000000) ∧
    (debug = false → 0 ≤ parsed → parsed ≤ 86400000000000 →
      Http.Handler.handleRender.cacheLifetime debug parsed = parsed) := by
  have hdef : Http.Handler.handleRender.cacheLifetime debug parsed =
      if debug = true then (0 : Int)
      else if (if parsed < 0 then (0 : Int) else parsed) > 86400000000000 then 86400000000000
      else (if parsed < 0 then (0 : Int) else parsed) := by
    cases debug <;> rfl
  rw [hdef]
  unfold Http.Duration at *
  cases debug with
  | true => simp
  | false =>
    simp only [Bool.false_eq_true, if_false]
    refine ⟨?_, ?_, ?_, ?_, ?_, ?_⟩
    · split_ifs <;> omega
    · split_ifs <;> omega
    · intro h
      cases h
    · intro _ h
      split_ifs <;> omega
    · intro _ h
      split_ifs <;> omega
    · intro _ h1 h2
      split_ifs <;> omega

/-- C14. For a request whose specs decode and whose cache lifetime parses as
a duration, `handleRender` serves with a lifetime that lies in `[0, 24h]`: 0
for a negative duration, 24h for a duration above 24h, the duration itself
inside the range, and 0 whatever the duration when debug is on. -/
theorem handleRender_lifetime_clamped (L : GoLib) (H : Http.HandlerLib) (h : Http.Handler)
    (c : Http.Request) (now : Time) (w : Http.ApiWorld) (specs : Http.Specs)
    (parsed : Http.Duration)
    (hspecs : Http.Handler.decodeSpecs H c.specs = .ok specs)
    (hfrom : specs.CreatedExtractFrom ≠ .Invalid)
    (hparsed : H.parseDuration specs.CacheLifetime = some parsed)
    (hmarshal : ∀ task : Task, H.marshalTask task ≠ none) :
    (∃ task lifetime encodedTask,
      h.handleRender L H c now w =
        Http.Handler.handleRender.serve L H h c now task lifetime encodedTask w ∧
      lifetime = Http.Handler.handleRender.cacheLifetime h.debug parsed ∧
      0 ≤ lifetime ∧ lifetime ≤ 86400000000000 ∧
      (h.debug = true → lifetime = 0) ∧
      (h.debug = false → parsed < 0 → lifetime = 0) ∧
      (h.debug = false → 86400000000000 < parsed →
        lifetime = 86400000000000) ∧
      (h.debug = false → 0 ≤ parsed → parsed ≤ 86400000000000 →
        lifetime = parsed)) := by
  obtain ⟨c1, c2, c3, c4, c5, c6⟩ := cacheLifetime_spec h.debug parsed
  unfold Http.Handler.handleRender
  simp only [hspecs]
  cases hf : specs.CreatedExtractFrom with
  | Invalid => exact absurd hf hfrom
  | InnerText =>
    simp only [hparsed]
    split
    · rename_i hnone
      exact absurd hnone (hmarshal _)
    · exact ⟨_, _, _, rfl, rfl, c1, c2, c3, c4, c5, c6⟩
  | Attribute =>
    simp only [hparsed]
    split
    · rename_i hnone
      exact absurd hnone (hmarshal _)
    · exact ⟨_, _, _, rfl, rfl, c1, c2, c3, c4, c5, c6⟩

set_option maxRecDepth 1000000 in
/-- C14 on the executable library: the specs of `blogRequest` ask for ten
minutes, which `handleRender` keeps. -/
theorem handleRender_lifetime_clamped_witness :
    Http.Handler.decodeSpecs hLib blogRequest.specs = .ok Ref.blogSpecs ∧
    hLib.parseDuration Ref.blogSpecs.CacheLifetime = some 600000000000 ∧
    Http.Handler.handleRender.cacheLifetime false 600000000000 = 600000000000 ∧
    Http.Handler.handleRender.cacheLifetime false (-5) = 0 ∧
    Http.Handler.handleRender.cacheLifetime false 172800000000000 = 86400000000000 ∧
    Http.Handler.handleRender.cacheLifetime true 600000000000 = 0 ∧
    ∃ task lifetime encodedTask,
      cachingHandler.handleRender goLib hLib blogRequest 2000 {} =
        Http.Handler.handleRender.serve goLib hLib cachingHandler blogRequest 2000 task lifetime
          encodedTask {} ∧
      lifetime = Http.Handler.handleRender.cacheLifetime cachingHandler.debug 600000000000 ∧
      0 ≤ lifetime ∧ lifetime ≤ 86400000000000 ∧
      (cachingHandler.debug = true → lifetime = 0) ∧
      (cachingHandler.debug = false → (600000000000 : Http.Duration) < 0 → lifetime = 0) ∧
      (cachingHandler.debug = false → 86400000000000 < (600000000000 : Http.Duration) →
        lifetime = 86400000000000) ∧
      (cachingHandler.debug = false → 0 ≤ (600000000000 : Http.Duration) →
        (600000000000 : Http.Duration) ≤ 86400000000000 → lifetime = 600000000000) :=
  ⟨by rfl, by rfl, by rfl, by rfl, by rfl, by rfl,
    handleRender_lifetime_clamped goLib hLib cachingHandler blogRequest 2000 {}
      Ref.blogSpecs 600000000000 (by rfl) (by decide) (by rfl)
      (fun _ h => Option.noConfusion h)⟩

set_option maxRecDepth 1000000 in
/-- C15 (failing input). The bytes of a deflate stream that holds `{}` have
the unpadded base64url text `AQIA_f97fQ`. `decodeSpecs` rejects that text at
the base64 step, with and without a version, because it decodes with the
standard alphabet, in which the same bytes read `AQIA/f97fQ`. -/
theorem decodeSpecs_rejects_base64url :
    Ref.base64Encode Ref.urlAlphabet [1, 2, 0, 253, 255, 123, 125] = "AQIA_f97fQ" ∧
    Ref.base64Decode Ref.urlAlphabet "AQIA_f97fQ" = some [1, 2, 0, 253, 255, 123, 125] ∧
    hLib.base64StdNoPadding "AQIA_f97fQ" = none ∧
    Http.Handler.decodeSpecs hLib "AQIA_f97fQ" = .error "failed to decode specs" ∧
    Http.Handler.decodeSpecs hLib "0:AQIA_f97fQ" = .error "failed to decode specs" ∧
    Http.Handler.decodeSpecs hLib "1:AQIA_f97fQ" = .error "failed to decode specs" ∧
    Ref.base64Encode Ref.stdAlphabet [1, 2, 0, 253, 255, 123, 125] = "AQIA/f97fQ" ∧
    Http.Handler.decodeSpecs hLib "0:AQIA/f97fQ" = .ok Ref.blogSpecs := by
  exact ⟨by rfl, by rfl, by rfl, by rfl, by rfl, by rfl, by rfl, by rfl⟩

/-- C17 (failing inputs). When the query parameter `url` is missing and
`url.Parse` accepts the empty text, `handlePageScreenshot` does not answer
with status 400: with a limiter that allows the client it enqueues a
screenshot task whose URL is empty. -/
theorem handlePageScreenshot_enqueues_empty_url (L : GoLib) (H : Http.HandlerLib)
    (h : Http.Handler) (c : Http.Request) (w : Http.ApiWorld) (parsed : URL)
    (encodedTask : String) (hurl : c.url = "") (hparse : L.urlParse "" = some parsed)
    (hmarshal : H.marshalTask
      { TaskType := .PageScreenshot, URL := "", Headers := some (Http.extractHeaders c) } =
      some encodedTask)
    (hallow : h.limiterAllow w.allowCalls c.realIP = true) :
    (h.handlePageScreenshot L H c w).1.status ≠ some 400 ∧
    (h.handlePageScreenshot L H c w).2.enqueued =
      w.enqueued ++
        [(H.cacheKey
            { TaskType := .PageScreenshot, URL := "", Headers := some (Http.extractHeaders c) },
          encodedTask)] := by
  obtain ⟨h1, -, h3⟩ := checkRateLimit_spec h c w
  unfold Http.Handler.handlePageScreenshot
  simp only [hurl, hparse, hmarshal]
  rcases hc : h.checkRateLimit c w with ⟨allowed, w1⟩
  rw [hc] at h1 h3
  simp only at h1 h3
  rw [hallow] at h1
  subst h1
  simp only []
  cases h.enqueue _ encodedTask with
  | none => exact ⟨by simp [Http.Reply.status], by simp only [h3]⟩
  | some bytes =>
    simp only []
    cases H.unmarshalScreenshot bytes with
    | none => exact ⟨by simp [Http.Reply.status], by simp only [h3]⟩
    | some image => exact ⟨by simp [Http.Reply.status], by simp only [h3]⟩

set_option maxRecDepth 1000000 in
/-- C17 on the executable library: a request without `url` is enqueued and
answered with status 500. -/
theorem handlePageScreenshot_enqueues_empty_url_witness :
    goLib.urlParse "" = some {} ∧
    cachingHandler.handlePageScreenshot goLib hLib { realIP := "198.51.100.7" } {} =
      (.httpError 500 "task result unmarshal failed",
        { limits := ["198.51.100.7"], allowCalls := ["198.51.100.7"],
          enqueued := [(hLib.cacheKey emptyUrlTask, (Ref.marshalTask emptyUrlTask).getD "")] }) ∧
    (cachingHandler.handlePageScreenshot goLib hLib { realIP := "198.51.100.7" } {}).1.status ≠
      some 400 ∧
    (cachingHandler.handlePageScreenshot goLib hLib { realIP := "198.51.100.7" } {}).2.enqueued =
      [] ++ [(hLib.cacheKey
          { TaskType := .PageScreenshot, URL := "",
            Headers := some (Http.extractHeaders { realIP := "198.51.100.7" }) },
        (Ref.marshalTask emptyUrlTask).getD "")] :=
  ⟨by rfl, by rfl,
    handlePageScreenshot_enqueues_empty_url goLib hLib cachingHandler { realIP := "198.51.100.7" }
      {} {} ((Ref.marshalTask emptyUrlTask).getD "") rfl (by rfl) (by rfl) rfl⟩

/-- C19 (failing inputs). For a decoded task whose type is neither Extract
nor PageScreenshot, with the variable `err` of `main` nil, the queue handler
runs no extractor and returns the cache key of the task, the JSON of the nil
result as payload, and no error. -/
theorem handler_returns_payload_for_unknown_type (L : GoLib) (H : Http.HandlerLib)
    (pwe : PwExtractor) (taskPayload : String) (task : Task) (payload : String) (w : World)
    (hdecode : H.unmarshalTask taskPayload = some task)
    (htype : task.TaskType = .Unknown)
    (hmarshal : H.marshalResult none = some payload) :
    Worker.handler L H pwe taskPayload none w =
      (.returned (H.cacheKey task) (some payload) none, none, w) := by
  unfold Worker.handler
  simp only [hdecode, htype, hmarshal]

set_option maxRecDepth 1000000 in
/-- C19 on the executable library: the payload is `null`. -/
theorem handler_returns_payload_for_unknown_type_witness :
    hLib.unmarshalTask "unknown-task" = some { blogTask with TaskType := .Unknown } ∧
    hLib.marshalResult none = some "null" ∧
    Worker.handler goLib hLib authExtractor "unknown-task" none proxyWorld =
      (.returned (hLib.cacheKey { blogTask with TaskType := .Unknown }) (some "null") none,
        none, proxyWorld) :=
  ⟨by rfl, by rfl,
    handler_returns_payload_for_unknown_type goLib hLib authExtractor "unknown-task"
      { blogTask with TaskType := .Unknown } "null" proxyWorld (by rfl) rfl (by rfl)⟩

/-- When the part of `fetchSolution` that sends the request returns a solution,
the base URL it returns with it is the parsed final URL of the solution
whenever `url.Parse` accepts that text, and the parsed task URL otherwise. -/
theorem send_base (L : GoLib) (e : PwExtractor) (task : Task) (cookieStr : String)
    (cookies : List (String × String)) (req : flareRequest) (w : World)
    (solution : flareSolution) (baseURL : Option URL)
    (hret : (PwExtractor.fetchSolution.send L e task cookieStr cookies req w).1 =
      .ok (solution, baseURL)) :
    baseURL = match L.urlParse solution.Url with
      | some parsed => some parsed
      | none => parseURL L task.URL := by
  revert hret
  unfold PwExtractor.fetchSolution.send
  rcases e.client.do req w with ⟨r, w1⟩
  cases r with
  | error m => intro hret; cases hret
  | ok resp =>
    simp only []
    cases resp.Solution with
    | none => intro hret; cases hret
    | some found =>
      simp only []
      rcases PwExtractor.fetchSolution.checkFinal L e found w1 with ⟨r2, w2⟩
      cases r2 with
      | some m => intro hret; cases hret
      | none =>
        intro hret
        simp only [Outcome.ok.injEq, Prod.mk.injEq] at hret
        obtain ⟨hsol, hbase⟩ := hret
        subst hsol
        rw [← hbase]
        unfold parseURL
        cases L.urlParse found.Url <;> rfl

/-- The base URL that `fetchSolution` returns with a solution: the parsed
final URL of the solution whenever `url.Parse` accepts that text, and the
parsed task URL otherwise. -/
theorem fetchSolution_base (L : GoLib) (e : PwExtractor) (task : Task) (ws : Bool) (w : World)
    (solution : flareSolution) (baseURL : Option URL)
    (hret : (e.fetchSolution L task ws w).1 = .ok (solution, baseURL)) :
    baseURL = match L.urlParse solution.Url with
      | some parsed => some parsed
      | none => parseURL L task.URL := by
  revert hret
  unfold PwExtractor.fetchSolution
  rcases parseBaseDomain L task.URL with ⟨domain, scheme⟩ | m | m
  · simp only []
    cases e.limiter domain with
    | none => intro hret; cases hret
    | some waitFor =>
      simp only []
      rcases allowHost L e.proxyIP task.URL w.dnsCache with ⟨r, cache⟩
      rcases r with m | b
      · intro hret; cases hret
      · cases b with
        | false => intro hret; cases hret
        | true =>
          simp only []
          cases e.proxy with
          | none =>
            intro hret
            exact send_base L e task _ _ _ _ solution baseURL hret
          | some proxy =>
            simp only []
            by_cases ha : e.proxyHasAuth = true
            · rw [if_pos ha]
              rcases e.client.createSession (some proxy) { w with dnsCache := cache }
                with ⟨r, w1⟩
              cases r with
              | error m => intro hret; cases hret
              | ok session =>
                intro hret
                exact send_base L e task _ _ _ _ solution baseURL hret
            · rw [if_neg ha]
              intro hret
              exact send_base L e task _ _ _ _ solution baseURL hret
  · intro hret; cases hret
  · intro hret; cases hret

/-- Claim C21 (the code differs): whenever `fetchSolution` returns a solution
whose final URL is empty, the base URL it returns is the URL that `url.Parse`
builds from the empty text, which is the URL with every part empty: the
fallback to the parsed task URL is not taken. So the base differs from the
parsed task URL whenever that is not the empty URL, and every link is resolved
by `absURL` against the empty URL. -/
theorem fetchSolution_empty_final_url_base (L : GoLib) (e : PwExtractor) (task : Task)
    (wantScreenshot : Bool) (w : World) (solution : flareSolution) (baseURL : Option URL)
    (hret : (e.fetchSolution L task wantScreenshot w).1 = .ok (solution, baseURL))
    (hurl : solution.Url = "")
    (hparse : L.urlParse "" = some ({} : URL)) :
    baseURL = some ({} : URL) ∧
    (parseURL L task.URL ≠ some ({} : URL) → baseURL ≠ parseURL L task.URL) ∧
    ∀ link : String, absURL L link baseURL = absURL L link (some ({} : URL)) := by
  have hbase := fetchSolution_base L e task wantScreenshot w solution baseURL hret
  rw [hurl, hparse] at hbase
  simp only [] at hbase
  subst hbase
  exact ⟨rfl, fun h heq => h heq.symm, fun _ => rfl⟩

set_option maxRecDepth 1000000 in
/-- The theorem for C21 at a concrete run: the remote answers the `request.get`
for `https://example.com/feed` with the blog page and an empty final URL;
`fetchSolution` returns the empty URL as base, not the parsed task URL, and the
link `/p/1` stays as it is where the task URL would give
`https://example.com/p/1`. -/
theorem fetchSolution_empty_final_url_base_witness :
    (silentExtractor.fetchSolution goLib feedTask false proxyWorld).1 =
      .ok ({ Url := "", Status := 200, Response := Ref.blogPageText }, some ({} : URL)) ∧
    goLib.urlParse "" = some ({} : URL) ∧
    parseURL goLib feedTask.URL =
      some { Scheme := "https", Host := "example.com", Path := "/feed" } ∧
    absURL goLib "/p/1" (some ({} : URL)) = "/p/1" ∧
    absURL goLib "/p/1" (parseURL goLib feedTask.URL) = "https://example.com/p/1" ∧
    (some ({} : URL) = some ({} : URL) ∧
      (parseURL goLib feedTask.URL ≠ some ({} : URL) →
        some ({} : URL) ≠ parseURL goLib feedTask.URL) ∧
      ∀ link : String, absURL goLib link (some ({} : URL)) =
        absURL goLib link (some ({} : URL))) :=
  ⟨by rfl, by rfl, by rfl, by rfl, by rfl,
    fetchSolution_empty_final_url_base goLib silentExtractor feedTask false proxyWorld
      { Url := "", Status := 200, Response := Ref.blogPageText } (some {})
      (by rfl) (by rfl) (by rfl)⟩

set_option maxRecDepth 1000000 in
/-- With an empty final URL, `Extract` leaves the relative links of the page
as they are: the icon `/icon.png` and the link `/p/1` of the blog page are
returned unresolved for the task URL `https://example.com/feed`. -/
theorem Extract_empty_final_url_leaves_links :
    (silentExtractor.Extract goLib feedTask proxyWorld).1 = .ok silentResult ∧
    silentResult.Icon = "/icon.png" ∧
    silentResult.Items.map (fun item => item.Link) = ["/p/1", "https://other.example/p/2"] :=
  ⟨by rfl, by rfl, by rfl⟩

end RssAlchemy
